import Mathlib

/-!
# Guess: the matching, selection and learning engine (`src/engine`)

A shallow embedding of `calculateProfileScores` and `getBestMatch` (`matcher.js`),
`selectNextQuestion` (`quiz.js`) and `updateProfileLearning` (`learner.js`).

Modelling conventions.

* A JavaScript object used as a dictionary is the list of its own properties in
  insertion order (`JsObj`).  `Object.entries` enumerates the properties whose name
  is an array index first, in ascending numeric order, and then the other
  properties in insertion order (`JsObj.entries`).
* Property names are strings.  A read `o[k]` of the objects `profile.answers` and
  `learning`, whose name comes from the answer set, yields the own property `k`, or
  else the function or object that `Object.prototype` defines under that name
  (`constructor`, `toString`, ..., `JsObj.read`): such a value is truthy and `===`
  to no string.  The score map and the counters are read at names they own.  A write
  `o[k] = v` creates or replaces an own property; the name `__proto__`, whose write
  is a call of the inherited setter, is not modelled as a written name.
  Answer values are strings, compared with `===`; the empty string is the falsy one.
* The scores of `calculateProfileScores` are sums of `1` and `0.5`, which binary
  floating point represents exactly: they are exact rationals, and so is the
  confidence, with the constants `0.7`, `0.3` and `0.001` taken at their decimal
  value.  The split score of `selectNextQuestion` is computed as the code computes
  it, in double precision (`roundDouble`): which question has the greater score can
  depend on the rounding.
* `null` and `undefined` are `none`.
* `Array.prototype.sort` is stable, so the sorted array is determined by the
  comparator; it is embedded as a stable insertion sort.  It sorts the array in
  place: `selectNextQuestion` returns, next to the question, the array
  `availableQuestions` as the call leaves it.  The `order` of a question is an integer.
* The `profiles` collection is the list of its documents together with the log of the
  accesses made to it (`Store`); `findOne` and `updateOne` act on the first document
  with the given identity, and each `await` is a sequential step.  The counters of a
  learning record are integers.  Question identities hold no `.`, so that the path
  `answers.<questionId>` of a `$set` names one field of `answers`.
-/

namespace Guess

/-! ## JavaScript objects as dictionaries -/

/-- Own properties of an object, in insertion order. -/
abbrev JsObj (α : Type) := List (String × α)

/-- Value of a run of decimal digits read after the prefix value `acc`;
`none` when a character is not a decimal digit. -/
def digitsValue : List Char → Nat → Option Nat
  | [], acc => some acc
  | c :: cs, acc =>
    if 48 ≤ c.toNat ∧ c.toNat ≤ 57 then digitsValue cs (acc * 10 + (c.toNat - 48)) else none

/-- The array index a property name denotes, if it is one: a canonical decimal
numeral (no sign, no leading zero) with value below `2^32 - 1`. -/
def arrayIndex? (k : String) : Option Nat :=
  match k.data with
  | [] => none
  | [c] => digitsValue [c] 0
  | c :: cs =>
    if c = '0' then none
    else
      match digitsValue (c :: cs) 0 with
      | some n => if n < 4294967295 then some n else none
      | none => none

/-- Names of the properties every object inherits from `Object.prototype`: eleven
functions and the accessor `__proto__`, whose value is `Object.prototype` itself. -/
def inheritedNames : List String :=
  ["constructor", "__defineGetter__", "__defineSetter__", "hasOwnProperty",
    "__lookupGetter__", "__lookupSetter__", "isPrototypeOf", "propertyIsEnumerable",
    "toString", "valueOf", "__proto__", "toLocaleString"]

/-- Outcome of a property read `o[k]`: `undefined`, the value of the own property, or
the function or object inherited from `Object.prototype`. -/
inductive Read (α : Type) where
  | undefined
  | own (value : α)
  | inherited
  deriving DecidableEq, Repr

namespace JsObj

variable {α : Type}

/-- Own property `k` of `o`: `none` when `o` has no own property `k`. -/
def get (o : JsObj α) (k : String) : Option α :=
  match o with
  | [] => none
  | (k', v) :: rest => if k' = k then some v else get rest k

/-- Property read `o[k]`: the own property if there is one, otherwise what
`Object.prototype` defines under the name `k`, otherwise `undefined`. -/
def read (o : JsObj α) (k : String) : Read α :=
  match o.get k with
  | some v => Read.own v
  | none => if k ∈ inheritedNames then Read.inherited else Read.undefined

/-- Property write `o[k] = v`: an existing property keeps its place, a new one
is added last. -/
def set (o : JsObj α) (k : String) (v : α) : JsObj α :=
  match o with
  | [] => [(k, v)]
  | (k', v') :: rest => if k' = k then (k, v) :: rest else (k', v') :: set rest k v

/-- Insert an index-named property into a list ordered by ascending index. -/
def insertIndexed (n : Nat) (e : String × α) : List (Nat × String × α) → List (Nat × String × α)
  | [] => [(n, e)]
  | (m, e') :: rest =>
    if n < m then (n, e) :: (m, e') :: rest else (m, e') :: insertIndexed n e rest

/-- The index-named properties of `o`, ordered by ascending index. -/
def indexed : JsObj α → List (Nat × String × α)
  | [] => []
  | e :: rest =>
    match arrayIndex? e.1 with
    | some n => insertIndexed n e (indexed rest)
    | none => indexed rest

/-- Enumeration `Object.entries(o)`: index-named properties in ascending numeric order,
then the others in insertion order. -/
def entries (o : JsObj α) : List (String × α) :=
  (indexed o).map Prod.snd ++ o.filter (fun e => (arrayIndex? e.1).isNone)

/-- Property names of `o`, in insertion order. -/
def keys (o : JsObj α) : List String := o.map Prod.fst

end JsObj

/-! ## Data model -/

/-- The learning counters of one profile for one question. -/
structure LearningRecord where
  yes : Int
  no : Int
  unsure : Int
  total : Int
  deriving DecidableEq, Repr

/-- A candidate profile: its identity `_id`, its expected answers per question and its
learning records per question (`answers` and `learning` may be missing from the
record). -/
structure Profile where
  _id : String
  answers : Option (JsObj String)
  learning : Option (JsObj LearningRecord) := none
  deriving DecidableEq, Repr

/-! ## `calculateProfileScores` -/

/-- First loop of `calculateProfileScores`: `scores[profile._id] = 0` for every profile. -/
def initScores (profiles : List Profile) : JsObj ℚ :=
  profiles.foldl (fun scores profile => scores.set profile._id 0) []

/-- Compound assignment `scores[k] += d`.  The first loop has created the own property
for every profile before the second loop runs, so the read never misses there. -/
def addTo (scores : JsObj ℚ) (k : String) (d : ℚ) : JsObj ℚ :=
  match scores.get k with
  | some v => scores.set k (v + d)
  | none => scores

/-- Body of the inner loop of `calculateProfileScores` for one answer and one profile.
An inherited `profile.answers[questionId]` passes the guard, equals no user answer and
is not `'unsure'`, so that `0.5` is added exactly when the user answer is `'unsure'`. -/
def scoreStep (questionId userAnswer : String) (scores : JsObj ℚ) (profile : Profile) :
    JsObj ℚ :=
  match profile.answers with
  | none => scores
  | some profileAnswers =>
    match profileAnswers.read questionId with
    | Read.undefined => scores
    | Read.own profileAnswer =>
      if profileAnswer = "" then scores
      else if userAnswer = profileAnswer then addTo scores profile._id 1
      else if userAnswer = "unsure" ∨ profileAnswer = "unsure" then
        addTo scores profile._id (1 / 2)
      else scores
    | Read.inherited =>
      if userAnswer = "unsure" then addTo scores profile._id (1 / 2) else scores

/-- Scores of all profiles for the given answers. -/
def calculateProfileScores (answers : JsObj String) (profiles : List Profile) : JsObj ℚ :=
  (JsObj.entries answers).foldl
    (fun scores qa => profiles.foldl (scoreStep qa.1 qa.2) scores)
    (initScores profiles)

/-- What one pass of the inner loop body adds to `scores[profile._id]`. -/
def stepDelta (questionId userAnswer : String) (profile : Profile) : ℚ :=
  match profile.answers with
  | none => 0
  | some profileAnswers =>
    match profileAnswers.read questionId with
    | Read.undefined => 0
    | Read.own profileAnswer =>
      if profileAnswer = "" then 0
      else if userAnswer = profileAnswer then 1
      else if userAnswer = "unsure" ∨ profileAnswer = "unsure" then 1 / 2
      else 0
    | Read.inherited => if userAnswer = "unsure" then 1 / 2 else 0

/-- What one pass of the inner loop over `profiles` adds to `scores[k]`. -/
def passDelta (profiles : List Profile) (questionId userAnswer k : String) : ℚ :=
  ((profiles.filter (fun p => p._id = k)).map (stepDelta questionId userAnswer)).sum

/-- What the whole second loop adds to `scores[k]` for the enumerated answers `es`. -/
def answersDelta (profiles : List Profile) (es : List (String × String)) (k : String) : ℚ :=
  (es.map (fun qa => passDelta profiles qa.1 qa.2 k)).sum

/-! ### The scoring rule in the words of the specification -/

/-- The expected answer a profile defines for a question, if it defines one: the own
property of `profile.answers`. -/
def expectedAnswer (profile : Profile) (questionId : String) : Option String :=
  match profile.answers with
  | none => none
  | some profileAnswers => profileAnswers.get questionId

/-- Contribution of one answered question: nothing when the profile defines no expected
answer, `1` on an exact match, `0.5` when the answers differ and one of them is
`unsure`, `0` when they differ and neither is `unsure`. -/
def specContribution (userAnswer : String) (expected : Option String) : ℚ :=
  match expected with
  | none => 0
  | some profileAnswer =>
    if userAnswer = profileAnswer then 1
    else if userAnswer = "unsure" ∨ profileAnswer = "unsure" then 1 / 2
    else 0

/-- Sum of the contributions of all answered questions for one profile. -/
def specScore (answers : JsObj String) (profile : Profile) : ℚ :=
  (answers.map (fun qa => specContribution qa.2 (expectedAnswer profile qa.1))).sum

/-! ## `getBestMatch` -/

/-- Insertion step of the stable sort with comparator `(a, b) => b[1] - a[1]`:
`a` is placed before the first entry `b` whose comparison `b[1] - a[1]` is not positive. -/
def insertByScore (a : String × ℚ) : List (String × ℚ) → List (String × ℚ)
  | [] => [a]
  | b :: rest => if b.2 - a.2 ≤ 0 then a :: b :: rest else b :: insertByScore a rest

/-- The array `entries.sort((a, b) => b[1] - a[1])`: highest score first, entries of
equal score in their original order. -/
def sortByScore : List (String × ℚ) → List (String × ℚ)
  | [] => []
  | a :: rest => insertByScore a (sortByScore rest)

/-- An element of `alternativeProfiles`. -/
structure Alternative where
  profile : Option Profile
  score : ℚ
  deriving DecidableEq

/-- The object returned by `getBestMatch`; the no-candidate result has no
`alternativeProfiles` property. -/
structure MatchResult where
  profile : Option Profile
  confidence : ℚ
  alternativeProfiles : Option (List Alternative)
  deriving DecidableEq

/-- The lookup `profiles.find(p => p._id === id)`. -/
def findProfile (profiles : List Profile) (id : String) : Option Profile :=
  profiles.find? (fun p => p._id = id)

/-- Best matching profile, confidence and runner-ups for a score map. -/
def getBestMatch (scores : JsObj ℚ) (profiles : List Profile) (answerCount : Nat) :
    MatchResult :=
  let sortedScores := sortByScore (JsObj.entries scores)
  match sortedScores with
  | [] => { profile := none, confidence := 0, alternativeProfiles := none }
  | top :: rest =>
    let topProfile := findProfile profiles top.1
    let confidence : ℚ :=
      match rest with
      | runnerUp :: _ =>
        let topScore := top.2
        let runnerUpScore := runnerUp.2
        let separation := (topScore - runnerUpScore) / max topScore 0.001
        let rawScore := topScore / max (answerCount : ℚ) 1
        rawScore * 0.7 + separation * 0.3
      | [] => top.2 / max (answerCount : ℚ) 1
    { profile := topProfile
      confidence := confidence
      alternativeProfiles :=
        some ((((top :: rest).drop 1).take 3).map
          (fun e => { profile := findProfile profiles e.1, score := e.2 })) }

/-! ### The confidence formula in the words of the specification -/

/-- The highest of a list of scores (`0` for the empty list). -/
def highestScore : List ℚ → ℚ
  | [] => 0
  | [x] => x
  | x :: y :: rest => max x (highestScore (y :: rest))

/-- Reference confidence of a list of scores: a single score is divided by
`max(answerCount, 1)`; with two or more scores, `top` and `runnerUp` being the two
highest, it is `0.7 * (top / max(answerCount, 1)) + 0.3 * ((top - runnerUp) / max(top, 0.001))`. -/
def specConfidence (values : List ℚ) (answerCount : Nat) : ℚ :=
  match values with
  | [] => 0
  | [only] => only / max (answerCount : ℚ) 1
  | _ :: _ :: _ =>
    let top := highestScore values
    let runnerUp := highestScore (values.erase top)
    0.7 * (top / max (answerCount : ℚ) 1) + 0.3 * ((top - runnerUp) / max top 0.001)

/-! ## Double-precision arithmetic -/

/-- The integer nearest to the non-negative rational `n / d`, a tie going to the even
one. -/
def roundHalfEven (n d : Nat) : Nat :=
  let floor := n / d
  let rest := n % d
  if 2 * rest < d then floor
  else if d < 2 * rest then floor + 1
  else if floor % 2 = 0 then floor
  else floor + 1

/-- The position of the highest binary digit of `n`, which is `0` for `n < 2`, found
by at most `fuel` halvings; `fuel = n` is enough. -/
def highestBit : Nat → Nat → Nat
  | 0, _ => 0
  | fuel + 1, n => if n < 2 then 0 else highestBit fuel (n / 2) + 1

/-- The double nearest to a rational, a tie going to the even significand: the
rational is scaled by a power of two into `[2^52, 2^53)`, rounded to an integer and
scaled back.  The exponent is not bounded: the values of the split-score computation
(quotients of array lengths, their differences with `0.5`, squares and sums of these)
lie in the normal range of doubles. -/
def roundDouble (x : ℚ) : ℚ :=
  if x = 0 then 0
  else
    let n : Nat := x.num.natAbs
    let d : Nat := x.den
    let e₀ : Int := (highestBit n n : Int) - (highestBit d d : Int) - 52
    let small : Bool :=
      if 0 ≤ e₀ then decide (n < 2 ^ 52 * (d * 2 ^ e₀.toNat))
      else decide (n * 2 ^ (-e₀).toNat < 2 ^ 52 * d)
    let e : Int := if small then e₀ - 1 else e₀
    let significand : Nat :=
      if 0 ≤ e then roundHalfEven n (d * 2 ^ e.toNat)
      else roundHalfEven (n * 2 ^ (-e).toNat) d
    let magnitude : ℚ :=
      if 0 ≤ e then (significand : ℚ) * 2 ^ e.toNat
      else (significand : ℚ) / 2 ^ (-e).toNat
    if x < 0 then -magnitude else magnitude

/-- The quotient `a / b` of two doubles, `b` not zero. -/
def doubleDiv (a b : ℚ) : ℚ := roundDouble (a / b)

/-- The difference `a - b` of two doubles. -/
def doubleSub (a b : ℚ) : ℚ := roundDouble (a - b)

/-- The sum `a + b` of two doubles. -/
def doubleAdd (a b : ℚ) : ℚ := roundDouble (a + b)

/-- The call `Math.pow(x, 2)`, taken as the rounded product `x * x`: the `pow` of
fdlibm, on which the engine builds, returns `x * x` for the exponent `2`. -/
def mathPowTwo (x : ℚ) : ℚ := roundDouble (x * x)

/-! ## `selectNextQuestion` (`src/engine/quiz.js`) -/

/-- A question: identity, display text and integer ordering hint. -/
structure Question where
  _id : String
  text : String
  order : Int
  deriving DecidableEq, Repr

/-- Insertion step of the stable sort with comparator `(a, b) => a.order - b.order`:
`a` is placed before the first question `b` whose comparison `a.order - b.order` is
not positive. -/
def insertByOrder (a : Question) : List Question → List Question
  | [] => [a]
  | b :: rest => if a.order - b.order ≤ 0 then a :: b :: rest else b :: insertByOrder a rest

/-- The array after `availableQuestions.sort((a, b) => a.order - b.order)`: lowest
order first, questions of equal order in their original order. -/
def sortByOrder : List Question → List Question
  | [] => []
  | a :: rest => insertByOrder a (sortByOrder rest)

/-- Body of the loop inside the `profiles.filter` callback: `true` when the pair is
skipped or is no definite mismatch, `false` when the callback returns `false`.  An
inherited `profile.answers[questionId]` passes the guard and differs from `'unsure'`
and from every user answer, so that the callback returns `false` unless the user
answer is `'unsure'`. -/
def noDefiniteMismatch (profile : Profile) (qa : String × String) : Bool :=
  match profile.answers with
  | none => true
  | some profileAnswers =>
    match profileAnswers.read qa.1 with
    | Read.undefined => true
    | Read.own profileAnswer =>
      if profileAnswer = "" then true
      else if qa.2 ≠ "unsure" ∧ profileAnswer ≠ "unsure" ∧ qa.2 ≠ profileAnswer then false
      else true
    | Read.inherited => if qa.2 ≠ "unsure" then false else true

/-- The callback of `profiles.filter`: no answered question is a definite mismatch. -/
def isPotentialMatch (currentAnswers : JsObj String) (profile : Profile) : Bool :=
  (JsObj.entries currentAnswers).all (noDefiniteMismatch profile)

/-- The counters `{ yes, no, unsure }` of one question. -/
structure Tally where
  yes : Nat
  no : Nat
  unsure : Nat
  deriving DecidableEq, Repr

/-- Body of the counting loop for one potential match: a missing expected answer counts
as `unsure`, otherwise `answers[answer]++`, which changes one of the three counters
when `answer` is its name; an inherited `answer` names none of them. -/
def tallyStep (questionId : String) (answers : Tally) (profile : Profile) : Tally :=
  match profile.answers with
  | none => { answers with unsure := answers.unsure + 1 }
  | some profileAnswers =>
    match profileAnswers.read questionId with
    | Read.undefined => { answers with unsure := answers.unsure + 1 }
    | Read.own answer =>
      if answer = "" then { answers with unsure := answers.unsure + 1 }
      else if answer = "yes" then { answers with yes := answers.yes + 1 }
      else if answer = "no" then { answers with no := answers.no + 1 }
      else if answer = "unsure" then { answers with unsure := answers.unsure + 1 }
      else answers
    | Read.inherited => answers

/-- The counters of a question over the potential matches. -/
def tally (potentialMatches : List Profile) (question : Question) : Tally :=
  potentialMatches.foldl (tallyStep question._id) { yes := 0, no := 0, unsure := 0 }

/-- The value `splitScore` of a question, a double: every operation of
`-(Math.pow(yesRatio - 0.5, 2) + Math.pow(noRatio - 0.5, 2))` rounds its result. -/
def splitScore (potentialMatches : List Profile) (question : Question) : ℚ :=
  let answers := tally potentialMatches question
  let yesRatio : ℚ := doubleDiv (answers.yes : ℚ) (potentialMatches.length : ℚ)
  let noRatio : ℚ := doubleDiv (answers.no : ℚ) (potentialMatches.length : ℚ)
  let value : ℚ :=
    -(doubleAdd (mathPowTwo (doubleSub yesRatio 0.5)) (mathPowTwo (doubleSub noRatio 0.5)))
  value

/-- Body of the search loop on the pair `(bestQuestion, bestSplitScore)`; the score
`none` stands for `-Infinity`. -/
def bestStep (potentialMatches : List Profile) (best : Option Question × Option ℚ)
    (question : Question) : Option Question × Option ℚ :=
  let score := splitScore potentialMatches question
  match best.2 with
  | none => (some question, some score)
  | some bestSplitScore =>
    if score > bestSplitScore then (some question, some score) else best

/-- Outcome of a call of `selectNextQuestion`: the returned question and the array
`availableQuestions` as the call leaves it. -/
structure Selection where
  question : Option Question
  availableQuestions : List Question
  deriving DecidableEq, Repr

/-- The next question to ask. -/
def selectNextQuestion (availableQuestions : List Question) (currentAnswers : JsObj String)
    (profiles : List Profile) : Selection :=
  if (JsObj.keys currentAnswers).length = 0 then
    let sorted := sortByOrder availableQuestions
    { question := sorted.head?, availableQuestions := sorted }
  else
    let potentialMatches := profiles.filter (isPotentialMatch currentAnswers)
    if potentialMatches.length ≤ 1 then
      { question := availableQuestions.head?, availableQuestions := availableQuestions }
    else
      let best := availableQuestions.foldl (bestStep potentialMatches) (none, none)
      match best.1 with
      | some bestQuestion =>
        { question := some bestQuestion, availableQuestions := availableQuestions }
      | none =>
        { question := availableQuestions.head?, availableQuestions := availableQuestions }

/-! ## `updateProfileLearning` (`src/engine/learner.js`) -/

/-- An access to the `profiles` collection: `findOne` or `updateOne` on an identity. -/
inductive StorageOp where
  | findOne (id : String)
  | updateOne (id : String)
  deriving DecidableEq, Repr

/-- The `profiles` collection and the accesses made to it so far, oldest first. -/
structure Store where
  profiles : List Profile
  ops : List StorageOp := []
  deriving DecidableEq, Repr

/-- The first document of the collection with identity `id`. -/
def findDocument (profiles : List Profile) (id : String) : Option Profile :=
  profiles.find? (fun p => p._id = id)

/-- The collection with `update` applied to the first document with identity `id`. -/
def updateDocument (update : Profile → Profile) (id : String) : List Profile → List Profile
  | [] => []
  | p :: rest => if p._id = id then update p :: rest else p :: updateDocument update id rest

/-- The call `db.collection('profiles').findOne({ _id: id })`. -/
def Store.findOne (store : Store) (id : String) : Option Profile × Store :=
  (findDocument store.profiles id,
    { store with ops := store.ops ++ [StorageOp.findOne id] })

/-- The call `db.collection('profiles').updateOne({ _id: id }, { $set: ... })`, the `$set`
document given as the function it applies to the matched document. -/
def Store.updateOne (store : Store) (id : String) (update : Profile → Profile) : Store :=
  { profiles := updateDocument update id store.profiles
    ops := store.ops ++ [StorageOp.updateOne id] }

/-- The update `$set: { answers.<questionId>: answer }`. -/
def setAnswer (questionId answer : String) (p : Profile) : Profile :=
  { p with answers := some ((p.answers.getD []).set questionId answer) }

/-- The update `$set: { learning: learning }`. -/
def setLearning (learning : JsObj LearningRecord) (p : Profile) : Profile :=
  { p with learning := some learning }

/-- The statements `record[userAnswer]++; record.total++` on the four counters; an
answer that names none of them leaves the counters `yes`, `no`, `unsure` as they are. -/
def countAnswer (record : LearningRecord) (userAnswer : String) : LearningRecord :=
  let counted : LearningRecord :=
    if userAnswer = "yes" then { record with yes := record.yes + 1 }
    else if userAnswer = "no" then { record with no := record.no + 1 }
    else if userAnswer = "unsure" then { record with unsure := record.unsure + 1 }
    else if userAnswer = "total" then { record with total := record.total + 1 }
    else record
  { counted with total := counted.total + 1 }

/-- The pair `(bestAnswer, bestCount)` found by the two comparisons. -/
def mostCommon (counts : LearningRecord) : String × Int :=
  let best : String × Int := ("unsure", counts.unsure)
  let best : String × Int := if counts.yes > best.2 then ("yes", counts.yes) else best
  let best : String × Int := if counts.no > best.2 then ("no", counts.no) else best
  best

/-- Body of the loop of `updateProfileLearning` for one answered question, on the local
object `learning` and the store.  When `learning[questionId]` is inherited, the guard
`!learning[questionId]` is false and no record is created; the two increments are made
on the inherited function (on `Object.prototype` for `__proto__`), which is no own
property of `learning` and no part of the store, and leave its `total` at `NaN`, for
which `total >= 5` is false. -/
def learnStep (profileId : String) (state : JsObj LearningRecord × Store)
    (qa : String × String) : JsObj LearningRecord × Store :=
  let questionId := qa.1
  let userAnswer := qa.2
  let learning := state.1
  let learning : JsObj LearningRecord :=
    match learning.read questionId with
    | Read.undefined =>
      learning.set questionId { yes := 0, no := 0, unsure := 0, total := 0 }
    | Read.own _ => learning
    | Read.inherited => learning
  let learning : JsObj LearningRecord :=
    match learning.read questionId with
    | Read.undefined => learning
    | Read.own record => learning.set questionId (countAnswer record userAnswer)
    | Read.inherited => learning
  match learning.read questionId with
  | Read.undefined => (learning, state.2)
  | Read.own counts =>
    if counts.total ≥ 5 then
      let best := mostCommon counts
      let confidence : ℚ := (best.2 : ℚ) / (counts.total : ℚ)
      if confidence ≥ 0.6 then
        (learning, state.2.updateOne profileId (setAnswer questionId best.1))
      else (learning, state.2)
    else (learning, state.2)
  | Read.inherited => (learning, state.2)

/-- The store after `updateProfileLearning(profileId, sessionAnswers, isCorrect)`. -/
def updateProfileLearning (store : Store) (profileId : String) (sessionAnswers : JsObj String)
    (isCorrect : Bool) : Store :=
  if !isCorrect then store
  else
    let found := store.findOne profileId
    match found.1 with
    | none => found.2
    | some profile =>
      let learning : JsObj LearningRecord := profile.learning.getD []
      let state := (JsObj.entries sessionAnswers).foldl (learnStep profileId)
        (learning, found.2)
      state.2.updateOne profileId (setLearning state.1)

/-- The store after a sequence of correct-flagged feedback rounds on one profile, one
session answer set per round. -/
def learnRounds (store : Store) (profileId : String) (sessions : List (JsObj String)) :
    Store :=
  sessions.foldl (fun st sessionAnswers => updateProfileLearning st profileId sessionAnswers true)
    store

/-! ### Learning: auxiliary notions for the statements -/

/-- The record `{ yes: 0, no: 0, unsure: 0, total: 0 }`. -/
def zeroRecord : LearningRecord := { yes := 0, no := 0, unsure := 0, total := 0 }

/-- The counters of question `qa.1` after the loop body has counted the answer `qa.2`,
an absent record counting as all zero. -/
def learnedRecord (learning : JsObj LearningRecord) (qa : String × String) : LearningRecord :=
  countAnswer ((learning.get qa.1).getD zeroRecord) qa.2

/-- The condition under which the loop body overwrites the expected answer:
`total >= 5` and `bestCount / total >= 0.6`. -/
def overwrites (counts : LearningRecord) : Prop :=
  counts.total ≥ 5 ∧ ((mostCommon counts).2 : ℚ) / (counts.total : ℚ) ≥ 0.6

instance (counts : LearningRecord) : Decidable (overwrites counts) := by
  unfold overwrites
  infer_instance

/-- The read `learning[questionId]` yields an inherited function: `learning` has no own
record for the question and the name is one of `Object.prototype`. -/
def readsInherited (learning : JsObj LearningRecord) (questionId : String) : Prop :=
  learning.get questionId = none ∧ questionId ∈ inheritedNames

instance (learning : JsObj LearningRecord) (questionId : String) :
    Decidable (readsInherited learning questionId) := by
  unfold readsInherited
  infer_instance

/-- Effect of the loop body on the local `learning` object and on the matched document:
none when `learning[questionId]` is inherited. -/
def learnProfileStep (state : JsObj LearningRecord × Profile) (qa : String × String) :
    JsObj LearningRecord × Profile :=
  if readsInherited state.1 qa.1 then state
  else
    let counts := learnedRecord state.1 qa
    (state.1.set qa.1 counts,
      if overwrites counts then setAnswer qa.1 (mostCommon counts).1 state.2 else state.2)

/-- The learning record a profile holds for a question, if any. -/
def learningRecord? (profile : Profile) (questionId : String) : Option LearningRecord :=
  (profile.learning.getD []).get questionId

/-- The invariant of a learning record: non-negative counters with
`total = yes + no + unsure`. -/
def validRecord (r : LearningRecord) : Prop :=
  0 ≤ r.yes ∧ 0 ≤ r.no ∧ 0 ≤ r.unsure ∧ r.total = r.yes + r.no + r.unsure

/-- Every learning record of every profile of the collection satisfies the invariant. -/
def validLearning (profiles : List Profile) : Prop :=
  ∀ p ∈ profiles, ∀ learning, p.learning = some learning → ∀ e ∈ learning, validRecord e.2

/-- The answer is one of `yes`, `no`, `unsure`. -/
def inDomain (answer : String) : Prop :=
  answer = "yes" ∨ answer = "no" ∨ answer = "unsure"

/-- A call `updateProfileLearning(profileId, sessionAnswers, isCorrect)`. -/
structure FeedbackCall where
  profileId : String
  sessionAnswers : JsObj String
  isCorrect : Bool

/-- The store after a sequence of calls of `updateProfileLearning`. -/
def runCalls (store : Store) (calls : List FeedbackCall) : Store :=
  calls.foldl
    (fun st call => updateProfileLearning st call.profileId call.sessionAnswers call.isCorrect)
    store

/-! ### Selection and scoring: notions in the words of the specification -/

/-- A pair of the answer set is a definite mismatch for a profile: the profile defines an
expected answer for the question that differs from the user's answer while neither of
the two is `unsure`. -/
def specDefiniteMismatch (profile : Profile) (qa : String × String) : Bool :=
  match expectedAnswer profile qa.1 with
  | none => false
  | some expected => decide (expected ≠ qa.2 ∧ expected ≠ "unsure" ∧ qa.2 ≠ "unsure")

/-- A profile is a potential match: no answered question is a definite mismatch. -/
def specPotentialMatch (answers : JsObj String) (profile : Profile) : Bool :=
  answers.all (fun qa => !specDefiniteMismatch profile qa)

/-- The split score `-((yesCount/m - 0.5)^2 + (noCount/m - 0.5)^2)` of a question, `m`
being the number of potential matches and `yesCount`, `noCount` the numbers of
potential matches expecting `yes` and `no` for the question. -/
def specSplitScore (potentialMatches : List Profile) (question : Question) : ℚ :=
  let m : ℚ := (potentialMatches.length : ℚ)
  let yesCount : ℚ :=
    (potentialMatches.countP (fun p => expectedAnswer p question._id = some "yes") : ℚ)
  let noCount : ℚ :=
    (potentialMatches.countP (fun p => expectedAnswer p question._id = some "no") : ℚ)
  let value : ℚ := -((yesCount / m - 0.5) ^ 2 + (noCount / m - 0.5) ^ 2)
  value

/-- The split score computed in double precision, as the code computes it, from the
number `m` of potential matches and the numbers `yesCount`, `noCount` of potential
matches expecting `yes` and `no` for the question. -/
def specSplitScoreDouble (potentialMatches : List Profile) (question : Question) : ℚ :=
  let m : ℚ := (potentialMatches.length : ℚ)
  let yesCount : ℚ :=
    (potentialMatches.countP (fun p => expectedAnswer p question._id = some "yes") : ℚ)
  let noCount : ℚ :=
    (potentialMatches.countP (fun p => expectedAnswer p question._id = some "no") : ℚ)
  let value : ℚ :=
    -(doubleAdd (mathPowTwo (doubleSub (doubleDiv yesCount m) 0.5))
        (mathPowTwo (doubleSub (doubleDiv noCount m) 0.5)))
  value

/-- The profile with an explicit `unsure` in place of a missing expected answer for the
question, when the profile is one of the targeted ones. -/
def foldMissing (target : Profile → Bool) (questionId : String) (profile : Profile) :
    Profile :=
  if target profile = true ∧ expectedAnswer profile questionId = none then
    setAnswer questionId "unsure" profile
  else profile

/-- Every expected answer of the profile is one of `yes`, `no`, `unsure`. -/
def validAnswers (profile : Profile) : Prop :=
  ∀ profileAnswers, profile.answers = some profileAnswers →
    ∀ e ∈ profileAnswers, inDomain e.2

/-- The number of answered questions for which the profile defines an expected answer. -/
def definedCount (answers : JsObj String) (profile : Profile) : Nat :=
  answers.countP (fun qa => (expectedAnswer profile qa.1).isSome)

/-! ### Sample data -/

/-- Profile `A` of the specification's scenario. -/
def profileA : Profile := { _id := "A", answers := some [("q1", "yes"), ("q2", "no")] }

/-- Profile `B` of the specification's scenario. -/
def profileB : Profile := { _id := "B", answers := some [("q1", "yes"), ("q2", "yes")] }

/-- A profile whose identity is the array index `2`. -/
def profileTwo : Profile := { _id := "2", answers := some [("q1", "yes")] }

/-- A profile whose identity is the array index `1`. -/
def profileOne : Profile := { _id := "1", answers := some [("q1", "yes")] }

/-- A question with ordering hint `2`. -/
def questionLate : Question := { _id := "q_late", text := "asked later", order := 2 }

/-- A question with ordering hint `1`. -/
def questionEarly : Question := { _id := "q_early", text := "asked first", order := 1 }

/-- A collection holding the profiles `A` and `B`, without learning records. -/
def sampleStore : Store := { profiles := [profileA, profileB] }

/-- Five sessions answering `q2` with `yes`, `no`, `yes`, `no`, `yes`. -/
def sampleSessions : List (JsObj String) :=
  [[("q2", "yes")], [("q2", "no")], [("q2", "yes")], [("q2", "no")], [("q2", "yes")]]

/-- A profile expecting `unsure` for `q1`. -/
def profileUnsure : Profile := { _id := "U", answers := some [("q1", "unsure")] }

/-- A learning record with three `yes` and two `no`. -/
def sampleRecord : LearningRecord := { yes := 3, no := 2, unsure := 0, total := 5 }

/-- A profile that expects `no` for `q2` and has counted three `yes` and one `no` for
it. -/
def profileLearned : Profile :=
  { _id := "L", answers := some [("q1", "yes"), ("q2", "no")]
    learning := some [("q2", { yes := 3, no := 1, unsure := 0, total := 4 })] }

/-- A collection holding the profile `L`. -/
def learnedStore : Store := { profiles := [profileLearned] }

/-- A profile expecting `yes` for `q0`, `qx` and `qy`. -/
def splitOne : Profile :=
  { _id := "P1", answers := some [("q0", "yes"), ("qx", "yes"), ("qy", "yes")] }

/-- A profile expecting `yes` for `q0`, `no` for `qx` and `yes` for `qy`. -/
def splitTwo : Profile :=
  { _id := "P2", answers := some [("q0", "yes"), ("qx", "no"), ("qy", "yes")] }

/-- A profile expecting `yes` for `q0` and `no` for `qy`, without expected answer for
`qx`. -/
def splitThree : Profile := { _id := "P3", answers := some [("q0", "yes"), ("qy", "no")] }

/-- The question `qx`. -/
def questionX : Question := { _id := "qx", text := "first of the list", order := 1 }

/-- The question `qy`. -/
def questionY : Question := { _id := "qy", text := "second of the list", order := 2 }

/-- The question `q1` of the sample profiles. -/
def questionOne : Question := { _id := "q1", text := "question one", order := 1 }

/-- The question `q2` of the sample profiles. -/
def questionTwo : Question := { _id := "q2", text := "question two", order := 2 }

/-- Five sessions answering the question named `constructor` with `yes`. -/
def constructorSessions : List (JsObj String) :=
  [[("constructor", "yes")], [("constructor", "yes")], [("constructor", "yes")],
    [("constructor", "yes")], [("constructor", "yes")]]

/-! ## Properties of the dictionary operations -/

namespace JsObj

variable {α : Type}

theorem get_set (o : JsObj α) (k k' : String) (v : α) :
    (o.set k v).get k' = if k = k' then some v else o.get k' := by
  induction o with
  | nil => simp [set, get]
  | cons e rest ih =>
    obtain ⟨k0, v0⟩ := e
    by_cases h : k0 = k
    · subst h
      by_cases h' : k0 = k' <;> simp [set, get, h']
    · by_cases h' : k0 = k'
      · subst h'
        simp [set, get, h, Ne.symm h]
      · simp [set, get, h, h', ih]

theorem keys_set_of_mem (o : JsObj α) (k : String) (v : α) (h : k ∈ o.keys) :
    (o.set k v).keys = o.keys := by
  induction o with
  | nil => simp [keys] at h
  | cons e rest ih =>
    obtain ⟨k0, v0⟩ := e
    by_cases h0 : k0 = k
    · subst h0; simp [set, keys]
    · have hr : k ∈ keys rest := by
        simp only [keys, List.map_cons, List.mem_cons] at h
        rcases h with h | h
        · exact absurd h.symm h0
        · exact h
      have := ih hr
      simp only [keys] at this
      simp [set, keys, h0, this]

theorem keys_set_of_not_mem (o : JsObj α) (k : String) (v : α) (h : k ∉ o.keys) :
    (o.set k v).keys = o.keys ++ [k] := by
  induction o with
  | nil => simp [set, keys]
  | cons e rest ih =>
    obtain ⟨k0, v0⟩ := e
    simp only [keys, List.map_cons, List.mem_cons, not_or] at h
    have h0 : ¬ k0 = k := fun hh => h.1 hh.symm
    have := ih h.2
    simp only [keys] at this
    simp [set, keys, h0, this]

theorem get_eq_none_iff (o : JsObj α) (k : String) : o.get k = none ↔ k ∉ o.keys := by
  induction o with
  | nil => simp [get, keys]
  | cons e rest ih =>
    obtain ⟨k0, v0⟩ := e
    by_cases h0 : k0 = k
    · subst h0; simp [get, keys]
    · simp only [keys] at ih
      simp [get, keys, h0, ih, Ne.symm h0]

theorem get_mem (o : JsObj α) (k : String) (v : α) (h : o.get k = some v) : (k, v) ∈ o := by
  induction o with
  | nil => simp [get] at h
  | cons e rest ih =>
    obtain ⟨k0, v0⟩ := e
    by_cases h0 : k0 = k
    · subst h0
      simp [get] at h
      simp [h]
    · simp [get, h0] at h
      exact List.mem_cons_of_mem _ (ih h)

theorem get_of_mem (o : JsObj α) (hnd : o.keys.Nodup) (k : String) (v : α) (h : (k, v) ∈ o) :
    o.get k = some v := by
  induction o with
  | nil => simp at h
  | cons e rest ih =>
    obtain ⟨k0, v0⟩ := e
    simp only [keys, List.map_cons, List.nodup_cons] at hnd
    rcases List.mem_cons.1 h with h | h
    · injection h with h1 h2
      subst h1; subst h2
      simp [get]
    · have hk : k ∈ keys rest := List.mem_map.2 ⟨(k, v), h, rfl⟩
      have h0 : ¬ k0 = k := fun hh => hnd.1 (hh ▸ hk)
      simp [get, h0]
      exact ih hnd.2 h

theorem set_get_self (o : JsObj α) (k : String) (v : α) (h : o.get k = some v) :
    o.set k v = o := by
  induction o with
  | nil => simp [get] at h
  | cons e rest ih =>
    obtain ⟨k0, v0⟩ := e
    by_cases h0 : k0 = k
    · subst h0
      simp [get] at h
      simp [set, h]
    · simp [get, h0] at h
      simp [set, h0, ih h]

theorem mem_set (o : JsObj α) (k : String) (v : α) (e : String × α) (h : e ∈ o.set k v) :
    e = (k, v) ∨ e ∈ o := by
  induction o with
  | nil => simpa [set] using h
  | cons e0 rest ih =>
    obtain ⟨k0, v0⟩ := e0
    by_cases h0 : k0 = k
    · simp only [set, h0, if_true, List.mem_cons] at h
      rcases h with h | h
      · exact Or.inl h
      · exact Or.inr (List.mem_cons_of_mem _ h)
    · simp only [set, h0, if_false, List.mem_cons] at h
      rcases h with h | h
      · exact Or.inr (h ▸ List.mem_cons_self _ _)
      · rcases ih h with h | h
        · exact Or.inl h
        · exact Or.inr (List.mem_cons_of_mem _ h)

theorem mem_keys_set (o : JsObj α) (k k' : String) (v : α) :
    k' ∈ (o.set k v).keys ↔ k' = k ∨ k' ∈ o.keys := by
  by_cases h : k ∈ o.keys
  · rw [keys_set_of_mem o k v h]
    constructor
    · exact Or.inr
    · rintro (h' | h')
      · exact h' ▸ h
      · exact h'
  · rw [keys_set_of_not_mem o k v h]
    simp [or_comm]

theorem nodup_keys_set (o : JsObj α) (k : String) (v : α) (h : o.keys.Nodup) :
    (o.set k v).keys.Nodup := by
  by_cases hk : k ∈ o.keys
  · rw [keys_set_of_mem o k v hk]; exact h
  · rw [keys_set_of_not_mem o k v hk]
    exact List.Nodup.append h (List.nodup_singleton k) (by
      intro a ha hb
      simp at hb
      exact hk (hb ▸ ha))

/-- Two dictionaries with the same property names in the same order and the same
value under every name are equal. -/
theorem ext_of_keys (o₁ o₂ : JsObj α) (hk : o₁.keys = o₂.keys) (hnd : o₁.keys.Nodup)
    (hg : ∀ k, o₁.get k = o₂.get k) : o₁ = o₂ := by
  induction o₁ generalizing o₂ with
  | nil =>
    cases o₂ with
    | nil => rfl
    | cons e r => simp [keys] at hk
  | cons e₁ r₁ ih =>
    cases o₂ with
    | nil => simp [keys] at hk
    | cons e₂ r₂ =>
      obtain ⟨k₁, v₁⟩ := e₁
      obtain ⟨k₂, v₂⟩ := e₂
      simp only [keys, List.map_cons, List.cons.injEq] at hk
      obtain ⟨hk1, hk2⟩ := hk
      subst hk1
      simp only [keys, List.map_cons, List.nodup_cons] at hnd
      have hv : v₁ = v₂ := by
        have := hg k₁
        simpa [get] using this
      subst hv
      have hrest : r₁ = r₂ := by
        apply ih r₂ hk2 hnd.2
        intro k
        by_cases h : k₁ = k
        · subst h
          have h1 : get r₁ k₁ = none := (get_eq_none_iff r₁ k₁).2 hnd.1
          have h2 : get r₂ k₁ = none := (get_eq_none_iff r₂ k₁).2 (by
            have : keys r₂ = keys r₁ := hk2.symm
            simp only [keys] at this ⊢
            rw [this]; exact hnd.1)
          rw [h1, h2]
        · have := hg k
          simpa [get, h] using this
      rw [hrest]

theorem read_of_get (o : JsObj α) (k : String) (v : α) (h : o.get k = some v) :
    o.read k = Read.own v := by
  simp [read, h]

theorem read_eq_own_iff (o : JsObj α) (k : String) (v : α) :
    o.read k = Read.own v ↔ o.get k = some v := by
  unfold read
  cases h : o.get k with
  | none => by_cases hk : k ∈ inheritedNames <;> simp [hk]
  | some x => simp

theorem read_eq_inherited_iff (o : JsObj α) (k : String) :
    o.read k = Read.inherited ↔ o.get k = none ∧ k ∈ inheritedNames := by
  unfold read
  cases h : o.get k with
  | none => by_cases hk : k ∈ inheritedNames <;> simp [hk]
  | some x => simp

theorem read_eq_undefined_iff (o : JsObj α) (k : String) :
    o.read k = Read.undefined ↔ o.get k = none ∧ k ∉ inheritedNames := by
  unfold read
  cases h : o.get k with
  | none => by_cases hk : k ∈ inheritedNames <;> simp [hk]
  | some x => simp

theorem read_of_get_none (o : JsObj α) (k : String) (h : o.get k = none)
    (hk : k ∉ inheritedNames) : o.read k = Read.undefined :=
  (read_eq_undefined_iff o k).2 ⟨h, hk⟩

theorem read_set_self (o : JsObj α) (k : String) (v : α) : (o.set k v).read k = Read.own v := by
  apply read_of_get
  rw [get_set]
  simp

end JsObj

/-! ## Properties of `calculateProfileScores` -/

theorem addTo_keys (s : JsObj ℚ) (k : String) (d : ℚ) : (addTo s k d).keys = s.keys := by
  unfold addTo
  cases h : s.get k with
  | none => rfl
  | some v =>
    have hk : k ∈ s.keys := by
      by_contra hc
      rw [(JsObj.get_eq_none_iff s k).2 hc] at h
      exact Option.noConfusion h
    exact JsObj.keys_set_of_mem s k _ hk

theorem addTo_get (s : JsObj ℚ) (k k' : String) (d : ℚ) :
    (addTo s k d).get k' = if k = k' then (s.get k').map (fun v => v + d) else s.get k' := by
  unfold addTo
  cases h : s.get k with
  | none =>
    by_cases hk : k = k'
    · subst hk; simp [h]
    · simp [hk]
  | some v =>
    simp only [JsObj.get_set]
    by_cases hk : k = k'
    · subst hk; simp [h]
    · simp [hk]

theorem addTo_zero (s : JsObj ℚ) (k : String) : addTo s k 0 = s := by
  unfold addTo
  cases h : s.get k with
  | none => rfl
  | some v =>
    simp only [add_zero]
    exact JsObj.set_get_self s k v h

theorem mem_addTo (s : JsObj ℚ) (k : String) (d : ℚ) (e : String × ℚ) (h : e ∈ addTo s k d) :
    e ∈ s ∨ ∃ v, (k, v) ∈ s ∧ e = (k, v + d) := by
  unfold addTo at h
  cases hg : s.get k with
  | none => rw [hg] at h; exact Or.inl h
  | some v =>
    rw [hg] at h
    rcases JsObj.mem_set s k _ e h with h | h
    · exact Or.inr ⟨v, JsObj.get_mem s k v hg, h⟩
    · exact Or.inl h

theorem scoreStep_eq (q a : String) (s : JsObj ℚ) (p : Profile) :
    scoreStep q a s p = addTo s p._id (stepDelta q a p) := by
  unfold scoreStep stepDelta
  cases p.answers with
  | none => simp [addTo_zero]
  | some pa =>
    simp only
    cases h : JsObj.read pa q with
    | undefined => simp [addTo_zero]
    | own x =>
      simp only
      split_ifs <;> simp [addTo_zero]
    | inherited =>
      simp only
      split_ifs <;> simp [addTo_zero]

theorem stepDelta_nonneg (q a : String) (p : Profile) : 0 ≤ stepDelta q a p := by
  unfold stepDelta
  cases p.answers with
  | none => simp
  | some pa =>
    simp only
    cases h : JsObj.read pa q with
    | undefined => simp
    | own x =>
      simp only
      split_ifs <;> norm_num
    | inherited =>
      simp only
      split_ifs <;> norm_num

theorem stepDelta_le_one (q a : String) (p : Profile) : stepDelta q a p ≤ 1 := by
  unfold stepDelta
  cases p.answers with
  | none => simp
  | some pa =>
    simp only
    cases h : JsObj.read pa q with
    | undefined => simp
    | own x =>
      simp only
      split_ifs <;> norm_num
    | inherited =>
      simp only
      split_ifs <;> norm_num

theorem pass_keys (profiles : List Profile) (q a : String) (s : JsObj ℚ) :
    (profiles.foldl (scoreStep q a) s).keys = s.keys := by
  induction profiles generalizing s with
  | nil => rfl
  | cons p ps ih =>
    rw [List.foldl_cons, ih, scoreStep_eq, addTo_keys]

theorem pass_get (profiles : List Profile) (q a : String) (s : JsObj ℚ) (k : String) :
    (profiles.foldl (scoreStep q a) s).get k
      = (s.get k).map (fun v => v + passDelta profiles q a k) := by
  induction profiles generalizing s with
  | nil => simp [passDelta]
  | cons p ps ih =>
    rw [List.foldl_cons, ih, scoreStep_eq, addTo_get]
    by_cases h : p._id = k
    · simp only [h, if_true, Option.map_map]
      congr 1
      funext v
      simp [passDelta, List.filter_cons, h, add_assoc]
    · simp [passDelta, List.filter_cons, h]

theorem pass_nonneg (profiles : List Profile) (q a : String) (s : JsObj ℚ)
    (h : ∀ e ∈ s, 0 ≤ e.2) : ∀ e ∈ profiles.foldl (scoreStep q a) s, 0 ≤ e.2 := by
  induction profiles generalizing s with
  | nil => simpa using h
  | cons p ps ih =>
    rw [List.foldl_cons]
    apply ih
    intro e he
    rw [scoreStep_eq] at he
    rcases mem_addTo s _ _ e he with he | ⟨v, hv, rfl⟩
    · exact h e he
    · exact add_nonneg (h _ hv) (stepDelta_nonneg q a p)

theorem loop_keys (profiles : List Profile) (es : List (String × String)) (s : JsObj ℚ) :
    (es.foldl (fun scores qa => profiles.foldl (scoreStep qa.1 qa.2) scores) s).keys
      = s.keys := by
  induction es generalizing s with
  | nil => rfl
  | cons qa rest ih => rw [List.foldl_cons, ih, pass_keys]

theorem loop_get (profiles : List Profile) (es : List (String × String)) (s : JsObj ℚ)
    (k : String) :
    (es.foldl (fun scores qa => profiles.foldl (scoreStep qa.1 qa.2) scores) s).get k
      = (s.get k).map (fun v => v + answersDelta profiles es k) := by
  induction es generalizing s with
  | nil => simp [answersDelta]
  | cons qa rest ih =>
    rw [List.foldl_cons, ih, pass_get, Option.map_map]
    congr 1
    funext v
    simp [answersDelta, add_assoc]

theorem loop_nonneg (profiles : List Profile) (es : List (String × String)) (s : JsObj ℚ)
    (h : ∀ e ∈ s, 0 ≤ e.2) :
    ∀ e ∈ es.foldl (fun scores qa => profiles.foldl (scoreStep qa.1 qa.2) scores) s,
      0 ≤ e.2 := by
  induction es generalizing s with
  | nil => simpa using h
  | cons qa rest ih =>
    rw [List.foldl_cons]
    exact ih _ (pass_nonneg profiles qa.1 qa.2 s h)

theorem initLoop_nodup (profiles : List Profile) (s : JsObj ℚ) (h : s.keys.Nodup) :
    (profiles.foldl (fun scores profile => scores.set profile._id 0) s).keys.Nodup := by
  induction profiles generalizing s with
  | nil => simpa using h
  | cons p ps ih =>
    rw [List.foldl_cons]
    exact ih _ (JsObj.nodup_keys_set s _ _ h)

theorem initLoop_mem_keys (profiles : List Profile) (s : JsObj ℚ) (k : String) :
    k ∈ (profiles.foldl (fun scores profile => scores.set profile._id 0) s).keys
      ↔ k ∈ s.keys ∨ ∃ p ∈ profiles, p._id = k := by
  induction profiles generalizing s with
  | nil => simp
  | cons p ps ih =>
    rw [List.foldl_cons, ih, JsObj.mem_keys_set]
    constructor
    · rintro ((h | h) | ⟨p', hp', h⟩)
      · exact Or.inr ⟨p, List.mem_cons_self _ _, h.symm⟩
      · exact Or.inl h
      · exact Or.inr ⟨p', List.mem_cons_of_mem _ hp', h⟩
    · rintro (h | ⟨p', hp', h⟩)
      · exact Or.inl (Or.inr h)
      · rcases List.mem_cons.1 hp' with hp' | hp'
        · subst hp'; exact Or.inl (Or.inl h.symm)
        · exact Or.inr ⟨p', hp', h⟩

theorem initLoop_values (profiles : List Profile) (s : JsObj ℚ) (h : ∀ e ∈ s, e.2 = 0) :
    ∀ e ∈ profiles.foldl (fun scores profile => scores.set profile._id 0) s, e.2 = 0 := by
  induction profiles generalizing s with
  | nil => simpa using h
  | cons p ps ih =>
    rw [List.foldl_cons]
    apply ih
    intro e he
    rcases JsObj.mem_set s _ _ e he with he | he
    · rw [he]
    · exact h e he

theorem initLoop_of_nodup (profiles : List Profile) (s : JsObj ℚ)
    (hnd : (profiles.map (fun p => p._id)).Nodup)
    (hdisj : ∀ p ∈ profiles, p._id ∉ s.keys) :
    profiles.foldl (fun scores profile => scores.set profile._id 0) s
      = s ++ profiles.map (fun p => (p._id, (0 : ℚ))) := by
  induction profiles generalizing s with
  | nil => simp
  | cons p ps ih =>
    simp only [List.map_cons, List.nodup_cons] at hnd
    have hp : p._id ∉ s.keys := hdisj p (List.mem_cons_self _ _)
    have hset : s.set p._id 0 = s ++ [(p._id, (0 : ℚ))] := by
      clear ih hdisj hnd
      induction s with
      | nil => simp [JsObj.set]
      | cons e r ihr =>
        obtain ⟨k0, v0⟩ := e
        simp only [JsObj.keys, List.map_cons, List.mem_cons, not_or] at hp
        have h0 : ¬ k0 = p._id := fun hh => hp.1 hh.symm
        have := ihr hp.2
        simp [JsObj.set, h0, this]
    rw [List.foldl_cons, hset, ih _ hnd.2]
    · simp
    · intro p' hp'
      simp only [JsObj.keys, List.map_append, List.map_cons, List.map_nil, List.mem_append,
        List.mem_singleton, not_or]
      constructor
      · exact hdisj p' (List.mem_cons_of_mem _ hp')
      · intro heq
        exact hnd.1 (List.mem_map.2 ⟨p', hp', heq⟩)

theorem initScores_of_nodup (profiles : List Profile)
    (hnd : (profiles.map (fun p => p._id)).Nodup) :
    initScores profiles = profiles.map (fun p => (p._id, (0 : ℚ))) := by
  unfold initScores
  rw [initLoop_of_nodup profiles [] hnd (by simp [JsObj.keys])]
  simp

theorem initScores_get (profiles : List Profile) (p : Profile) (hp : p ∈ profiles) :
    (initScores profiles).get p._id = some 0 := by
  have hk : p._id ∈ (initScores profiles).keys :=
    (initLoop_mem_keys profiles [] p._id).2 (Or.inr ⟨p, hp, rfl⟩)
  cases hg : (initScores profiles).get p._id with
  | none => exact absurd hk ((JsObj.get_eq_none_iff _ _).1 hg)
  | some v =>
    have := initLoop_values profiles [] (by simp) _ (JsObj.get_mem _ _ _ hg)
    simp only at this
    rw [this]

theorem insertIndexed_perm {α : Type} (n : Nat) (e : String × α)
    (l : List (Nat × String × α)) : (JsObj.insertIndexed n e l).Perm ((n, e) :: l) := by
  induction l with
  | nil => exact List.Perm.refl _
  | cons x rest ih =>
    obtain ⟨m, e'⟩ := x
    by_cases h : n < m
    · simp [JsObj.insertIndexed, h]
    · simp only [JsObj.insertIndexed, h, if_false]
      exact ((List.Perm.cons _ ih).trans (List.Perm.swap _ _ _))

theorem indexed_perm {α : Type} (o : JsObj α) :
    ((JsObj.indexed o).map Prod.snd).Perm (o.filter (fun e => (arrayIndex? e.1).isSome)) := by
  induction o with
  | nil => exact List.Perm.refl _
  | cons e rest ih =>
    cases h : arrayIndex? e.1 with
    | none => simpa [JsObj.indexed, h, List.filter_cons] using ih
    | some n =>
      simp only [JsObj.indexed, h, List.filter_cons, Option.isSome_some, if_true]
      exact ((insertIndexed_perm n e _).map Prod.snd).trans (List.Perm.cons _ ih)

theorem entries_perm {α : Type} (o : JsObj α) : (JsObj.entries o).Perm o := by
  unfold JsObj.entries
  refine (List.Perm.append_right _ (indexed_perm o)).trans ?_
  have h := List.filter_append_perm (fun e : String × α => (arrayIndex? e.1).isSome) o
  have hf : (o.filter (fun e => (arrayIndex? e.1).isNone))
      = o.filter (fun e => !(arrayIndex? e.1).isSome) := by
    congr 1
    funext e
    cases arrayIndex? e.1 <;> rfl
  rw [hf]
  exact h

theorem filter_id_of_nodup (profiles : List Profile)
    (hnd : (profiles.map (fun p => p._id)).Nodup) (p : Profile) (hp : p ∈ profiles) :
    profiles.filter (fun p' => p'._id = p._id) = [p] := by
  induction profiles with
  | nil => simp at hp
  | cons x xs ih =>
    simp only [List.map_cons, List.nodup_cons] at hnd
    rcases List.mem_cons.1 hp with h | h
    · subst h
      have hnone : xs.filter (fun p' => decide (p'._id = p._id)) = [] := by
        rw [List.filter_eq_nil_iff]
        intro y hy hyid
        simp only [decide_eq_true_eq] at hyid
        exact hnd.1 (List.mem_map.2 ⟨y, hy, hyid⟩)
      simp [List.filter_cons, hnone]
    · have hx : ¬ x._id = p._id := by
        intro hh
        exact hnd.1 (List.mem_map.2 ⟨p, h, hh.symm⟩)
      simp [List.filter_cons, hx, ih hnd.2 h]

theorem passDelta_of_nodup (profiles : List Profile)
    (hnd : (profiles.map (fun p => p._id)).Nodup) (p : Profile) (hp : p ∈ profiles)
    (q a : String) : passDelta profiles q a p._id = stepDelta q a p := by
  unfold passDelta
  rw [filter_id_of_nodup profiles hnd p hp]
  simp

theorem stepDelta_eq_spec (q a : String) (p : Profile) (hq : q ∉ inheritedNames)
    (h : expectedAnswer p q ≠ some "") :
    stepDelta q a p = specContribution a (expectedAnswer p q) := by
  unfold stepDelta specContribution expectedAnswer at *
  cases hpa : p.answers with
  | none => rfl
  | some pa =>
    rw [hpa] at h
    simp only at h ⊢
    cases hg : JsObj.get pa q with
    | none => rw [JsObj.read_of_get_none pa q hg hq]
    | some x =>
      rw [hg] at h
      have hx : ¬ x = "" := fun hh => h (by rw [hh])
      rw [JsObj.read_of_get pa q x hg]
      simp [hx]

theorem stepDelta_of_undefined (q a : String) (p : Profile) (hq : q ∉ inheritedNames)
    (h : expectedAnswer p q = none) : stepDelta q a p = 0 := by
  unfold stepDelta
  unfold expectedAnswer at h
  cases hpa : p.answers with
  | none => rfl
  | some pa =>
    rw [hpa] at h
    simp only at h ⊢
    rw [JsObj.read_of_get_none pa q h hq]

/-- An own expected answer decides the step as if no name were inherited. -/
theorem stepDelta_of_own (q a e : String) (p : Profile) (h : expectedAnswer p q = some e) :
    stepDelta q a p =
      if e = "" then 0 else if a = e then 1 else if a = "unsure" ∨ e = "unsure" then 1 / 2
      else 0 := by
  unfold stepDelta
  unfold expectedAnswer at h
  cases hpa : p.answers with
  | none => rw [hpa] at h; exact Option.noConfusion h
  | some pa =>
    rw [hpa] at h
    simp only at h ⊢
    rw [JsObj.read_of_get pa q e h]

theorem calculateProfileScores_keys (answers : JsObj String) (profiles : List Profile) :
    (calculateProfileScores answers profiles).keys = (initScores profiles).keys :=
  loop_keys profiles _ _

theorem calculateProfileScores_get (answers : JsObj String) (profiles : List Profile)
    (k : String) :
    (calculateProfileScores answers profiles).get k
      = ((initScores profiles).get k).map
          (fun v => v + answersDelta profiles (JsObj.entries answers) k) :=
  loop_get profiles _ _ k

theorem answersDelta_perm (profiles : List Profile) (es₁ es₂ : List (String × String))
    (h : es₁.Perm es₂) (k : String) :
    answersDelta profiles es₁ k = answersDelta profiles es₂ k := by
  unfold answersDelta
  exact (h.map _).sum_eq

theorem calculateProfileScores_nodup_keys (answers : JsObj String) (profiles : List Profile) :
    (calculateProfileScores answers profiles).keys.Nodup := by
  rw [calculateProfileScores_keys]
  exact initLoop_nodup profiles [] (by simp [JsObj.keys])

theorem calculateProfileScores_mem_keys (answers : JsObj String) (profiles : List Profile)
    (k : String) :
    k ∈ (calculateProfileScores answers profiles).keys ↔ ∃ p ∈ profiles, p._id = k := by
  rw [calculateProfileScores_keys]
  unfold initScores
  rw [initLoop_mem_keys]
  simp [JsObj.keys]

theorem calculateProfileScores_nonneg (answers : JsObj String) (profiles : List Profile) :
    ∀ e ∈ calculateProfileScores answers profiles, 0 ≤ e.2 :=
  loop_nonneg profiles _ _
    (fun e he => le_of_eq (initLoop_values profiles [] (by simp) e he).symm)

/-! ## Scoring: the claims -/

/-- The scoring rule away from the inherited names: with distinct profile identities,
no empty-string expected answer and no answered question named like a property of
`Object.prototype`, the score stored for a profile is the sum over the answered
questions of `1` for an equal answer, `0.5` for differing answers one of which is
`unsure`, and `0` otherwise, questions without an expected answer contributing
nothing. -/
theorem calculateProfileScores_eq_specScore (answers : JsObj String)
    (profiles : List Profile)
    (hid : (profiles.map (fun p => p._id)).Nodup)
    (hne : ∀ p ∈ profiles, ∀ q, expectedAnswer p q ≠ some "")
    (hown : ∀ qa ∈ answers, qa.1 ∉ inheritedNames)
    (p : Profile) (hp : p ∈ profiles) :
    (calculateProfileScores answers profiles).get p._id = some (specScore answers p) := by
  rw [calculateProfileScores_get, initScores_get profiles p hp,
    answersDelta_perm profiles _ _ (entries_perm answers)]
  simp only [Option.map_some', zero_add, Option.some.injEq]
  unfold answersDelta specScore
  congr 1
  apply List.map_congr_left
  intro qa hqa
  rw [passDelta_of_nodup profiles hid p hp,
    stepDelta_eq_spec _ _ _ (hown qa hqa) (hne p hp qa.1)]

/-- The shape of the score map: it has one property per profile identity and no other,
every score is non-negative, and when no answered question is named like a property of
`Object.prototype`, a profile all of whose namesakes share no question with the
answers is present with score `0`. -/
theorem calculateProfileScores_one_entry_per_identity (answers : JsObj String)
    (profiles : List Profile) :
    (calculateProfileScores answers profiles).keys.Nodup ∧
    (∀ k, k ∈ (calculateProfileScores answers profiles).keys ↔ ∃ p ∈ profiles, p._id = k) ∧
    (∀ p ∈ profiles, (∀ qa ∈ answers, qa.1 ∉ inheritedNames) →
      (∀ p' ∈ profiles, p'._id = p._id → ∀ qa ∈ answers, expectedAnswer p' qa.1 = none) →
      (calculateProfileScores answers profiles).get p._id = some 0) ∧
    (∀ e ∈ calculateProfileScores answers profiles, 0 ≤ e.2) := by
  refine ⟨calculateProfileScores_nodup_keys answers profiles,
    calculateProfileScores_mem_keys answers profiles, ?_,
    calculateProfileScores_nonneg answers profiles⟩
  · intro p hp hown hshare
    rw [calculateProfileScores_get, initScores_get profiles p hp,
      answersDelta_perm profiles _ _ (entries_perm answers)]
    simp only [Option.map_some', zero_add, Option.some.injEq]
    unfold answersDelta
    apply List.sum_eq_zero
    intro x hx
    obtain ⟨qa, hqa, rfl⟩ := List.mem_map.1 hx
    unfold passDelta
    apply List.sum_eq_zero
    intro y hy
    obtain ⟨p', hp', rfl⟩ := List.mem_map.1 hy
    have hp'' := List.mem_filter.1 hp'
    have hid : p'._id = p._id := by simpa using hp''.2
    exact stepDelta_of_undefined qa.1 qa.2 p' (hown qa hqa) (hshare p' hp''.1 hid qa hqa)

/-- C3: two answer sets holding the same (question, answer) pairs in different
orders give the identical score map. -/
theorem calculateProfileScores_order_independent (profiles : List Profile)
    (answers₁ answers₂ : JsObj String) (h : answers₁.Perm answers₂) :
    calculateProfileScores answers₁ profiles = calculateProfileScores answers₂ profiles := by
  apply JsObj.ext_of_keys
  · rw [calculateProfileScores_keys, calculateProfileScores_keys]
  · rw [calculateProfileScores_keys]
    exact initLoop_nodup profiles [] (by simp [JsObj.keys])
  · intro k
    rw [calculateProfileScores_get, calculateProfileScores_get]
    have hp : (JsObj.entries answers₁).Perm (JsObj.entries answers₂) :=
      ((entries_perm answers₁).trans h).trans (entries_perm answers₂).symm
    rw [answersDelta_perm profiles _ _ hp]

/-! ## Properties of the sort -/

theorem insertByScore_perm (a : String × ℚ) (l : List (String × ℚ)) :
    (insertByScore a l).Perm (a :: l) := by
  induction l with
  | nil => exact List.Perm.refl _
  | cons b rest ih =>
    by_cases h : b.2 - a.2 ≤ 0
    · simp [insertByScore, h]
    · simp only [insertByScore, h, if_false]
      exact (List.Perm.cons _ ih).trans (List.Perm.swap _ _ _)

theorem sortByScore_perm (l : List (String × ℚ)) : (sortByScore l).Perm l := by
  induction l with
  | nil => exact List.Perm.refl _
  | cons a rest ih =>
    exact (insertByScore_perm a _).trans (List.Perm.cons _ ih)

theorem insertByScore_sorted (a : String × ℚ) (l : List (String × ℚ))
    (h : l.Pairwise (fun x y => y.2 ≤ x.2)) :
    (insertByScore a l).Pairwise (fun x y => y.2 ≤ x.2) := by
  induction l with
  | nil => simp [insertByScore]
  | cons b rest ih =>
    rw [List.pairwise_cons] at h
    by_cases hc : b.2 - a.2 ≤ 0
    · simp only [insertByScore, hc, if_true]
      have hba : b.2 ≤ a.2 := by linarith
      rw [List.pairwise_cons]
      refine ⟨?_, List.pairwise_cons.2 h⟩
      intro y hy
      rcases List.mem_cons.1 hy with hy | hy
      · rw [hy]; exact hba
      · exact le_trans (h.1 y hy) hba
    · simp only [insertByScore, hc, if_false]
      have hab : a.2 ≤ b.2 := by
        have : 0 < b.2 - a.2 := lt_of_not_ge hc
        linarith
      rw [List.pairwise_cons]
      refine ⟨?_, ih h.2⟩
      intro y hy
      rcases List.mem_cons.1 ((insertByScore_perm a rest).subset hy) with hy | hy
      · rw [hy]; exact hab
      · exact h.1 y hy

theorem sortByScore_sorted (l : List (String × ℚ)) :
    (sortByScore l).Pairwise (fun x y => y.2 ≤ x.2) := by
  induction l with
  | nil => exact List.Pairwise.nil
  | cons a rest ih => exact insertByScore_sorted a _ ih

/-- Stability at the head: the first entry of the sorted array is the first entry of
the input that has the highest score. -/
theorem sortByScore_head (l : List (String × ℚ)) (t : String × ℚ) (r : List (String × ℚ))
    (h : sortByScore l = t :: r) :
    ∃ pre post, l = pre ++ t :: post ∧ (∀ e ∈ pre, e.2 < t.2) ∧ (∀ e ∈ post, e.2 ≤ t.2) := by
  induction l generalizing t r with
  | nil => simp [sortByScore] at h
  | cons a rest ih =>
    simp only [sortByScore] at h
    cases hs : sortByScore rest with
    | nil =>
      have hrest : rest = [] := by
        have := (sortByScore_perm rest).length_eq
        rw [hs] at this
        exact List.length_eq_zero.1 this.symm
      rw [hs] at h
      simp only [insertByScore, List.cons.injEq] at h
      refine ⟨[], [], ?_, by simp, by simp⟩
      rw [hrest, h.1]
      rfl
    | cons t' r' =>
      obtain ⟨pre', post', hl, hpre, hpost⟩ := ih t' r' hs
      rw [hs] at h
      by_cases hc : t'.2 - a.2 ≤ 0
      · simp only [insertByScore, hc, if_true, List.cons.injEq] at h
        have hta : t'.2 ≤ a.2 := by linarith
        refine ⟨[], rest, by rw [h.1]; rfl, by simp, ?_⟩
        intro e he
        rw [← h.1]
        rw [hl] at he
        rcases List.mem_append.1 he with he | he
        · exact le_trans (le_of_lt (hpre e he)) hta
        · rcases List.mem_cons.1 he with he | he
          · rw [he]; exact hta
          · exact le_trans (hpost e he) hta
      · simp only [insertByScore, hc, if_false, List.cons.injEq] at h
        have hat : a.2 < t'.2 := by
          have : 0 < t'.2 - a.2 := lt_of_not_ge hc
          linarith
        refine ⟨a :: pre', post', by rw [hl, h.1]; rfl, ?_, ?_⟩
        · intro e he
          rw [← h.1]
          rcases List.mem_cons.1 he with he | he
          · rw [he]; exact hat
          · exact hpre e he
        · intro e he
          rw [← h.1]
          exact hpost e he

theorem sortedEntries_perm (scores : JsObj ℚ) :
    (sortByScore (JsObj.entries scores)).Perm scores :=
  (sortByScore_perm _).trans (entries_perm scores)

/-! ## Properties of `getBestMatch` -/

theorem getBestMatch_of_sorted_nil (scores : JsObj ℚ) (profiles : List Profile) (n : Nat)
    (h : sortByScore (JsObj.entries scores) = []) :
    getBestMatch scores profiles n
      = { profile := none, confidence := 0, alternativeProfiles := none } := by
  simp only [getBestMatch, h]

theorem getBestMatch_of_sorted_cons (scores : JsObj ℚ) (profiles : List Profile) (n : Nat)
    (t : String × ℚ) (rest : List (String × ℚ))
    (h : sortByScore (JsObj.entries scores) = t :: rest) :
    (getBestMatch scores profiles n).profile = findProfile profiles t.1 ∧
    (getBestMatch scores profiles n).alternativeProfiles
      = some ((rest.take 3).map
          (fun e => { profile := findProfile profiles e.1, score := e.2 })) := by
  simp only [getBestMatch, h, List.drop_succ_cons, List.drop_zero, and_self]

theorem confidence_of_sorted_single (scores : JsObj ℚ) (profiles : List Profile) (n : Nat)
    (t : String × ℚ) (h : sortByScore (JsObj.entries scores) = [t]) :
    (getBestMatch scores profiles n).confidence = t.2 / max (n : ℚ) 1 := by
  simp only [getBestMatch, h]

theorem confidence_of_sorted_pair (scores : JsObj ℚ) (profiles : List Profile) (n : Nat)
    (t r : String × ℚ) (rest : List (String × ℚ))
    (h : sortByScore (JsObj.entries scores) = t :: r :: rest) :
    (getBestMatch scores profiles n).confidence
      = t.2 / max (n : ℚ) 1 * 0.7 + (t.2 - r.2) / max t.2 0.001 * 0.3 := by
  simp only [getBestMatch, h]

theorem highestScore_mem (l : List ℚ) (h : l ≠ []) : highestScore l ∈ l := by
  induction l with
  | nil => exact absurd rfl h
  | cons x rest ih =>
    cases rest with
    | nil => simp [highestScore]
    | cons y rest' =>
      have := ih (by simp)
      simp only [highestScore]
      rcases max_choice x (highestScore (y :: rest')) with hm | hm
      · rw [hm]; exact List.mem_cons_self _ _
      · rw [hm]; exact List.mem_cons_of_mem _ this

theorem le_highestScore (l : List ℚ) (x : ℚ) (hx : x ∈ l) : x ≤ highestScore l := by
  induction l with
  | nil => simp at hx
  | cons y rest ih =>
    cases rest with
    | nil =>
      simp only [List.mem_singleton] at hx
      simp [highestScore, hx]
    | cons z rest' =>
      simp only [highestScore]
      rcases List.mem_cons.1 hx with hx | hx
      · rw [hx]; exact le_max_left _ _
      · exact le_trans (ih hx) (le_max_right _ _)

theorem highestScore_eq_of_greatest (l : List ℚ) (v : ℚ) (hv : v ∈ l)
    (hmax : ∀ x ∈ l, x ≤ v) : highestScore l = v :=
  le_antisymm (hmax _ (highestScore_mem l (List.ne_nil_of_mem hv))) (le_highestScore l v hv)

theorem highestScore_perm (l₁ l₂ : List ℚ) (h : l₁.Perm l₂) :
    highestScore l₁ = highestScore l₂ := by
  cases l₁ with
  | nil => rw [List.nil_perm.1 h]
  | cons x rest =>
    apply highestScore_eq_of_greatest
    · exact h.symm.subset (highestScore_mem _ (by
        intro hh
        rw [hh] at h
        exact List.cons_ne_nil _ _ (List.perm_nil.1 h)))
    · intro y hy
      exact le_highestScore _ _ (h.subset hy)

theorem highestScore_of_sorted (v : ℚ) (vs : List ℚ)
    (h : (v :: vs).Pairwise (fun x y => y ≤ x)) : highestScore (v :: vs) = v := by
  apply highestScore_eq_of_greatest
  · exact List.mem_cons_self _ _
  · intro x hx
    rcases List.mem_cons.1 hx with hx | hx
    · rw [hx]
    · exact (List.pairwise_cons.1 h).1 x hx

theorem findProfile_some (profiles : List Profile) (id : String) (p : Profile)
    (h : findProfile profiles id = some p) : p ∈ profiles ∧ p._id = id := by
  unfold findProfile at h
  refine ⟨List.mem_of_find?_eq_some h, ?_⟩
  have := List.find?_some h
  simpa using this

theorem findProfile_of_mem (profiles : List Profile)
    (hid : (profiles.map (fun p => p._id)).Nodup) (p : Profile) (hp : p ∈ profiles) :
    findProfile profiles p._id = some p := by
  induction profiles with
  | nil => simp at hp
  | cons x xs ih =>
    simp only [List.map_cons, List.nodup_cons] at hid
    rcases List.mem_cons.1 hp with h | h
    · subst h
      simp [findProfile, List.find?_cons]
    · have hx : ¬ x._id = p._id := fun hh => hid.1 (List.mem_map.2 ⟨p, h, hh.symm⟩)
      have := ih hid.2 h
      unfold findProfile at this ⊢
      simp [List.find?_cons, hx, this]

theorem eq_of_id_eq (profiles : List Profile)
    (hid : (profiles.map (fun p => p._id)).Nodup) (p q : Profile) (hp : p ∈ profiles)
    (hq : q ∈ profiles) (h : p._id = q._id) : p = q := by
  have h1 := findProfile_of_mem profiles hid p hp
  have h2 := findProfile_of_mem profiles hid q hq
  rw [h, h2] at h1
  exact (Option.some.inj h1).symm

theorem indexed_of_no_index {α : Type} (o : JsObj α)
    (h : ∀ e ∈ o, arrayIndex? e.1 = none) : JsObj.indexed o = [] := by
  induction o with
  | nil => rfl
  | cons e rest ih =>
    have he := h e (List.mem_cons_self _ _)
    simp only [JsObj.indexed, he]
    exact ih (fun e' he' => h e' (List.mem_cons_of_mem _ he'))

theorem entries_of_no_index {α : Type} (o : JsObj α)
    (h : ∀ e ∈ o, arrayIndex? e.1 = none) : JsObj.entries o = o := by
  unfold JsObj.entries
  rw [indexed_of_no_index o h, List.map_nil, List.nil_append, List.filter_eq_self]
  intro e he
  rw [h e he]
  rfl

theorem calculateProfileScores_keys_of_nodup (answers : JsObj String)
    (profiles : List Profile) (hid : (profiles.map (fun p => p._id)).Nodup) :
    (calculateProfileScores answers profiles).keys = profiles.map (fun p => p._id) := by
  rw [calculateProfileScores_keys, initScores_of_nodup profiles hid]
  simp [JsObj.keys]

theorem calculateProfileScores_nil_profiles (answers : JsObj String) :
    calculateProfileScores answers [] = [] := by
  have h := calculateProfileScores_keys answers []
  simp only [initScores, List.foldl_nil, JsObj.keys, List.map_nil] at h
  exact List.map_eq_nil_iff.1 h

theorem answersDelta_le (profiles : List Profile)
    (hid : (profiles.map (fun p => p._id)).Nodup) (p : Profile) (hp : p ∈ profiles)
    (es : List (String × String)) : answersDelta profiles es p._id ≤ es.length := by
  unfold answersDelta
  have h := List.sum_le_card_nsmul (es.map (fun qa => passDelta profiles qa.1 qa.2 p._id)) 1
    (by
      intro x hx
      obtain ⟨qa, _, rfl⟩ := List.mem_map.1 hx
      rw [passDelta_of_nodup profiles hid p hp]
      exact stepDelta_le_one _ _ _)
  simpa using h

theorem calculateProfileScores_le_length (answers : JsObj String) (profiles : List Profile)
    (hid : (profiles.map (fun p => p._id)).Nodup) :
    ∀ e ∈ calculateProfileScores answers profiles, e.2 ≤ answers.length := by
  intro e he
  have hnd := calculateProfileScores_nodup_keys answers profiles
  have hkey : e.1 ∈ (calculateProfileScores answers profiles).keys :=
    List.mem_map.2 ⟨e, he, rfl⟩
  obtain ⟨p, hp, hpe⟩ := (calculateProfileScores_mem_keys answers profiles e.1).1 hkey
  have hget := JsObj.get_of_mem _ hnd e.1 e.2 he
  rw [calculateProfileScores_get, ← hpe, initScores_get profiles p hp] at hget
  simp only [Option.map_some', zero_add, Option.some.injEq] at hget
  rw [← hget, ← (entries_perm answers).length_eq]
  exact answersDelta_le profiles hid p hp _

theorem max_count_pos (n : Nat) : (0 : ℚ) < max (n : ℚ) 1 :=
  lt_of_lt_of_le one_pos (le_max_right _ _)

/-- With every score between `0` and `answerCount`, the confidence lies in `[0, 1]`. -/
theorem confidence_bounds (scores : JsObj ℚ) (profiles : List Profile) (n : Nat)
    (h : ∀ e ∈ scores, 0 ≤ e.2 ∧ e.2 ≤ n) :
    0 ≤ (getBestMatch scores profiles n).confidence ∧
      (getBestMatch scores profiles n).confidence ≤ 1 := by
  have hperm := sortedEntries_perm scores
  have hsorted := sortByScore_sorted (JsObj.entries scores)
  have hn := max_count_pos n
  cases hs : sortByScore (JsObj.entries scores) with
  | nil =>
    rw [getBestMatch_of_sorted_nil scores profiles n hs]
    simp
  | cons t rest =>
    rw [hs] at hperm hsorted
    have ht := h t (hperm.subset (List.mem_cons_self _ _))
    have hraw0 : 0 ≤ t.2 / max (n : ℚ) 1 := div_nonneg ht.1 (le_of_lt hn)
    have hraw1 : t.2 / max (n : ℚ) 1 ≤ 1 :=
      (div_le_one hn).2 (le_trans ht.2 (le_max_left _ _))
    cases rest with
    | nil =>
      rw [confidence_of_sorted_single scores profiles n t hs]
      exact ⟨hraw0, hraw1⟩
    | cons r rest' =>
      rw [confidence_of_sorted_pair scores profiles n t r rest' hs]
      have hr := h r (hperm.subset (List.mem_cons_of_mem _ (List.mem_cons_self _ _)))
      have hrt : r.2 ≤ t.2 := (List.pairwise_cons.1 hsorted).1 r (List.mem_cons_self _ _)
      have hm : (0 : ℚ) < max t.2 0.001 := lt_of_lt_of_le (by norm_num) (le_max_right _ _)
      have hsep0 : 0 ≤ (t.2 - r.2) / max t.2 0.001 :=
        div_nonneg (by linarith) (le_of_lt hm)
      have hsep1 : (t.2 - r.2) / max t.2 0.001 ≤ 1 :=
        (div_le_one hm).2 (le_trans (by linarith [hr.1]) (le_max_left _ _))
      constructor
      · have h7 : (0 : ℚ) ≤ 0.7 := by norm_num
        have h3 : (0 : ℚ) ≤ 0.3 := by norm_num
        exact add_nonneg (mul_nonneg hraw0 h7) (mul_nonneg hsep0 h3)
      · have h7 : (0.7 : ℚ) = 7 / 10 := by norm_num
        have h3 : (0.3 : ℚ) = 3 / 10 := by norm_num
        rw [h7, h3]
        linarith

/-- With every score `0`, the confidence is `0`. -/
theorem confidence_zero (scores : JsObj ℚ) (profiles : List Profile) (n : Nat)
    (h : ∀ e ∈ scores, e.2 = 0) : (getBestMatch scores profiles n).confidence = 0 := by
  have hperm := sortedEntries_perm scores
  cases hs : sortByScore (JsObj.entries scores) with
  | nil => rw [getBestMatch_of_sorted_nil scores profiles n hs]
  | cons t rest =>
    rw [hs] at hperm
    have ht := h t (hperm.subset (List.mem_cons_self _ _))
    cases rest with
    | nil =>
      rw [confidence_of_sorted_single scores profiles n t hs, ht, zero_div]
    | cons r rest' =>
      have hr := h r (hperm.subset (List.mem_cons_of_mem _ (List.mem_cons_self _ _)))
      rw [confidence_of_sorted_pair scores profiles n t r rest' hs, ht, hr]
      simp

/-! ## Match resolution: the claims -/

/-- C4: the confidence returned by `getBestMatch` is the reference formula applied to
the scores of the map: the single score over `max(answerCount, 1)` for one entry, and
`0.7 * (top / max(answerCount, 1)) + 0.3 * ((top - runnerUp) / max(top, 0.001))` for the
two highest scores `top` and `runnerUp` of two or more entries, without clamping. -/
theorem getBestMatch_confidence_eq_specConfidence (scores : JsObj ℚ)
    (profiles : List Profile) (answerCount : Nat) :
    (getBestMatch scores profiles answerCount).confidence
      = specConfidence (scores.map Prod.snd) answerCount := by
  have hperm := sortedEntries_perm scores
  have hvals : ((sortByScore (JsObj.entries scores)).map Prod.snd).Perm (scores.map Prod.snd) :=
    hperm.map _
  have hsorted : ((sortByScore (JsObj.entries scores)).map Prod.snd).Pairwise
      (fun x y => y ≤ x) := by
    rw [List.pairwise_map]
    exact sortByScore_sorted _
  cases hs : sortByScore (JsObj.entries scores) with
  | nil =>
    rw [hs] at hperm
    rw [List.nil_perm.1 hperm, getBestMatch_of_sorted_nil [] profiles answerCount (by rfl)]
    rfl
  | cons t rest =>
    cases rest with
    | nil =>
      rw [hs] at hperm
      have : scores = [t] := (List.singleton_perm.1 hperm).symm
      rw [confidence_of_sorted_single scores profiles answerCount t hs, this]
      rfl
    | cons r rest' =>
      rw [confidence_of_sorted_pair scores profiles answerCount t r rest' hs]
      rw [hs] at hvals hsorted hperm
      simp only [List.map_cons] at hvals hsorted
      have htop : highestScore (scores.map Prod.snd) = t.2 := by
        rw [← highestScore_perm _ _ hvals]
        exact highestScore_of_sorted _ _ hsorted
      have hru : highestScore ((scores.map Prod.snd).erase t.2) = r.2 := by
        have he := hvals.erase t.2
        rw [List.erase_cons_head] at he
        rw [← highestScore_perm _ _ he]
        exact highestScore_of_sorted _ _ (List.pairwise_cons.1 hsorted).2
      obtain ⟨e₁, tl, hsc⟩ : ∃ e₁ tl, scores = e₁ :: tl := by
        cases scores with
        | nil => exact absurd hperm.length_eq (by simp)
        | cons e₁ tl => exact ⟨e₁, tl, rfl⟩
      obtain ⟨e₂, tl', htl⟩ : ∃ e₂ tl', tl = e₂ :: tl' := by
        cases tl with
        | nil =>
          rw [hsc] at hperm
          exact absurd hperm.length_eq (by simp)
        | cons e₂ tl' => exact ⟨e₂, tl', rfl⟩
      have hspec : specConfidence (scores.map Prod.snd) answerCount
          = 0.7 * (highestScore (scores.map Prod.snd) / max (answerCount : ℚ) 1)
            + 0.3 * ((highestScore (scores.map Prod.snd)
                - highestScore ((scores.map Prod.snd).erase
                    (highestScore (scores.map Prod.snd))))
                / max (highestScore (scores.map Prod.snd)) 0.001) := by
        rw [hsc, htl]
        rfl
      rw [hspec, htop, hru]
      ring

/-- C5 (amended): for a non-empty list of profiles with distinct identities,
`getBestMatch` returns a listed profile whose score is the maximum.  The score map
holds the identities in candidate order, and among the profiles of maximum score the
one returned is the first in the enumeration order of the score map (array-index
identities in ascending numeric order, then the others in candidate order): every
entry enumerated before it has a strictly lower score.  When no identity is an array
index, every profile listed before it has a strictly lower score. -/
theorem getBestMatch_top_is_first_maximum (answers : JsObj String)
    (profiles : List Profile) (answerCount : Nat) (hne : profiles ≠ [])
    (hid : (profiles.map (fun p => p._id)).Nodup) :
    ∃ p s, p ∈ profiles ∧
      (getBestMatch (calculateProfileScores answers profiles) profiles answerCount).profile
        = some p ∧
      (calculateProfileScores answers profiles).get p._id = some s ∧
      (∀ q ∈ profiles, ∀ v,
        (calculateProfileScores answers profiles).get q._id = some v → v ≤ s) ∧
      (calculateProfileScores answers profiles).keys = profiles.map (fun q => q._id) ∧
      (∃ pre post,
        JsObj.entries (calculateProfileScores answers profiles) = pre ++ (p._id, s) :: post ∧
        ∀ e ∈ pre, e.2 < s) ∧
      ((∀ q ∈ profiles, arrayIndex? q._id = none) →
        ∃ pre post, profiles = pre ++ p :: post ∧
          ∀ q ∈ pre, ∀ v,
            (calculateProfileScores answers profiles).get q._id = some v → v < s) := by
  have hkeys := calculateProfileScores_keys_of_nodup answers profiles hid
  generalize calculateProfileScores answers profiles = S at hkeys ⊢
  have hSnd : S.keys.Nodup := by rw [hkeys]; exact hid
  have hperm := sortedEntries_perm S
  cases hs : sortByScore (JsObj.entries S) with
  | nil =>
    rw [hs] at hperm
    have hS : S = [] := List.nil_perm.1 hperm
    rw [hS] at hkeys
    simp only [JsObj.keys, List.map_nil] at hkeys
    exact absurd (List.map_eq_nil_iff.1 hkeys.symm) hne
  | cons t r =>
    obtain ⟨pre, post, hl, hpre, hpost⟩ := sortByScore_head _ t r hs
    have htS : t ∈ S := by
      apply (entries_perm S).subset
      rw [hl]
      exact List.mem_append_right _ (List.mem_cons_self _ _)
    have htk : t.1 ∈ profiles.map (fun p => p._id) := by
      rw [← hkeys]
      exact List.mem_map.2 ⟨t, htS, rfl⟩
    obtain ⟨p, hp, hpt⟩ := List.mem_map.1 htk
    have hget : ∀ e ∈ S, S.get e.1 = some e.2 := fun e he => JsObj.get_of_mem S hSnd e.1 e.2 he
    have hmax : ∀ e ∈ S, e.2 ≤ t.2 := by
      intro e he
      have he' : e ∈ JsObj.entries S := (entries_perm S).symm.subset he
      rw [hl] at he'
      rcases List.mem_append.1 he' with he' | he'
      · exact le_of_lt (hpre e he')
      · rcases List.mem_cons.1 he' with he' | he'
        · rw [he']
        · exact hpost e he'
    have hte : t = (p._id, t.2) := by rw [hpt]
    refine ⟨p, t.2, hp, ?_, ?_, ?_, hkeys, ?_, ?_⟩
    · rw [(getBestMatch_of_sorted_cons S profiles answerCount t r hs).1, ← hpt]
      exact findProfile_of_mem profiles hid p hp
    · rw [hpt]; exact hget t htS
    · intro q _ v hv
      exact hmax _ (JsObj.get_mem S _ _ hv)
    · refine ⟨pre, post, ?_, hpre⟩
      rw [hl, ← hte]
    · intro hno
      have hnoS : ∀ e ∈ S, arrayIndex? e.1 = none := by
        intro e he
        have : e.1 ∈ profiles.map (fun p => p._id) := by
          rw [← hkeys]
          exact List.mem_map.2 ⟨e, he, rfl⟩
        obtain ⟨q, hq, hqe⟩ := List.mem_map.1 this
        rw [← hqe]
        exact hno q hq
      rw [entries_of_no_index S hnoS] at hl
      have hk2 : profiles.map (fun p => p._id)
          = pre.map Prod.fst ++ (t :: post).map Prod.fst := by
        rw [← hkeys, hl]
        simp [JsObj.keys]
      obtain ⟨l₁, l₂, hsplit, hl₁, hl₂⟩ := List.map_eq_append_iff.1 hk2
      rw [List.map_cons] at hl₂
      obtain ⟨p', l₂', hl₂eq, hp'id, _⟩ := List.map_eq_cons_iff.1 hl₂
      have hp'mem : p' ∈ profiles := by
        rw [hsplit, hl₂eq]
        exact List.mem_append_right _ (List.mem_cons_self _ _)
      have hpp : p' = p :=
        eq_of_id_eq profiles hid p' p hp'mem hp (by rw [hp'id, hpt])
      refine ⟨l₁, l₂', by rw [hsplit, hl₂eq, hpp], ?_⟩
      intro q hq v hv
      have hqk : q._id ∈ pre.map Prod.fst := by
        rw [← hl₁]
        exact List.mem_map.2 ⟨q, hq, rfl⟩
      obtain ⟨e, he, heq⟩ := List.mem_map.1 hqk
      have heS : e ∈ S := by
        rw [hl]
        exact List.mem_append_left _ he
      have h1 := hget e heS
      rw [heq, hv] at h1
      rw [Option.some.inj h1]
      exact hpre e he

/-- C6: with no candidates the score map is empty and `getBestMatch` returns a result
with a null profile and confidence `0`, whatever the answer count. -/
theorem getBestMatch_no_candidates (answers : JsObj String) (profiles : List Profile)
    (answerCount : Nat) :
    calculateProfileScores answers [] = [] ∧
    (getBestMatch [] profiles answerCount).profile = none ∧
    (getBestMatch [] profiles answerCount).confidence = 0 :=
  ⟨calculateProfileScores_nil_profiles answers, rfl, rfl⟩

/-- C7: for a score map with at least one entry, the alternatives are the entries ranked
second to fourth by score: with `top :: ranked` the entries in non-increasing score
order, they are the first three of `ranked`, each with its score from the map and
its looked-up profile; there are `min 3 (n - 1)` of them, in non-increasing score
order, none scoring above the top and none being the top profile. -/
theorem getBestMatch_alternatives (scores : JsObj ℚ) (profiles : List Profile)
    (answerCount : Nat) (hnd : scores.keys.Nodup) (hne : scores ≠ []) :
    ∃ top ranked alts,
      (top :: ranked).Perm scores ∧
      (top :: ranked).Pairwise (fun a b => b.2 ≤ a.2) ∧
      (getBestMatch scores profiles answerCount).profile = findProfile profiles top.1 ∧
      (getBestMatch scores profiles answerCount).alternativeProfiles = some alts ∧
      alts = (ranked.take 3).map
        (fun e => { profile := findProfile profiles e.1, score := e.2 }) ∧
      alts.length = min 3 (scores.length - 1) ∧
      alts.Pairwise (fun a b => b.score ≤ a.score) ∧
      (∀ e ∈ ranked.take 3, scores.get e.1 = some e.2 ∧ e.2 ≤ top.2 ∧ e.1 ≠ top.1) ∧
      (∀ a ∈ alts, ∀ p, a.profile = some p →
        (getBestMatch scores profiles answerCount).profile ≠ some p) := by
  have hperm := sortedEntries_perm scores
  have hsorted := sortByScore_sorted (JsObj.entries scores)
  cases hs : sortByScore (JsObj.entries scores) with
  | nil =>
    rw [hs] at hperm
    exact absurd (List.nil_perm.1 hperm) hne
  | cons top ranked =>
    rw [hs] at hperm hsorted
    obtain ⟨hprof, halts⟩ := getBestMatch_of_sorted_cons scores profiles answerCount _ _ hs
    have hkeys : ((top :: ranked).map Prod.fst).Nodup :=
      ((hperm.map Prod.fst).nodup_iff).2 hnd
    rw [List.map_cons, List.nodup_cons] at hkeys
    have hfacts : ∀ e ∈ ranked.take 3,
        scores.get e.1 = some e.2 ∧ e.2 ≤ top.2 ∧ e.1 ≠ top.1 := by
      intro e he
      have her : e ∈ ranked := List.mem_of_mem_take he
      refine ⟨?_, (List.pairwise_cons.1 hsorted).1 e her, ?_⟩
      · exact JsObj.get_of_mem scores hnd e.1 e.2 (hperm.subset (List.mem_cons_of_mem _ her))
      · intro heq
        exact hkeys.1 (heq ▸ List.mem_map.2 ⟨e, her, rfl⟩)
    refine ⟨top, ranked, _, hperm, hsorted, hprof, halts, rfl, ?_, ?_, hfacts, ?_⟩
    · rw [List.length_map, List.length_take]
      have := hperm.length_eq
      simp only [List.length_cons] at this
      rw [← this]
      simp
    · rw [List.pairwise_map]
      exact ((List.pairwise_cons.1 hsorted).2).sublist (List.take_sublist 3 ranked)
    · intro a ha p hap htop
      obtain ⟨e, he, rfl⟩ := List.mem_map.1 ha
      simp only at hap
      rw [hprof] at htop
      have h1 := (findProfile_some profiles _ _ hap).2
      have h2 := (findProfile_some profiles _ _ htop).2
      exact (hfacts e he).2.2 (h1.symm.trans h2)

/-- C8: for profiles with distinct identities and an answer count that is at least the
number of answered questions, the confidence of the match computed from the scores
lies between `0` and `1`. -/
theorem getBestMatch_confidence_in_unit_interval (answers : JsObj String)
    (profiles : List Profile) (answerCount : Nat)
    (hid : (profiles.map (fun p => p._id)).Nodup)
    (hcount : answers.length ≤ answerCount) :
    0 ≤ (getBestMatch (calculateProfileScores answers profiles) profiles
          answerCount).confidence ∧
    (getBestMatch (calculateProfileScores answers profiles) profiles
          answerCount).confidence ≤ 1 := by
  apply confidence_bounds
  intro e he
  refine ⟨calculateProfileScores_nonneg answers profiles e he, ?_⟩
  have h1 := calculateProfileScores_le_length answers profiles hid e he
  have h2 : (answers.length : ℚ) ≤ answerCount := by exact_mod_cast hcount
  exact le_trans h1 h2

/-- C9: the formula has no hard bound: the score map `{A: 2, B: 0}` with answer count
`1` has non-negative scores and confidence `1.7`, above `1`. -/
theorem getBestMatch_confidence_can_exceed_one :
    ∃ (scores : JsObj ℚ) (answerCount : Nat),
      scores.keys.Nodup ∧ (∀ e ∈ scores, 0 ≤ e.2) ∧
      ∀ profiles : List Profile,
        (getBestMatch scores profiles answerCount).confidence = 17 / 10 ∧
        1 < (getBestMatch scores profiles answerCount).confidence := by
  refine ⟨[("A", 2), ("B", 0)], 1, by decide, ?_, ?_⟩
  · intro e he
    simp only [List.mem_cons, List.mem_singleton, List.not_mem_nil, or_false] at he
    rcases he with rfl | rfl <;> norm_num
  · intro profiles
    have hs : sortByScore (JsObj.entries [("A", (2 : ℚ)), ("B", 0)])
        = [("A", 2), ("B", 0)] := by
      simp [sortByScore, insertByScore, JsObj.entries, JsObj.indexed, arrayIndex?,
        digitsValue]
    have hm : max (2 : ℚ) 0.001 = 2 := max_eq_left (by norm_num)
    rw [confidence_of_sorted_pair _ profiles 1 _ _ _ hs]
    simp only [hm]
    norm_num

/-- C10: scoring the empty answer set gives every profile the score `0`, and
`getBestMatch` on that score map with answer count `0` returns confidence `0`. -/
theorem empty_answers_score_zero_confidence_zero (profiles : List Profile) :
    (∀ e ∈ calculateProfileScores [] profiles, e.2 = 0) ∧
    (∀ p ∈ profiles, (calculateProfileScores [] profiles).get p._id = some 0) ∧
    (getBestMatch (calculateProfileScores [] profiles) profiles 0).confidence = 0 := by
  have hinit : calculateProfileScores [] profiles = initScores profiles := rfl
  have hzero : ∀ e ∈ calculateProfileScores [] profiles, e.2 = 0 := by
    rw [hinit]
    exact initLoop_values profiles [] (by simp)
  refine ⟨hzero, ?_, confidence_zero _ profiles 0 hzero⟩
  intro p hp
  rw [hinit]
  exact initScores_get profiles p hp

/-! ## Evaluations at concrete inputs -/

/-- The scoring rule at the scenario of the specification: profile `B` scores `1` for
the answers `q1: yes, q2: no`. -/
theorem calculateProfileScores_eq_specScore_witness :
    (calculateProfileScores [("q1", "yes"), ("q2", "no")] [profileA, profileB]).get
        profileB._id
      = some (specScore [("q1", "yes"), ("q2", "no")] profileB) ∧
    specScore [("q1", "yes"), ("q2", "no")] profileB = 1 :=
  ⟨calculateProfileScores_eq_specScore [("q1", "yes"), ("q2", "no")] [profileA, profileB]
    (by decide)
    (by
      intro p hp q
      simp only [List.mem_cons, List.mem_singleton, List.not_mem_nil, or_false] at hp
      rcases hp with rfl | rfl <;>
        simp [expectedAnswer, profileA, profileB, JsObj.get] <;>
        split_ifs <;> simp)
    (by decide)
    profileB (by decide),
   by simp [specScore, specContribution, expectedAnswer, profileB, JsObj.get]⟩

/-- The shape of the score map at a concrete input: a profile without expected answers
is present with score `0`. -/
theorem calculateProfileScores_one_entry_per_identity_witness :
    (calculateProfileScores [("q2", "no")] [profileA, profileOne]).get profileOne._id
      = some 0 :=
  (calculateProfileScores_one_entry_per_identity [("q2", "no")]
      [profileA, profileOne]).2.2.1 profileOne (by decide) (by decide)
    (by
      intro p' hp' hid qa hqa
      simp only [List.mem_cons, List.mem_singleton, List.not_mem_nil, or_false] at hp' hqa
      subst hqa
      rcases hp' with rfl | rfl
      · exact absurd hid (by decide)
      · simp [expectedAnswer, profileOne, JsObj.get])

/-- C3 at a concrete input: the two enumeration orders of `q1: yes, q2: no`. -/
theorem calculateProfileScores_order_independent_witness :
    calculateProfileScores [("q1", "yes"), ("q2", "no")] [profileA, profileB]
      = calculateProfileScores [("q2", "no"), ("q1", "yes")] [profileA, profileB] :=
  calculateProfileScores_order_independent [profileA, profileB] _ _ (List.Perm.swap _ _ _)

/-- C5 as stated fails: `2` and `1` tie at the maximum score `1`, `2` comes first in
the candidate list, and `getBestMatch` returns `1`. -/
theorem getBestMatch_tie_break_counterexample :
    calculateProfileScores [("q1", "yes")] [profileTwo, profileOne] = [("2", 1), ("1", 1)] ∧
    (getBestMatch (calculateProfileScores [("q1", "yes")] [profileTwo, profileOne])
        [profileTwo, profileOne] 1).profile = some profileOne := by
  have hscores : calculateProfileScores [("q1", "yes")] [profileTwo, profileOne]
      = [("2", 1), ("1", 1)] := by
    simp [calculateProfileScores, initScores, scoreStep, addTo, JsObj.read, inheritedNames,
      JsObj.entries, JsObj.indexed,
      JsObj.get, JsObj.set, arrayIndex?, digitsValue, profileTwo, profileOne]
  refine ⟨hscores, ?_⟩
  rw [hscores]
  simp [getBestMatch, sortByScore, insertByScore, findProfile, JsObj.entries, JsObj.indexed,
    JsObj.insertIndexed, arrayIndex?, digitsValue, profileTwo, profileOne]

/-- C5 (amended) at the tie of the specification's scenario: `A` and `B` both score `1`
for `q1: yes`. -/
theorem getBestMatch_top_is_first_maximum_witness :
    ∃ p s, p ∈ [profileA, profileB] ∧
      (getBestMatch (calculateProfileScores [("q1", "yes")] [profileA, profileB])
        [profileA, profileB] 1).profile = some p ∧
      (calculateProfileScores [("q1", "yes")] [profileA, profileB]).get p._id = some s ∧
      (∀ q ∈ [profileA, profileB], ∀ v,
        (calculateProfileScores [("q1", "yes")] [profileA, profileB]).get q._id = some v →
          v ≤ s) ∧
      (calculateProfileScores [("q1", "yes")] [profileA, profileB]).keys
        = [profileA, profileB].map (fun q => q._id) ∧
      (∃ pre post,
        JsObj.entries (calculateProfileScores [("q1", "yes")] [profileA, profileB])
          = pre ++ (p._id, s) :: post ∧
        ∀ e ∈ pre, e.2 < s) ∧
      ((∀ q ∈ [profileA, profileB], arrayIndex? q._id = none) →
        ∃ pre post, [profileA, profileB] = pre ++ p :: post ∧
          ∀ q ∈ pre, ∀ v,
            (calculateProfileScores [("q1", "yes")] [profileA, profileB]).get q._id = some v →
              v < s) :=
  getBestMatch_top_is_first_maximum [("q1", "yes")] [profileA, profileB] 1 (by decide)
    (by decide)

/-- C7 at the score map `{A: 2, B: 1}`: one alternative, `B` with score `1`. -/
theorem getBestMatch_alternatives_witness :
    ∃ top ranked alts,
      (top :: ranked).Perm [("A", (2 : ℚ)), ("B", 1)] ∧
      (top :: ranked).Pairwise (fun a b => b.2 ≤ a.2) ∧
      (getBestMatch [("A", 2), ("B", 1)] [profileA, profileB] 2).profile
        = findProfile [profileA, profileB] top.1 ∧
      (getBestMatch [("A", 2), ("B", 1)] [profileA, profileB] 2).alternativeProfiles
        = some alts ∧
      alts = (ranked.take 3).map
        (fun e => { profile := findProfile [profileA, profileB] e.1, score := e.2 }) ∧
      alts.length = min 3 ([("A", (2 : ℚ)), ("B", 1)].length - 1) ∧
      alts.Pairwise (fun a b => b.score ≤ a.score) ∧
      (∀ e ∈ ranked.take 3,
        JsObj.get [("A", (2 : ℚ)), ("B", 1)] e.1 = some e.2 ∧ e.2 ≤ top.2 ∧ e.1 ≠ top.1) ∧
      (∀ a ∈ alts, ∀ p, a.profile = some p →
        (getBestMatch [("A", 2), ("B", 1)] [profileA, profileB] 2).profile ≠ some p) :=
  getBestMatch_alternatives [("A", 2), ("B", 1)] [profileA, profileB] 2 (by decide)
    (by simp)

/-- C8 at the scenario of the specification, two answers. -/
theorem getBestMatch_confidence_in_unit_interval_witness :
    0 ≤ (getBestMatch (calculateProfileScores [("q1", "yes"), ("q2", "no")]
          [profileA, profileB]) [profileA, profileB] 2).confidence ∧
    (getBestMatch (calculateProfileScores [("q1", "yes"), ("q2", "no")]
          [profileA, profileB]) [profileA, profileB] 2).confidence ≤ 1 :=
  getBestMatch_confidence_in_unit_interval [("q1", "yes"), ("q2", "no")]
    [profileA, profileB] 2 (by decide) (by decide)

/-! ## Matching: further claims -/

theorem eq_singleton_of_keys_get {α : Type} (o : JsObj α) (k : String) (v : α)
    (hk : o.keys = [k]) (hg : o.get k = some v) : o = [(k, v)] := by
  cases o with
  | nil => simp [JsObj.keys] at hk
  | cons e rest =>
    obtain ⟨k0, v0⟩ := e
    simp only [JsObj.keys, List.map_cons, List.cons.injEq, List.map_eq_nil_iff] at hk
    obtain ⟨hk0, hrest⟩ := hk
    subst hk0
    subst hrest
    simp only [JsObj.get, if_true, Option.some.injEq] at hg
    rw [hg]

theorem sortByScore_entries_singleton (e : String × ℚ) :
    sortByScore (JsObj.entries [e]) = [e] := by
  have h : JsObj.entries [e] = [e] := List.perm_singleton.1 (entries_perm [e])
  rw [h]
  rfl

theorem stepDelta_of_match (q a : String) (p : Profile) (h : expectedAnswer p q = some a)
    (ha : a ≠ "") : stepDelta q a p = 1 := by
  unfold stepDelta
  unfold expectedAnswer at h
  cases hpa : p.answers with
  | none => rw [hpa] at h; exact Option.noConfusion h
  | some pa =>
    rw [hpa] at h
    simp only at h ⊢
    rw [JsObj.read_of_get pa q a h]
    simp [ha]

/-- C11: for a non-empty answer set and the single candidate `p` whose expected answer
equals the user's answer on every answered question (answers being non-empty strings,
as `yes`, `no` and `unsure` are), `getBestMatch` over the computed scores with
`answerCount` the number of answers returns `p` with confidence exactly `1`. -/
theorem getBestMatch_single_exact_match (answers : JsObj String) (p : Profile)
    (hne : answers ≠ [])
    (hmatch : ∀ qa ∈ answers, expectedAnswer p qa.1 = some qa.2)
    (hdom : ∀ qa ∈ answers, qa.2 ≠ "") :
    (getBestMatch (calculateProfileScores answers [p]) [p] answers.length).profile = some p ∧
    (getBestMatch (calculateProfileScores answers [p]) [p] answers.length).confidence = 1 := by
  have hid : ([p].map (fun p => p._id)).Nodup := by simp
  have hp : p ∈ [p] := List.mem_singleton_self p
  have hkeys := calculateProfileScores_keys_of_nodup answers [p] hid
  have hget := calculateProfileScores_get answers [p] p._id
  rw [initScores_get [p] p hp] at hget
  simp only [Option.map_some', zero_add] at hget
  have hsum : answersDelta [p] (JsObj.entries answers) p._id = (answers.length : ℚ) := by
    rw [← (entries_perm answers).length_eq]
    unfold answersDelta
    have hall : ∀ x ∈ (JsObj.entries answers).map
        (fun qa => passDelta [p] qa.1 qa.2 p._id), x = 1 := by
      intro x hx
      obtain ⟨qa, hqa, rfl⟩ := List.mem_map.1 hx
      have hqa' : qa ∈ answers := (entries_perm answers).subset hqa
      rw [passDelta_of_nodup [p] hid p hp]
      exact stepDelta_of_match qa.1 qa.2 p (hmatch qa hqa') (hdom qa hqa')
    rw [List.eq_replicate_of_mem hall]
    simp
  rw [hsum] at hget
  have hscores : calculateProfileScores answers [p] = [(p._id, (answers.length : ℚ))] :=
    eq_singleton_of_keys_get _ _ _ (by simpa using hkeys) hget
  rw [hscores]
  have hs := sortByScore_entries_singleton (p._id, (answers.length : ℚ))
  refine ⟨?_, ?_⟩
  · rw [(getBestMatch_of_sorted_cons _ [p] answers.length _ _ hs).1]
    exact findProfile_of_mem [p] hid p hp
  · rw [confidence_of_sorted_single _ [p] answers.length _ hs]
    have hlen : 1 ≤ answers.length := by
      cases answers with
      | nil => exact absurd rfl hne
      | cons a rest => simp
    have hq : (1 : ℚ) ≤ (answers.length : ℚ) := by exact_mod_cast hlen
    rw [max_eq_left hq]
    exact div_self (by linarith)

/-- C11 at a concrete input: profile `A` alone, answers `q1: yes, q2: no`. -/
theorem getBestMatch_single_exact_match_witness :
    (getBestMatch (calculateProfileScores [("q1", "yes"), ("q2", "no")] [profileA]) [profileA]
        [("q1", "yes"), ("q2", "no")].length).profile = some profileA ∧
    (getBestMatch (calculateProfileScores [("q1", "yes"), ("q2", "no")] [profileA]) [profileA]
        [("q1", "yes"), ("q2", "no")].length).confidence = 1 :=
  getBestMatch_single_exact_match [("q1", "yes"), ("q2", "no")] profileA (by simp)
    (by
      intro qa hqa
      simp only [List.mem_cons, List.mem_singleton, List.not_mem_nil, or_false] at hqa
      rcases hqa with rfl | rfl <;> simp [expectedAnswer, profileA, JsObj.get])
    (by
      intro qa hqa
      simp only [List.mem_cons, List.mem_singleton, List.not_mem_nil, or_false] at hqa
      rcases hqa with rfl | rfl <;> simp)

/-- C12: the scenario of the specification.  Profiles `A` and `B` both score `1` for
`q1: yes`; for `q1: yes, q2: no` they score `2` and `1`, and `getBestMatch` with answer
count `2` returns `A` with confidence `0.85` and `B`, score `1`, as only alternative. -/
theorem scenario_profiles_A_B :
    calculateProfileScores [("q1", "yes")] [profileA, profileB] = [("A", 1), ("B", 1)] ∧
    calculateProfileScores [("q1", "yes"), ("q2", "no")] [profileA, profileB]
      = [("A", 2), ("B", 1)] ∧
    getBestMatch (calculateProfileScores [("q1", "yes"), ("q2", "no")] [profileA, profileB])
        [profileA, profileB] 2
      = { profile := some profileA
          confidence := 0.85
          alternativeProfiles := some [{ profile := some profileB, score := 1 }] } ∧
    (0.85 : ℚ) = 0.7 * 1 + 0.3 * 0.5 := by
  have h1 : calculateProfileScores [("q1", "yes")] [profileA, profileB]
      = [("A", 1), ("B", 1)] := by
    simp [calculateProfileScores, initScores, scoreStep, addTo, JsObj.read, inheritedNames,
      JsObj.entries, JsObj.indexed,
      JsObj.get, JsObj.set, arrayIndex?, digitsValue, profileA, profileB]
  have h2 : calculateProfileScores [("q1", "yes"), ("q2", "no")] [profileA, profileB]
      = [("A", 2), ("B", 1)] := by
    simp [calculateProfileScores, initScores, scoreStep, addTo, JsObj.read, inheritedNames,
      JsObj.entries, JsObj.indexed,
      JsObj.get, JsObj.set, arrayIndex?, digitsValue, profileA, profileB]
    norm_num
  refine ⟨h1, h2, ?_, by norm_num⟩
  rw [h2]
  have hs : sortByScore (JsObj.entries [("A", (2 : ℚ)), ("B", 1)]) = [("A", 2), ("B", 1)] := by
    simp [sortByScore, insertByScore, JsObj.entries, JsObj.indexed, arrayIndex?, digitsValue]
  have hm : max (2 : ℚ) 0.001 = 2 := max_eq_left (by norm_num)
  simp only [getBestMatch, hs, List.drop_succ_cons, List.drop_zero, List.take, List.map,
    findProfile, profileA, profileB, hm]
  simp
  norm_num

/-! ## Properties of `selectNextQuestion` -/

theorem insertByOrder_perm (a : Question) (l : List Question) :
    (insertByOrder a l).Perm (a :: l) := by
  induction l with
  | nil => exact List.Perm.refl _
  | cons b rest ih =>
    by_cases h : a.order - b.order ≤ 0
    · simp [insertByOrder, h]
    · simp only [insertByOrder, h, if_false]
      exact (List.Perm.cons _ ih).trans (List.Perm.swap _ _ _)

theorem sortByOrder_perm (l : List Question) : (sortByOrder l).Perm l := by
  induction l with
  | nil => exact List.Perm.refl _
  | cons a rest ih => exact (insertByOrder_perm a _).trans (List.Perm.cons _ ih)

theorem sortByOrder_ne_nil (l : List Question) (h : l ≠ []) : sortByOrder l ≠ [] := by
  intro hs
  have := (sortByOrder_perm l).length_eq
  rw [hs] at this
  exact h (List.length_eq_zero.1 this.symm)

theorem insertByOrder_sorted (a : Question) (l : List Question)
    (h : l.Pairwise (fun x y => x.order ≤ y.order)) :
    (insertByOrder a l).Pairwise (fun x y => x.order ≤ y.order) := by
  induction l with
  | nil => simp [insertByOrder]
  | cons b rest ih =>
    rw [List.pairwise_cons] at h
    by_cases hc : a.order - b.order ≤ 0
    · simp only [insertByOrder, hc, if_true]
      have hab : a.order ≤ b.order := by omega
      rw [List.pairwise_cons]
      refine ⟨?_, List.pairwise_cons.2 h⟩
      intro y hy
      rcases List.mem_cons.1 hy with hy | hy
      · rw [hy]; exact hab
      · exact le_trans hab (h.1 y hy)
    · simp only [insertByOrder, hc, if_false]
      have hba : b.order ≤ a.order := by omega
      rw [List.pairwise_cons]
      refine ⟨?_, ih h.2⟩
      intro y hy
      rcases List.mem_cons.1 ((insertByOrder_perm a rest).subset hy) with hy | hy
      · rw [hy]; exact hba
      · exact h.1 y hy

theorem sortByOrder_sorted (l : List Question) :
    (sortByOrder l).Pairwise (fun x y => x.order ≤ y.order) := by
  induction l with
  | nil => exact List.Pairwise.nil
  | cons a rest ih => exact insertByOrder_sorted a _ ih

theorem sortByOrder_of_sorted (l : List Question)
    (h : l.Pairwise (fun x y => x.order ≤ y.order)) : sortByOrder l = l := by
  induction l with
  | nil => rfl
  | cons a rest ih =>
    rw [List.pairwise_cons] at h
    simp only [sortByOrder, ih h.2]
    cases rest with
    | nil => rfl
    | cons b rest' =>
      have hab : a.order - b.order ≤ 0 := by
        have := h.1 b (List.mem_cons_self _ _)
        omega
      simp [insertByOrder, hab]

/-- Stability at the head: the first question of the sorted array is the first
question of the input that has the lowest order. -/
theorem sortByOrder_head (l : List Question) (t : Question) (r : List Question)
    (h : sortByOrder l = t :: r) :
    ∃ pre post, l = pre ++ t :: post ∧ (∀ x ∈ pre, t.order < x.order) ∧
      (∀ x ∈ post, t.order ≤ x.order) := by
  induction l generalizing t r with
  | nil => simp [sortByOrder] at h
  | cons a rest ih =>
    simp only [sortByOrder] at h
    cases hs : sortByOrder rest with
    | nil =>
      have hrest : rest = [] := by
        by_contra hne
        exact sortByOrder_ne_nil rest hne hs
      rw [hs] at h
      simp only [insertByOrder, List.cons.injEq] at h
      refine ⟨[], [], ?_, by simp, by simp⟩
      rw [hrest, h.1]
      rfl
    | cons t' r' =>
      obtain ⟨pre', post', hl, hpre, hpost⟩ := ih t' r' hs
      rw [hs] at h
      by_cases hc : a.order - t'.order ≤ 0
      · simp only [insertByOrder, hc, if_true, List.cons.injEq] at h
        have hat : a.order ≤ t'.order := by omega
        refine ⟨[], rest, by rw [h.1]; rfl, by simp, ?_⟩
        intro x hx
        rw [← h.1]
        rw [hl] at hx
        rcases List.mem_append.1 hx with hx | hx
        · exact le_trans hat (le_of_lt (hpre x hx))
        · rcases List.mem_cons.1 hx with hx | hx
          · rw [hx]; exact hat
          · exact le_trans hat (hpost x hx)
      · simp only [insertByOrder, hc, if_false, List.cons.injEq] at h
        have hta : t'.order < a.order := by omega
        refine ⟨a :: pre', post', by rw [hl, h.1]; rfl, ?_, ?_⟩
        · intro x hx
          rw [← h.1]
          rcases List.mem_cons.1 hx with hx | hx
          · rw [hx]; exact hta
          · exact hpre x hx
        · intro x hx
          rw [← h.1]
          exact hpost x hx

theorem bestStep_some (pm : List Profile) (best : Option Question × Option ℚ)
    (question : Question) (q₀ : Question) (h : best.1 = some q₀) :
    (bestStep pm best question).1 = some q₀ ∨ (bestStep pm best question).1 = some question := by
  unfold bestStep
  cases hb : best.2 with
  | none => exact Or.inr rfl
  | some b =>
    simp only
    split_ifs
    · exact Or.inr rfl
    · exact Or.inl h

theorem bestLoop_some (pm : List Profile) (l : List Question)
    (best : Option Question × Option ℚ) (q₀ : Question) (h : best.1 = some q₀) :
    ∃ q, (l.foldl (bestStep pm) best).1 = some q ∧ (q = q₀ ∨ q ∈ l) := by
  induction l generalizing best q₀ with
  | nil => exact ⟨q₀, h, Or.inl rfl⟩
  | cons a rest ih =>
    rw [List.foldl_cons]
    rcases bestStep_some pm best a q₀ h with h' | h'
    · obtain ⟨q, hq, hmem⟩ := ih _ q₀ h'
      refine ⟨q, hq, ?_⟩
      rcases hmem with hmem | hmem
      · exact Or.inl hmem
      · exact Or.inr (List.mem_cons_of_mem _ hmem)
    · obtain ⟨q, hq, hmem⟩ := ih _ a h'
      refine ⟨q, hq, Or.inr ?_⟩
      rcases hmem with hmem | hmem
      · rw [hmem]; exact List.mem_cons_self _ _
      · exact List.mem_cons_of_mem _ hmem

theorem bestLoop_mem (pm : List Profile) (l : List Question) (hne : l ≠ []) :
    ∃ q, (l.foldl (bestStep pm) (none, none)).1 = some q ∧ q ∈ l := by
  cases l with
  | nil => exact absurd rfl hne
  | cons a rest =>
    rw [List.foldl_cons]
    have hfirst : (bestStep pm (none, none) a).1 = some a := rfl
    obtain ⟨q, hq, hmem⟩ := bestLoop_some pm rest _ a hfirst
    refine ⟨q, hq, ?_⟩
    rcases hmem with hmem | hmem
    · rw [hmem]; exact List.mem_cons_self _ _
    · exact List.mem_cons_of_mem _ hmem

theorem selectNextQuestion_of_no_answers (availableQuestions : List Question)
    (profiles : List Profile) :
    selectNextQuestion availableQuestions [] profiles
      = { question := (sortByOrder availableQuestions).head?
          availableQuestions := sortByOrder availableQuestions } := by
  simp [selectNextQuestion, JsObj.keys]

theorem selectNextQuestion_list_of_answers (availableQuestions : List Question)
    (currentAnswers : JsObj String) (profiles : List Profile) (h : currentAnswers ≠ []) :
    (selectNextQuestion availableQuestions currentAnswers profiles).availableQuestions
      = availableQuestions := by
  have hk : ¬ (JsObj.keys currentAnswers).length = 0 := by
    simpa [JsObj.keys] using h
  unfold selectNextQuestion
  simp only [hk, if_false]
  split_ifs
  · rfl
  · split <;> rfl

/-! ## Question selection: the claims -/

/-- C13: for a non-empty list of available questions, `selectNextQuestion` returns a
question, and that question is an element of the list. -/
theorem selectNextQuestion_returns_available (availableQuestions : List Question)
    (currentAnswers : JsObj String) (profiles : List Profile)
    (hne : availableQuestions ≠ []) :
    ∃ q, (selectNextQuestion availableQuestions currentAnswers profiles).question = some q ∧
      q ∈ availableQuestions := by
  obtain ⟨a, rest, hl⟩ : ∃ a rest, availableQuestions = a :: rest := by
    cases availableQuestions with
    | nil => exact absurd rfl hne
    | cons a rest => exact ⟨a, rest, rfl⟩
  by_cases h1 : (JsObj.keys currentAnswers).length = 0
  · cases hs : sortByOrder availableQuestions with
    | nil => exact absurd hs (sortByOrder_ne_nil _ hne)
    | cons t r =>
      refine ⟨t, by simp [selectNextQuestion, h1, hs], ?_⟩
      apply (sortByOrder_perm availableQuestions).subset
      rw [hs]
      exact List.mem_cons_self _ _
  · by_cases h2 : (profiles.filter (isPotentialMatch currentAnswers)).length ≤ 1
    · exact ⟨a, by simp [selectNextQuestion, h1, h2, hl], by simp [hl]⟩
    · obtain ⟨q, hq, hmem⟩ := bestLoop_mem
        (profiles.filter (isPotentialMatch currentAnswers)) availableQuestions hne
      refine ⟨q, ?_, hmem⟩
      simp only [selectNextQuestion, h1, h2, if_false, hq]

/-- C14: with an empty answer set and a non-empty list, `selectNextQuestion` returns the
question with the smallest ordering hint, the first such in the list: every question
before it has a strictly larger hint, every question after it a hint at least as
large; the result is the same for every profile list. -/
theorem selectNextQuestion_empty_answers_smallest_order (availableQuestions : List Question)
    (profiles : List Profile) (hne : availableQuestions ≠ []) :
    ∃ q pre post,
      (selectNextQuestion availableQuestions [] profiles).question = some q ∧
      availableQuestions = pre ++ q :: post ∧
      (∀ x ∈ pre, q.order < x.order) ∧
      (∀ x ∈ post, q.order ≤ x.order) ∧
      (∀ x ∈ availableQuestions, q.order ≤ x.order) ∧
      ∀ otherProfiles : List Profile,
        (selectNextQuestion availableQuestions [] otherProfiles).question = some q := by
  cases hs : sortByOrder availableQuestions with
  | nil => exact absurd hs (sortByOrder_ne_nil _ hne)
  | cons t r =>
    obtain ⟨pre, post, hl, hpre, hpost⟩ := sortByOrder_head _ t r hs
    refine ⟨t, pre, post, ?_, hl, hpre, hpost, ?_, ?_⟩
    · rw [selectNextQuestion_of_no_answers, hs]; rfl
    · intro x hx
      rw [hl] at hx
      rcases List.mem_append.1 hx with hx | hx
      · exact le_of_lt (hpre x hx)
      · rcases List.mem_cons.1 hx with hx | hx
        · rw [hx]
        · exact hpost x hx
    · intro otherProfiles
      rw [selectNextQuestion_of_no_answers, hs]; rfl

/-- C15 as stated fails: called with an empty answer set on the list `[late, early]`,
`selectNextQuestion` leaves the list as `[early, late]`. -/
theorem selectNextQuestion_reorders_counterexample :
    (selectNextQuestion [questionLate, questionEarly] [] []).availableQuestions
      = [questionEarly, questionLate] ∧
    (selectNextQuestion [questionLate, questionEarly] [] []).availableQuestions
      ≠ [questionLate, questionEarly] := by
  have h : (selectNextQuestion [questionLate, questionEarly] [] []).availableQuestions
      = [questionEarly, questionLate] := by
    rw [selectNextQuestion_of_no_answers]
    decide
  rw [h]
  exact ⟨rfl, by decide⟩

/-- C15 (amended): after a call the list of available questions holds the same
questions; it is exactly as before when the answer set is non-empty or when the list
was already in non-decreasing order of the ordering hint, and with an empty answer set
it is the list sorted in place by ordering hint, questions of equal hint keeping their
order. -/
theorem selectNextQuestion_frame (availableQuestions : List Question)
    (currentAnswers : JsObj String) (profiles : List Profile) :
    ((selectNextQuestion availableQuestions currentAnswers profiles).availableQuestions).Perm
      availableQuestions ∧
    (currentAnswers ≠ [] →
      (selectNextQuestion availableQuestions currentAnswers profiles).availableQuestions
        = availableQuestions) ∧
    (availableQuestions.Pairwise (fun a b => a.order ≤ b.order) →
      (selectNextQuestion availableQuestions currentAnswers profiles).availableQuestions
        = availableQuestions) ∧
    (currentAnswers = [] →
      (selectNextQuestion availableQuestions currentAnswers profiles).availableQuestions
        = sortByOrder availableQuestions ∧
      ((selectNextQuestion availableQuestions currentAnswers profiles).availableQuestions).Pairwise
        (fun a b => a.order ≤ b.order)) := by
  by_cases h : currentAnswers = []
  · subst h
    rw [selectNextQuestion_of_no_answers]
    refine ⟨sortByOrder_perm _, fun hc => absurd rfl hc, sortByOrder_of_sorted _, ?_⟩
    intro _
    exact ⟨rfl, sortByOrder_sorted _⟩
  · have hl := selectNextQuestion_list_of_answers availableQuestions currentAnswers profiles h
    rw [hl]
    exact ⟨List.Perm.refl _, fun _ => rfl, fun _ => rfl, fun hc => absurd hc h⟩

/-- C15 (amended) at a concrete input: one answer given, the list is left as it was. -/
theorem selectNextQuestion_frame_witness :
    (selectNextQuestion [questionLate, questionEarly] [("q1", "yes")]
        [profileA, profileB]).availableQuestions = [questionLate, questionEarly] :=
  (selectNextQuestion_frame [questionLate, questionEarly] [("q1", "yes")]
    [profileA, profileB]).2.1 (by simp)

/-- C13 at a concrete input. -/
theorem selectNextQuestion_returns_available_witness :
    ∃ q, (selectNextQuestion [questionLate, questionEarly] [("q1", "yes")]
        [profileA, profileB]).question = some q ∧ q ∈ [questionLate, questionEarly] :=
  selectNextQuestion_returns_available [questionLate, questionEarly] [("q1", "yes")]
    [profileA, profileB] (by simp)

/-- C14 at a concrete input. -/
theorem selectNextQuestion_empty_answers_smallest_order_witness :
    ∃ q pre post,
      (selectNextQuestion [questionLate, questionEarly] [] [profileA]).question = some q ∧
      [questionLate, questionEarly] = pre ++ q :: post ∧
      (∀ x ∈ pre, q.order < x.order) ∧
      (∀ x ∈ post, q.order ≤ x.order) ∧
      (∀ x ∈ [questionLate, questionEarly], q.order ≤ x.order) ∧
      ∀ otherProfiles : List Profile,
        (selectNextQuestion [questionLate, questionEarly] [] otherProfiles).question = some q :=
  selectNextQuestion_empty_answers_smallest_order [questionLate, questionEarly] [profileA]
    (by simp)

/-! ## Properties of `updateProfileLearning` -/

theorem JsObj.set_set {α : Type} (o : JsObj α) (k : String) (v w : α) :
    (o.set k v).set k w = o.set k w := by
  induction o with
  | nil => simp [JsObj.set]
  | cons e rest ih =>
    obtain ⟨k0, v0⟩ := e
    by_cases h : k0 = k
    · simp [JsObj.set, h]
    · simp [JsObj.set, h, ih]

theorem learnStep_eq (profileId : String) (state : JsObj LearningRecord × Store)
    (qa : String × String) :
    learnStep profileId state qa
      = if readsInherited state.1 qa.1 then state
        else
          (state.1.set qa.1 (learnedRecord state.1 qa),
            if overwrites (learnedRecord state.1 qa) then
              state.2.updateOne profileId
                (setAnswer qa.1 (mostCommon (learnedRecord state.1 qa)).1)
            else state.2) := by
  by_cases hin : readsInherited state.1 qa.1
  · have hr : JsObj.read state.1 qa.1 = Read.inherited :=
      (JsObj.read_eq_inherited_iff _ _).2 hin
    simp only [hin, if_true]
    unfold learnStep
    simp only [hr]
  · simp only [hin, if_false]
    unfold learnStep learnedRecord overwrites
    cases hg : JsObj.get state.1 qa.1 with
    | none =>
      have hk : qa.1 ∉ inheritedNames := fun hk => hin ⟨hg, hk⟩
      have hr := JsObj.read_of_get_none _ _ hg hk
      simp only [hr, JsObj.read_set_self, JsObj.set_set, Option.getD_none, zeroRecord]
      split_ifs with h1 h2 h3 h4 h5
      · rfl
      · exact absurd ⟨h1, h2⟩ h3
      · exact absurd h4.2 h2
      · rfl
      · exact absurd h5.1 h1
      · rfl
    | some r =>
      have hr := JsObj.read_of_get _ _ _ hg
      simp only [hr, JsObj.read_set_self, Option.getD_some]
      split_ifs with h1 h2 h3 h4 h5
      · rfl
      · exact absurd ⟨h1, h2⟩ h3
      · exact absurd h4.2 h2
      · rfl
      · exact absurd h5.1 h1
      · rfl

theorem updateDocument_self (id : String) (db : List Profile) :
    updateDocument (fun p => p) id db = db := by
  induction db with
  | nil => rfl
  | cons x rest ih =>
    by_cases h : x._id = id
    · simp [updateDocument, h]
    · simp [updateDocument, h, ih]

theorem updateDocument_comp (f g : Profile → Profile) (hf : ∀ p, (f p)._id = p._id)
    (id : String) (db : List Profile) :
    updateDocument g id (updateDocument f id db) = updateDocument (fun p => g (f p)) id db := by
  induction db with
  | nil => rfl
  | cons x rest ih =>
    by_cases h : x._id = id
    · have h' : (f x)._id = id := by rw [hf x]; exact h
      simp [updateDocument, h, h']
    · simp [updateDocument, h, ih]

theorem findDocument_updateDocument (f : Profile → Profile) (hf : ∀ p, (f p)._id = p._id)
    (id : String) (db : List Profile) :
    findDocument (updateDocument f id db) id = (findDocument db id).map f := by
  induction db with
  | nil => rfl
  | cons x rest ih =>
    by_cases h : x._id = id
    · have h' : (f x)._id = id := by rw [hf x]; exact h
      simp [updateDocument, findDocument, List.find?_cons, h, h']
    · unfold findDocument at ih
      simp [updateDocument, findDocument, List.find?_cons, h, ih]

theorem mem_updateDocument (f : Profile → Profile) (id : String) (db : List Profile)
    (x : Profile) (h : x ∈ updateDocument f id db) : x ∈ db ∨ ∃ p ∈ db, x = f p := by
  induction db with
  | nil => simp [updateDocument] at h
  | cons y rest ih =>
    by_cases hy : y._id = id
    · simp only [updateDocument, hy, if_true, List.mem_cons] at h
      rcases h with h | h
      · exact Or.inr ⟨y, List.mem_cons_self _ _, h⟩
      · exact Or.inl (List.mem_cons_of_mem _ h)
    · simp only [updateDocument, hy, if_false, List.mem_cons] at h
      rcases h with h | h
      · exact Or.inl (h ▸ List.mem_cons_self _ _)
      · rcases ih h with h | ⟨p, hp, hx⟩
        · exact Or.inl (List.mem_cons_of_mem _ h)
        · exact Or.inr ⟨p, List.mem_cons_of_mem _ hp, hx⟩

theorem learnProfileStep_of_inherited (l : JsObj LearningRecord) (p : Profile)
    (qa : String × String) (h : readsInherited l qa.1) :
    learnProfileStep (l, p) qa = (l, p) := by
  simp [learnProfileStep, h]

theorem learnProfileStep_of_not_inherited (l : JsObj LearningRecord) (p : Profile)
    (qa : String × String) (h : ¬ readsInherited l qa.1) :
    learnProfileStep (l, p) qa
      = (l.set qa.1 (learnedRecord l qa),
          if overwrites (learnedRecord l qa) then
            setAnswer qa.1 (mostCommon (learnedRecord l qa)).1 p
          else p) := by
  simp [learnProfileStep, h]

theorem readsInherited_set_ne (l : JsObj LearningRecord) (k : String) (r : LearningRecord)
    (q : String) (h : k ≠ q) : readsInherited (l.set k r) q ↔ readsInherited l q := by
  unfold readsInherited
  rw [JsObj.get_set]
  simp [h]

theorem learnProfileStep_id (state : JsObj LearningRecord × Profile) (qa : String × String) :
    (learnProfileStep state qa).2._id = state.2._id := by
  unfold learnProfileStep
  simp only
  split_ifs <;> rfl

theorem learnProfileStep_learning (state : JsObj LearningRecord × Profile)
    (qa : String × String) :
    (learnProfileStep state qa).2.learning = state.2.learning := by
  unfold learnProfileStep
  simp only
  split_ifs <;> rfl

theorem learnProfileLoop_id (es : List (String × String))
    (state : JsObj LearningRecord × Profile) :
    (es.foldl learnProfileStep state).2._id = state.2._id := by
  induction es generalizing state with
  | nil => rfl
  | cons qa rest ih => rw [List.foldl_cons, ih, learnProfileStep_id]

theorem learnProfileLoop_learning (es : List (String × String))
    (state : JsObj LearningRecord × Profile) :
    (es.foldl learnProfileStep state).2.learning = state.2.learning := by
  induction es generalizing state with
  | nil => rfl
  | cons qa rest ih => rw [List.foldl_cons, ih, learnProfileStep_learning]

/-- The local `learning` object evolves independently of the matched document. -/
theorem learnProfileLoop_fst (es : List (String × String)) (l : JsObj LearningRecord)
    (p p' : Profile) :
    (es.foldl learnProfileStep (l, p)).1 = (es.foldl learnProfileStep (l, p')).1 := by
  induction es generalizing l p p' with
  | nil => rfl
  | cons qa rest ih =>
    simp only [List.foldl_cons]
    by_cases hin : readsInherited l qa.1
    · rw [learnProfileStep_of_inherited l p qa hin, learnProfileStep_of_inherited l p' qa hin]
      exact ih _ _ _
    · rw [learnProfileStep_of_not_inherited l p qa hin,
        learnProfileStep_of_not_inherited l p' qa hin]
      exact ih _ _ _

/-- The loop over the store acts on the collection as the loop over the matched
document does on that document. -/
theorem learnLoop_eq (profileId : String) (es : List (String × String))
    (l : JsObj LearningRecord) (store : Store) :
    (∀ p, (es.foldl (learnStep profileId) (l, store)).1
        = (es.foldl learnProfileStep (l, p)).1) ∧
    (es.foldl (learnStep profileId) (l, store)).2.profiles
      = updateDocument (fun p => (es.foldl learnProfileStep (l, p)).2) profileId
          store.profiles := by
  induction es generalizing l store with
  | nil => exact ⟨fun _ => rfl, (updateDocument_self _ _).symm⟩
  | cons qa rest ih =>
    simp only [List.foldl_cons]
    rw [learnStep_eq]
    by_cases hin : readsInherited l qa.1
    · simp only [hin, if_true, learnProfileStep_of_inherited l _ qa hin]
      exact ih l store
    · simp only [hin, if_false, learnProfileStep_of_not_inherited l _ qa hin]
      by_cases hov : overwrites (learnedRecord l qa)
      · simp only [hov, if_true]
        obtain ⟨h1, h2⟩ := ih (l.set qa.1 (learnedRecord l qa))
          (store.updateOne profileId (setAnswer qa.1 (mostCommon (learnedRecord l qa)).1))
        refine ⟨fun p => h1 _, ?_⟩
        rw [h2]
        simp only [Store.updateOne]
        exact updateDocument_comp (setAnswer qa.1 (mostCommon (learnedRecord l qa)).1) _
          (fun _ => rfl) _ _
      · simp only [hov, if_false]
        obtain ⟨h1, h2⟩ := ih (l.set qa.1 (learnedRecord l qa)) store
        exact ⟨fun p => h1 _, h2⟩

theorem expectedAnswer_setAnswer (q v : String) (p : Profile) (q' : String) :
    expectedAnswer (setAnswer q v p) q' = if q = q' then some v else expectedAnswer p q' := by
  unfold expectedAnswer setAnswer
  simp only [JsObj.get_set]
  cases p.answers with
  | none => simp [JsObj.get]
  | some pa => simp

theorem learnedRecord_set_ne (l : JsObj LearningRecord) (k : String) (r : LearningRecord)
    (qa : String × String) (h : k ≠ qa.1) :
    learnedRecord (l.set k r) qa = learnedRecord l qa := by
  unfold learnedRecord
  rw [JsObj.get_set]
  simp [h]

/-- One pass of the loop body leaves another question as it is. -/
theorem learnProfileStep_other (l : JsObj LearningRecord) (p : Profile)
    (e : String × String) (q : String) (hne : e.1 ≠ q) :
    (learnProfileStep (l, p) e).1.get q = l.get q ∧
    expectedAnswer (learnProfileStep (l, p) e).2 q = expectedAnswer p q := by
  by_cases hin : readsInherited l e.1
  · rw [learnProfileStep_of_inherited l p e hin]
    exact ⟨rfl, rfl⟩
  · rw [learnProfileStep_of_not_inherited l p e hin]
    refine ⟨?_, ?_⟩
    · simp [JsObj.get_set, hne]
    · simp only
      split_ifs
      · rw [expectedAnswer_setAnswer]
        simp [hne]
      · rfl

/-- A question outside the session keeps its learning record and expected answer. -/
theorem learnProfileLoop_other (es : List (String × String)) (l : JsObj LearningRecord)
    (p : Profile) (q : String) (hq : q ∉ es.map Prod.fst) :
    (es.foldl learnProfileStep (l, p)).1.get q = l.get q ∧
    expectedAnswer (es.foldl learnProfileStep (l, p)).2 q = expectedAnswer p q := by
  induction es generalizing l p with
  | nil => exact ⟨rfl, rfl⟩
  | cons qa rest ih =>
    simp only [List.map_cons, List.mem_cons, not_or] at hq
    have hne : qa.1 ≠ q := fun h => hq.1 h.symm
    rw [List.foldl_cons]
    obtain ⟨h1, h2⟩ := ih (learnProfileStep (l, p) qa).1 (learnProfileStep (l, p) qa).2 hq.2
    obtain ⟨h3, h4⟩ := learnProfileStep_other l p qa q hne
    exact ⟨h1.trans h3, h2.trans h4⟩

/-- A question of the session whose name reads as an inherited function gets no record
and keeps its expected answer; every other question of the session gets its counted
record, and its expected answer is overwritten exactly when the condition on the
counted record holds. -/
theorem learnProfileLoop_mem (es : List (String × String)) (l : JsObj LearningRecord)
    (p : Profile) (hnd : (es.map Prod.fst).Nodup) (qa : String × String) (hqa : qa ∈ es) :
    (readsInherited l qa.1 →
      (es.foldl learnProfileStep (l, p)).1.get qa.1 = none ∧
      expectedAnswer (es.foldl learnProfileStep (l, p)).2 qa.1 = expectedAnswer p qa.1) ∧
    (¬ readsInherited l qa.1 →
      (es.foldl learnProfileStep (l, p)).1.get qa.1 = some (learnedRecord l qa) ∧
      expectedAnswer (es.foldl learnProfileStep (l, p)).2 qa.1
        = if overwrites (learnedRecord l qa) then some (mostCommon (learnedRecord l qa)).1
          else expectedAnswer p qa.1) := by
  induction es generalizing l p with
  | nil => simp at hqa
  | cons e rest ih =>
    simp only [List.map_cons, List.nodup_cons] at hnd
    rw [List.foldl_cons]
    rcases List.mem_cons.1 hqa with h | h
    · subst h
      obtain ⟨h1, h2⟩ := learnProfileLoop_other rest (learnProfileStep (l, p) qa).1
        (learnProfileStep (l, p) qa).2 qa.1 hnd.1
      refine ⟨?_, ?_⟩
      · intro hin
        rw [h1, h2, learnProfileStep_of_inherited l p qa hin]
        exact ⟨hin.1, rfl⟩
      · intro hin
        rw [h1, h2, learnProfileStep_of_not_inherited l p qa hin]
        refine ⟨?_, ?_⟩
        · simp [JsObj.get_set]
        · simp only
          split_ifs
          · rw [expectedAnswer_setAnswer]
            simp
          · rfl
    · have hne : e.1 ≠ qa.1 := by
        intro heq
        exact hnd.1 (heq ▸ List.mem_map.2 ⟨qa, h, rfl⟩)
      obtain ⟨h1, h2⟩ := ih (learnProfileStep (l, p) e).1 (learnProfileStep (l, p) e).2 hnd.2 h
      obtain ⟨h3, h4⟩ := learnProfileStep_other l p e qa.1 hne
      have hiff : readsInherited (learnProfileStep (l, p) e).1 qa.1 ↔ readsInherited l qa.1 := by
        unfold readsInherited
        rw [h3]
      have hrec : learnedRecord (learnProfileStep (l, p) e).1 qa = learnedRecord l qa := by
        unfold learnedRecord
        rw [h3]
      refine ⟨?_, ?_⟩
      · intro hin
        obtain ⟨h5, h6⟩ := h1 (hiff.2 hin)
        exact ⟨h5, h6.trans h4⟩
      · intro hin
        obtain ⟨h5, h6⟩ := h2 (fun hc => hin (hiff.1 hc))
        rw [hrec] at h5 h6
        rw [h4] at h6
        exact ⟨h5, h6⟩

theorem entries_keys_nodup {α : Type} (o : JsObj α) (h : o.keys.Nodup) :
    ((JsObj.entries o).map Prod.fst).Nodup :=
  (((entries_perm o).map Prod.fst).nodup_iff).2 h

theorem mem_entries_iff {α : Type} (o : JsObj α) (e : String × α) :
    e ∈ JsObj.entries o ↔ e ∈ o :=
  (entries_perm o).mem_iff

theorem mem_entries_keys_iff {α : Type} (o : JsObj α) (k : String) :
    k ∈ (JsObj.entries o).map Prod.fst ↔ k ∈ o.keys :=
  ((entries_perm o).map Prod.fst).mem_iff

theorem updateProfileLearning_of_incorrect (store : Store) (profileId : String)
    (sessionAnswers : JsObj String) :
    updateProfileLearning store profileId sessionAnswers false = store := rfl

theorem updateProfileLearning_of_missing (store : Store) (profileId : String)
    (sessionAnswers : JsObj String) (h : findDocument store.profiles profileId = none) :
    (updateProfileLearning store profileId sessionAnswers true).profiles = store.profiles := by
  simp [updateProfileLearning, Store.findOne, h]

/-- A correct-flagged call on a stored profile `p` replaces `p` by the document the loop
produces from it, with the counted `learning` object set. -/
theorem updateProfileLearning_of_found (store : Store) (profileId : String)
    (sessionAnswers : JsObj String) (p : Profile)
    (h : findDocument store.profiles profileId = some p) :
    (updateProfileLearning store profileId sessionAnswers true).profiles
      = updateDocument
          (fun d => setLearning
            ((JsObj.entries sessionAnswers).foldl learnProfileStep (p.learning.getD [], p)).1
            ((JsObj.entries sessionAnswers).foldl learnProfileStep (p.learning.getD [], d)).2)
          profileId store.profiles := by
  obtain ⟨h1, h2⟩ := learnLoop_eq profileId (JsObj.entries sessionAnswers)
    (p.learning.getD []) { store with ops := store.ops ++ [StorageOp.findOne profileId] }
  simp only [updateProfileLearning, Store.findOne, h, Store.updateOne, Bool.not_true,
    Bool.false_eq_true, if_false]
  rw [h2, h1 p]
  exact updateDocument_comp _ _ (fun d => learnProfileLoop_id _ _) _ _

theorem updateProfileLearning_find (store : Store) (profileId : String)
    (sessionAnswers : JsObj String) (p : Profile)
    (h : findDocument store.profiles profileId = some p) :
    findDocument (updateProfileLearning store profileId sessionAnswers true).profiles profileId
      = some (setLearning
          ((JsObj.entries sessionAnswers).foldl learnProfileStep (p.learning.getD [], p)).1
          ((JsObj.entries sessionAnswers).foldl learnProfileStep (p.learning.getD [], p)).2) := by
  rw [updateProfileLearning_of_found store profileId sessionAnswers p h,
    findDocument_updateDocument _ _ _ _, h]
  · rfl
  · intro d
    exact learnProfileLoop_id _ _

/-- One correct-flagged round on a stored profile `p`: every answered question whose
name does not read as an inherited function gets its counted record and its expected
answer is overwritten exactly under the condition; every other question keeps both,
and an answered question whose name reads as an inherited function gets no record
and keeps its expected answer. -/
theorem updateProfileLearning_round (store : Store) (profileId : String)
    (sessionAnswers : JsObj String) (p : Profile)
    (h : findDocument store.profiles profileId = some p)
    (hnd : sessionAnswers.keys.Nodup) :
    ∃ p', findDocument (updateProfileLearning store profileId sessionAnswers true).profiles
        profileId = some p' ∧
      (∀ qa ∈ sessionAnswers, ¬ readsInherited (p.learning.getD []) qa.1 →
        learningRecord? p' qa.1 = some (learnedRecord (p.learning.getD []) qa) ∧
        expectedAnswer p' qa.1
          = if overwrites (learnedRecord (p.learning.getD []) qa) then
              some (mostCommon (learnedRecord (p.learning.getD []) qa)).1
            else expectedAnswer p qa.1) ∧
      (∀ q, q ∉ sessionAnswers.keys →
        learningRecord? p' q = learningRecord? p q ∧
        expectedAnswer p' q = expectedAnswer p q) ∧
      (∀ qa ∈ sessionAnswers, readsInherited (p.learning.getD []) qa.1 →
        learningRecord? p' qa.1 = none ∧ expectedAnswer p' qa.1 = expectedAnswer p qa.1) := by
  refine ⟨_, updateProfileLearning_find store profileId sessionAnswers p h, ?_, ?_, ?_⟩
  · intro qa hqa hin
    exact (learnProfileLoop_mem (JsObj.entries sessionAnswers) (p.learning.getD []) p
      (entries_keys_nodup _ hnd) qa ((mem_entries_iff _ _).2 hqa)).2 hin
  · intro q hq
    obtain ⟨h1, h2⟩ := learnProfileLoop_other (JsObj.entries sessionAnswers)
      (p.learning.getD []) p q (fun hc => hq ((mem_entries_keys_iff _ _).1 hc))
    exact ⟨h1, h2⟩
  · intro qa hqa hin
    exact (learnProfileLoop_mem (JsObj.entries sessionAnswers) (p.learning.getD []) p
      (entries_keys_nodup _ hnd) qa ((mem_entries_iff _ _).2 hqa)).1 hin

theorem validRecord_zero : validRecord zeroRecord := by
  simp [validRecord, zeroRecord]

theorem countAnswer_valid (r : LearningRecord) (a : String) (hr : validRecord r)
    (ha : inDomain a) : validRecord (countAnswer r a) := by
  obtain ⟨h1, h2, h3, h4⟩ := hr
  rcases ha with rfl | rfl | rfl <;>
    simp [validRecord, countAnswer] <;> omega

theorem learnedRecord_valid (l : JsObj LearningRecord) (qa : String × String)
    (hl : ∀ e ∈ l, validRecord e.2) (ha : inDomain qa.2) :
    validRecord (learnedRecord l qa) := by
  unfold learnedRecord
  apply countAnswer_valid _ _ _ ha
  cases hg : JsObj.get l qa.1 with
  | none => exact validRecord_zero
  | some r => exact hl _ (JsObj.get_mem l _ _ hg)

theorem learnProfileLoop_valid (es : List (String × String)) (l : JsObj LearningRecord)
    (p : Profile) (hl : ∀ e ∈ l, validRecord e.2) (hdom : ∀ qa ∈ es, inDomain qa.2) :
    ∀ e ∈ (es.foldl learnProfileStep (l, p)).1, validRecord e.2 := by
  induction es generalizing l p with
  | nil => exact hl
  | cons qa rest ih =>
    rw [List.foldl_cons]
    apply ih _ _ _ (fun x hx => hdom x (List.mem_cons_of_mem _ hx))
    intro e he
    change e ∈ (learnProfileStep (l, p) qa).1 at he
    by_cases hin : readsInherited l qa.1
    · rw [learnProfileStep_of_inherited l p qa hin] at he
      exact hl e he
    · rw [learnProfileStep_of_not_inherited l p qa hin] at he
      rcases JsObj.mem_set l _ _ e he with he | he
      · rw [he]
        exact learnedRecord_valid l qa hl (hdom qa (List.mem_cons_self _ _))
      · exact hl e he

theorem findDocument_mem (db : List Profile) (id : String) (p : Profile)
    (h : findDocument db id = some p) : p ∈ db :=
  List.mem_of_find?_eq_some h

theorem updateProfileLearning_valid (store : Store) (profileId : String)
    (sessionAnswers : JsObj String) (isCorrect : Bool)
    (hvalid : validLearning store.profiles)
    (hdom : ∀ qa ∈ sessionAnswers, inDomain qa.2) :
    validLearning (updateProfileLearning store profileId sessionAnswers isCorrect).profiles := by
  cases isCorrect with
  | false => exact hvalid
  | true =>
    cases hf : findDocument store.profiles profileId with
    | none => rw [updateProfileLearning_of_missing store profileId sessionAnswers hf]; exact hvalid
    | some p =>
      rw [updateProfileLearning_of_found store profileId sessionAnswers p hf]
      intro x hx learning hlearning e he
      rcases mem_updateDocument _ _ _ x hx with hx | ⟨d, _, hxd⟩
      · exact hvalid x hx learning hlearning e he
      · rw [hxd] at hlearning
        simp only [setLearning, Option.some.injEq] at hlearning
        rw [← hlearning] at he
        refine learnProfileLoop_valid _ _ p ?_ ?_ e he
        · intro e' he'
          cases hpl : p.learning with
          | none => rw [hpl] at he'; simp at he'
          | some l0 =>
            rw [hpl] at he'
            exact hvalid p (findDocument_mem _ _ _ hf) l0 hpl e' he'
        · intro qa hqa
          exact hdom qa ((mem_entries_iff _ _).1 hqa)

theorem foldl_countAnswer_counts (answers : List String) (hdom : ∀ a ∈ answers, inDomain a)
    (r : LearningRecord) :
    (answers.foldl countAnswer r).yes = r.yes + answers.count "yes" ∧
    (answers.foldl countAnswer r).no = r.no + answers.count "no" ∧
    (answers.foldl countAnswer r).unsure = r.unsure + answers.count "unsure" ∧
    (answers.foldl countAnswer r).total = r.total + answers.length := by
  induction answers generalizing r with
  | nil => simp
  | cons a rest ih =>
    rw [List.foldl_cons]
    obtain ⟨h1, h2, h3, h4⟩ := ih (fun x hx => hdom x (List.mem_cons_of_mem _ hx))
      (countAnswer r a)
    rw [h1, h2, h3, h4]
    rcases hdom a (List.mem_cons_self _ _) with rfl | rfl | rfl <;>
      simp [countAnswer, List.count_cons] <;> omega

theorem count_domain_sum (answers : List String) (hdom : ∀ a ∈ answers, inDomain a) :
    answers.count "yes" + answers.count "no" + answers.count "unsure" = answers.length := by
  induction answers with
  | nil => rfl
  | cons a rest ih =>
    have := ih (fun x hx => hdom x (List.mem_cons_of_mem _ hx))
    rcases hdom a (List.mem_cons_self _ _) with rfl | rfl | rfl <;>
      simp [List.count_cons] <;> omega

/-- Five counted answers, three of them for `v`: the condition to overwrite holds and
the most common answer is `v`. -/
theorem majority_of_five (c : LearningRecord) (v : String)
    (hy : 0 ≤ c.yes) (hn : 0 ≤ c.no) (hu : 0 ≤ c.unsure)
    (hsum : c.yes + c.no + c.unsure = 5) (ht : c.total = 5)
    (hv : (v = "yes" ∧ 3 ≤ c.yes) ∨ (v = "no" ∧ 3 ≤ c.no) ∨ (v = "unsure" ∧ 3 ≤ c.unsure)) :
    overwrites c ∧ (mostCommon c).1 = v := by
  have hbound : ∀ x : Int, 3 ≤ x → ((x : ℚ) / ((5 : Int) : ℚ) ≥ 0.6) := by
    intro x hx
    have hx' : (3 : ℚ) ≤ (x : ℚ) := by exact_mod_cast hx
    rw [ge_iff_le, le_div_iff₀ (by norm_num)]
    norm_num
    linarith
  unfold overwrites mostCommon
  rw [ht]
  rcases hv with ⟨rfl, h3⟩ | ⟨rfl, h3⟩ | ⟨rfl, h3⟩
  · have h1 : c.yes > c.unsure := by omega
    have h2 : ¬ c.no > c.yes := by omega
    simp only [h1, h2, if_true, if_false]
    exact ⟨⟨by norm_num, hbound _ h3⟩, trivial⟩
  · by_cases h1 : c.yes > c.unsure
    · have h2 : c.no > c.yes := by omega
      simp only [h1, h2, if_true]
      exact ⟨⟨by norm_num, hbound _ h3⟩, trivial⟩
    · have h2 : c.no > c.unsure := by omega
      simp only [h1, h2, if_true, if_false]
      exact ⟨⟨by norm_num, hbound _ h3⟩, trivial⟩
  · have h1 : ¬ c.yes > c.unsure := by omega
    have h2 : ¬ c.no > c.unsure := by omega
    simp only [h1, h2, if_false]
    exact ⟨⟨by norm_num, hbound _ h3⟩, trivial⟩

theorem learnedRecord_eq (p : Profile) (q a : String) :
    learnedRecord (p.learning.getD []) (q, a)
      = countAnswer ((learningRecord? p q).getD zeroRecord) a := rfl

/-- After a sequence of correct-flagged rounds that all answer `q`, the record of `q`
counts the answers given to `q`, in order, on top of the initial record. -/
theorem learnRounds_record (profileId q : String) (sessions : List (JsObj String))
    (store : Store) (p : Profile) (hq : q ∉ inheritedNames)
    (hfound : findDocument store.profiles profileId = some p)
    (hs : ∀ s ∈ sessions, s.keys.Nodup ∧ ∃ a, s.get q = some a) :
    ∃ p', findDocument (learnRounds store profileId sessions).profiles profileId = some p' ∧
      (learningRecord? p' q).getD zeroRecord
        = (sessions.filterMap (fun s => s.get q)).foldl countAnswer
            ((learningRecord? p q).getD zeroRecord) := by
  unfold learnRounds
  induction sessions generalizing store p with
  | nil => exact ⟨p, hfound, rfl⟩
  | cons s rest ih =>
    obtain ⟨hnd, a, ha⟩ := hs s (List.mem_cons_self _ _)
    obtain ⟨p₁, hp₁, hmem, _⟩ := updateProfileLearning_round store profileId s p hfound hnd
    have hrec := (hmem (q, a) (JsObj.get_mem s q a ha) (fun hc => hq hc.2)).1
    simp only at hrec
    rw [learnedRecord_eq] at hrec
    obtain ⟨p', hp', hfinal⟩ := ih (updateProfileLearning store profileId s true) p₁ hp₁
      (fun s' hs' => hs s' (List.mem_cons_of_mem _ hs'))
    refine ⟨p', by rw [List.foldl_cons]; exact hp', ?_⟩
    rw [hfinal, hrec]
    simp [List.filterMap_cons, ha]

/-! ## Learning: the claims -/

/-- C16: with `isCorrect = false` the call returns at once: the store is left as it was,
no access to the collection is made, and every profile keeps its learning records and
expected answers. -/
theorem updateProfileLearning_incorrect_noop (store : Store) (profileId : String)
    (sessionAnswers : JsObj String) :
    updateProfileLearning store profileId sessionAnswers false = store ∧
    (updateProfileLearning store profileId sessionAnswers false).ops = store.ops ∧
    (updateProfileLearning store profileId sessionAnswers false).profiles = store.profiles :=
  ⟨rfl, rfl, rfl⟩

/-- The counting away from the inherited names: after a correct-flagged call on a
stored profile, for every pair of the session whose answer is `yes`, `no` or `unsure`
and whose question does not read as an inherited function of `learning`, the stored
record of the question is the previous one (all zero when absent) with the counter of
that answer and `total` each increased by one and the two other counters unchanged;
records of questions outside the session are unchanged, and no record is removed. -/
theorem updateProfileLearning_counts (store : Store) (profileId : String)
    (sessionAnswers : JsObj String) (p : Profile)
    (h : findDocument store.profiles profileId = some p)
    (hnd : sessionAnswers.keys.Nodup) :
    ∃ p', findDocument (updateProfileLearning store profileId sessionAnswers true).profiles
        profileId = some p' ∧
      (∀ q a r, (q, a) ∈ sessionAnswers → ¬ readsInherited (p.learning.getD []) q →
        (learningRecord? p q).getD zeroRecord = r →
        (a = "yes" → learningRecord? p' q
          = some { yes := r.yes + 1, no := r.no, unsure := r.unsure, total := r.total + 1 }) ∧
        (a = "no" → learningRecord? p' q
          = some { yes := r.yes, no := r.no + 1, unsure := r.unsure, total := r.total + 1 }) ∧
        (a = "unsure" → learningRecord? p' q
          = some { yes := r.yes, no := r.no, unsure := r.unsure + 1, total := r.total + 1 })) ∧
      (∀ q, q ∉ sessionAnswers.keys → learningRecord? p' q = learningRecord? p q) ∧
      (∀ q r, learningRecord? p q = some r → ∃ r', learningRecord? p' q = some r') := by
  obtain ⟨p', hp', hmem, hother⟩ :=
    updateProfileLearning_round store profileId sessionAnswers p h hnd
  refine ⟨p', hp', ?_, fun q hq => (hother.1 q hq).1, ?_⟩
  · intro q a r hqa hin hr
    have hrec := (hmem (q, a) hqa hin).1
    have hl : learnedRecord (p.learning.getD []) (q, a) = countAnswer r a := by
      unfold learnedRecord
      rw [← hr]
      rfl
    rw [hl] at hrec
    simp only at hrec
    refine ⟨?_, ?_, ?_⟩ <;> intro ha <;> subst ha <;> rw [hrec] <;> simp [countAnswer]
  · intro q r hr
    by_cases hq : q ∈ sessionAnswers.keys
    · obtain ⟨qa, hqa, hqk⟩ := List.mem_map.1 hq
      have hin : ¬ readsInherited (p.learning.getD []) qa.1 := by
        intro hc
        have hnone := hc.1
        rw [hqk] at hnone
        unfold learningRecord? at hr
        rw [hnone] at hr
        exact Option.noConfusion hr
      exact ⟨_, hqk ▸ (hmem qa hqa hin).1⟩
    · exact ⟨r, by rw [(hother.1 q hq).1, hr]⟩

/-- C19: after a correct-flagged call on a stored profile, for every answered question:
when the question has a stored record `counts` after the update, its expected answer is
the most common answer if `total >= 5` and `bestCount / total >= 0.6`, and otherwise
exactly what it was before the call; when it has none, which is the case exactly when
`learning[questionId]` read as an inherited function (whose `total` is no number), its
expected answer is exactly what it was before the call. -/
theorem updateProfileLearning_overwrite (store : Store) (profileId : String)
    (sessionAnswers : JsObj String) (p : Profile)
    (h : findDocument store.profiles profileId = some p)
    (hnd : sessionAnswers.keys.Nodup) :
    ∃ p', findDocument (updateProfileLearning store profileId sessionAnswers true).profiles
        profileId = some p' ∧
      ∀ qa ∈ sessionAnswers,
        (∀ counts, learningRecord? p' qa.1 = some counts →
          ((counts.total ≥ 5 ∧ ((mostCommon counts).2 : ℚ) / (counts.total : ℚ) ≥ 0.6) →
            expectedAnswer p' qa.1 = some (mostCommon counts).1) ∧
          (¬ (counts.total ≥ 5 ∧ ((mostCommon counts).2 : ℚ) / (counts.total : ℚ) ≥ 0.6) →
            expectedAnswer p' qa.1 = expectedAnswer p qa.1)) ∧
        (learningRecord? p' qa.1 = none → expectedAnswer p' qa.1 = expectedAnswer p qa.1) ∧
        (learningRecord? p' qa.1 = none ↔ readsInherited (p.learning.getD []) qa.1) := by
  obtain ⟨p', hp', hmem, _, hinh⟩ :=
    updateProfileLearning_round store profileId sessionAnswers p h hnd
  refine ⟨p', hp', ?_⟩
  intro qa hqa
  by_cases hin : readsInherited (p.learning.getD []) qa.1
  · obtain ⟨hrec, hexp⟩ := hinh qa hqa hin
    refine ⟨?_, fun _ => hexp, fun _ => hin, fun _ => hrec⟩
    intro counts hc
    rw [hrec] at hc
    exact Option.noConfusion hc
  · obtain ⟨hrec, hexp⟩ := hmem qa hqa hin
    refine ⟨?_, ?_, ?_, ?_⟩
    · intro counts hcounts
      rw [hrec] at hcounts
      have hcounts := Option.some.inj hcounts
      subst hcounts
      refine ⟨?_, ?_⟩
      · intro hc
        have hov : overwrites (learnedRecord (p.learning.getD []) qa) := hc
        rw [hexp, if_pos hov]
      · intro hc
        have hov : ¬ overwrites (learnedRecord (p.learning.getD []) qa) := hc
        rw [hexp, if_neg hov]
    · intro hc
      rw [hrec] at hc
      exact Option.noConfusion hc
    · intro hc
      rw [hrec] at hc
      exact Option.noConfusion hc
    · intro hc
      exact absurd hc hin

/-- C18: when every learning record of every stored profile has non-negative
counters with `total = yes + no + unsure`, the same holds after any sequence of calls
of `updateProfileLearning` whose answers are `yes`, `no` or `unsure`, for the records
created on the way too; a collection without learning records satisfies the
condition, so it holds in every state reached from one. -/
theorem learning_records_stay_valid (store : Store) (calls : List FeedbackCall)
    (hvalid : validLearning store.profiles)
    (hdom : ∀ call ∈ calls, ∀ qa ∈ call.sessionAnswers, inDomain qa.2) :
    validLearning (runCalls store calls).profiles := by
  unfold runCalls
  induction calls generalizing store with
  | nil => exact hvalid
  | cons call rest ih =>
    rw [List.foldl_cons]
    apply ih
    · exact updateProfileLearning_valid store _ _ _ hvalid
        (hdom call (List.mem_cons_self _ _))
    · intro c hc
      exact hdom c (List.mem_cons_of_mem _ hc)

/-- Five rounds away from the inherited names: starting from a stored profile without
learning record for a question `q` that is not named like a property of
`Object.prototype`, after five correct-flagged rounds whose sessions each answer `q`
with `yes`, `no` or `unsure`, at least three of the five answers being `v`, the
expected answer of the profile for `q` is `v`. -/
theorem learnRounds_five_majority (store : Store) (profileId q v : String) (p : Profile)
    (sessions : List (JsObj String)) (hq : q ∉ inheritedNames)
    (hfound : findDocument store.profiles profileId = some p)
    (hnone : learningRecord? p q = none)
    (hlen : sessions.length = 5)
    (hs : ∀ s ∈ sessions, s.keys.Nodup ∧ ∃ a, s.get q = some a ∧ inDomain a)
    (hv : 3 ≤ (sessions.filterMap (fun s => s.get q)).count v) :
    ∃ p', findDocument (learnRounds store profileId sessions).profiles profileId = some p' ∧
      expectedAnswer p' q = some v := by
  rcases List.eq_nil_or_concat sessions with hnil | ⟨init, last, hsplit⟩
  · rw [hnil] at hlen
    exact absurd hlen (by simp)
  · rw [List.concat_eq_append] at hsplit
    have hs' : ∀ s ∈ sessions, s.keys.Nodup ∧ ∃ a, s.get q = some a := by
      intro s hmem
      obtain ⟨h1, a, h2, _⟩ := hs s hmem
      exact ⟨h1, a, h2⟩
    have hinit : ∀ s ∈ init, s.keys.Nodup ∧ ∃ a, s.get q = some a := by
      intro s hmem
      exact hs' s (by rw [hsplit]; exact List.mem_append_left _ hmem)
    obtain ⟨hndL, a₅, ha₅, _⟩ := hs last (by rw [hsplit]; simp)
    obtain ⟨p₄, hp₄, hrec₄⟩ := learnRounds_record profileId q init store p hq hfound hinit
    obtain ⟨p₅, hp₅, hmem, _⟩ :=
      updateProfileLearning_round (learnRounds store profileId init) profileId last p₄ hp₄ hndL
    have hround : learnRounds store profileId sessions
        = updateProfileLearning (learnRounds store profileId init) profileId last true := by
      rw [hsplit]
      simp [learnRounds, List.foldl_append]
    refine ⟨p₅, by rw [hround]; exact hp₅, ?_⟩
    obtain ⟨_, hexp⟩ := hmem (q, a₅) (JsObj.get_mem last q a₅ ha₅) (fun hc => hq hc.2)
    simp only at hexp
    rw [learnedRecord_eq, hrec₄, hnone] at hexp
    simp only [Option.getD_none] at hexp
    have hanswers : sessions.filterMap (fun s => s.get q)
        = init.filterMap (fun s => s.get q) ++ [a₅] := by
      rw [hsplit, List.filterMap_append]
      simp [List.filterMap_cons, ha₅]
    have hfold : countAnswer ((init.filterMap (fun s => s.get q)).foldl countAnswer zeroRecord) a₅
        = (sessions.filterMap (fun s => s.get q)).foldl countAnswer zeroRecord := by
      rw [hanswers, List.foldl_append]
      rfl
    rw [hfold] at hexp
    have hdomAll : ∀ a ∈ sessions.filterMap (fun s => s.get q), inDomain a := by
      intro a hmemA
      obtain ⟨s, hsm, hsa⟩ := List.mem_filterMap.1 hmemA
      obtain ⟨_, a', ha', hdom'⟩ := hs s hsm
      rw [ha'] at hsa
      rw [← Option.some.inj hsa]
      exact hdom'
    have hlenA : (sessions.filterMap (fun s => s.get q)).length = 5 := by
      rw [← hlen]
      clear hanswers hfold hexp hdomAll hv hround hsplit hinit hlen
      induction sessions with
      | nil => rfl
      | cons s rest ih =>
        obtain ⟨_, a, ha⟩ := hs' s (List.mem_cons_self _ _)
        simp only [List.filterMap_cons, ha, List.length_cons]
        rw [ih (fun x hx => hs x (List.mem_cons_of_mem _ hx))
          (fun x hx => hs' x (List.mem_cons_of_mem _ hx))]
    obtain ⟨c1, c2, c3, c4⟩ := foldl_countAnswer_counts _ hdomAll zeroRecord
    have hsum := count_domain_sum _ hdomAll
    rw [hlenA] at c4 hsum
    have z1 : zeroRecord.yes = 0 := rfl
    have z2 : zeroRecord.no = 0 := rfl
    have z3 : zeroRecord.unsure = 0 := rfl
    have z4 : zeroRecord.total = 0 := rfl
    rw [z1, zero_add] at c1
    rw [z2, zero_add] at c2
    rw [z3, zero_add] at c3
    rw [z4, zero_add] at c4
    have hvdom : inDomain v := hdomAll v (List.count_pos_iff.1 (by omega))
    obtain ⟨hov, hbest⟩ := majority_of_five
      ((sessions.filterMap (fun s => s.get q)).foldl countAnswer zeroRecord) v
      (by rw [c1]; omega) (by rw [c2]; omega) (by rw [c3]; omega)
      (by rw [c1, c2, c3]; omega) (by rw [c4]; rfl)
      (by
        rcases hvdom with rfl | rfl | rfl
        · exact Or.inl ⟨rfl, by rw [c1]; omega⟩
        · exact Or.inr (Or.inl ⟨rfl, by rw [c2]; omega⟩)
        · exact Or.inr (Or.inr ⟨rfl, by rw [c3]; omega⟩))
    rw [hexp, if_pos hov, hbest]

/-! ## Evaluations at concrete inputs: learning -/

/-- The counting at a concrete input: profile `A` of the sample collection, session
`q1: yes`. -/
theorem updateProfileLearning_counts_witness :
    ∃ p', findDocument (updateProfileLearning sampleStore "A" [("q1", "yes")] true).profiles
        "A" = some p' ∧
      (∀ q a r, (q, a) ∈ [("q1", "yes")] → ¬ readsInherited (profileA.learning.getD []) q →
        (learningRecord? profileA q).getD zeroRecord = r →
        (a = "yes" → learningRecord? p' q
          = some { yes := r.yes + 1, no := r.no, unsure := r.unsure, total := r.total + 1 }) ∧
        (a = "no" → learningRecord? p' q
          = some { yes := r.yes, no := r.no + 1, unsure := r.unsure, total := r.total + 1 }) ∧
        (a = "unsure" → learningRecord? p' q
          = some { yes := r.yes, no := r.no, unsure := r.unsure + 1, total := r.total + 1 })) ∧
      (∀ q, q ∉ JsObj.keys [("q1", "yes")] →
        learningRecord? p' q = learningRecord? profileA q) ∧
      (∀ q r, learningRecord? profileA q = some r → ∃ r', learningRecord? p' q = some r') :=
  updateProfileLearning_counts sampleStore "A" [("q1", "yes")] profileA (by decide) (by decide)

/-- C18 at a concrete input: one correct-flagged call on the sample collection. -/
theorem learning_records_stay_valid_witness :
    validLearning (runCalls sampleStore
      [{ profileId := "A", sessionAnswers := [("q1", "yes")], isCorrect := true }]).profiles :=
  learning_records_stay_valid sampleStore
    [{ profileId := "A", sessionAnswers := [("q1", "yes")], isCorrect := true }]
    (by
      intro p hp learning hl
      simp only [sampleStore, List.mem_cons, List.mem_singleton, List.not_mem_nil,
        or_false] at hp
      rcases hp with rfl | rfl <;> simp [profileA, profileB] at hl)
    (by
      intro call hc qa hqa
      simp only [List.mem_singleton] at hc
      subst hc
      simp only [List.mem_singleton] at hqa
      subst hqa
      exact Or.inl rfl)

/-- C19 at a concrete input: the profile `L` of the collection `learnedStore` holds
four counted answers for `q2`, three of them `yes`, and expects `no`; the session
`q2: yes` brings the record to `total = 5` with `4 / 5 >= 0.6`, and the expected answer
becomes `yes`. -/
theorem updateProfileLearning_overwrite_witness :
    (∃ p', findDocument (updateProfileLearning learnedStore "L" [("q2", "yes")] true).profiles
        "L" = some p' ∧
      ∀ qa ∈ [("q2", "yes")],
        (∀ counts, learningRecord? p' qa.1 = some counts →
          ((counts.total ≥ 5 ∧ ((mostCommon counts).2 : ℚ) / (counts.total : ℚ) ≥ 0.6) →
            expectedAnswer p' qa.1 = some (mostCommon counts).1) ∧
          (¬ (counts.total ≥ 5 ∧ ((mostCommon counts).2 : ℚ) / (counts.total : ℚ) ≥ 0.6) →
            expectedAnswer p' qa.1 = expectedAnswer profileLearned qa.1)) ∧
        (learningRecord? p' qa.1 = none →
          expectedAnswer p' qa.1 = expectedAnswer profileLearned qa.1) ∧
        (learningRecord? p' qa.1 = none ↔
          readsInherited (profileLearned.learning.getD []) qa.1)) ∧
    (updateProfileLearning learnedStore "L" [("q2", "yes")] true).profiles
      = [{ _id := "L", answers := some [("q1", "yes"), ("q2", "yes")]
           learning := some [("q2", { yes := 4, no := 1, unsure := 0, total := 5 })] }] :=
  ⟨updateProfileLearning_overwrite learnedStore "L" [("q2", "yes")] profileLearned
    (by decide) (by decide), by decide!⟩

/-- Five rounds at a concrete input: three `yes` and two `no` for `q2`, in mixed order, turn
the expected answer of profile `A` for `q2` from `no` into `yes`. -/
theorem learnRounds_five_majority_witness :
    ∃ p', findDocument (learnRounds sampleStore "A" sampleSessions).profiles "A" = some p' ∧
      expectedAnswer p' "q2" = some "yes" :=
  learnRounds_five_majority sampleStore "A" "q2" "yes" profileA sampleSessions
    (by decide) (by decide) (by decide) (by decide)
    (by
      intro s hs
      simp only [sampleSessions, List.mem_cons, List.mem_singleton, List.not_mem_nil,
        or_false] at hs
      rcases hs with rfl | rfl | rfl | rfl | rfl
      · exact ⟨by decide, "yes", by decide, Or.inl rfl⟩
      · exact ⟨by decide, "no", by decide, Or.inr (Or.inl rfl)⟩
      · exact ⟨by decide, "yes", by decide, Or.inl rfl⟩
      · exact ⟨by decide, "no", by decide, Or.inr (Or.inl rfl)⟩
      · exact ⟨by decide, "yes", by decide, Or.inl rfl⟩)
    (by decide)

/-! ## Learning: further properties and claims -/

theorem updateDocument_getElem? (f : Profile → Profile) (id : String) (db : List Profile)
    (i : Nat) (d : Profile) (h : db[i]? = some d) (hne : d._id ≠ id) :
    (updateDocument f id db)[i]? = some d := by
  induction db generalizing i with
  | nil => simp at h
  | cons x rest ih =>
    cases i with
    | zero =>
      simp only [List.getElem?_cons_zero, Option.some.injEq] at h
      subst h
      simp [updateDocument, hne]
    | succ n =>
      simp only [List.getElem?_cons_succ] at h
      by_cases hx : x._id = id
      · simp [updateDocument, hx, h]
      · simp [updateDocument, hx, ih n h]

theorem updateDocument_length (f : Profile → Profile) (id : String) (db : List Profile) :
    (updateDocument f id db).length = db.length := by
  induction db with
  | nil => rfl
  | cons x rest ih =>
    by_cases hx : x._id = id
    · simp [updateDocument, hx]
    · simp [updateDocument, hx, ih]

theorem findDocument_updateDocument_ne (f : Profile → Profile)
    (hf : ∀ p, (f p)._id = p._id) (id id' : String) (hne : id' ≠ id) (db : List Profile) :
    findDocument (updateDocument f id db) id' = findDocument db id' := by
  induction db with
  | nil => rfl
  | cons x rest ih =>
    unfold findDocument at ih ⊢
    by_cases hx : x._id = id
    · subst hx
      have h1 : ¬ x._id = id' := fun h => hne h.symm
      have h2 : ¬ (f x)._id = id' := by rw [hf x]; exact h1
      simp [updateDocument, List.find?_cons, h1, h2]
    · by_cases h1 : x._id = id'
      · subst h1
        simp [updateDocument, hx, List.find?_cons]
      · simp [updateDocument, hx, List.find?_cons, h1, ih]

/-- What a call does to the collection: nothing, or an update of the first document
with the given identity by a function that keeps the identity. -/
theorem updateProfileLearning_profiles (store : Store) (profileId : String)
    (sessionAnswers : JsObj String) (isCorrect : Bool) :
    (updateProfileLearning store profileId sessionAnswers isCorrect).profiles = store.profiles ∨
    ∃ f : Profile → Profile, (∀ p, (f p)._id = p._id) ∧
      (updateProfileLearning store profileId sessionAnswers isCorrect).profiles
        = updateDocument f profileId store.profiles := by
  cases isCorrect with
  | false => exact Or.inl rfl
  | true =>
    cases hf : findDocument store.profiles profileId with
    | none => exact Or.inl (updateProfileLearning_of_missing store profileId sessionAnswers hf)
    | some p =>
      exact Or.inr ⟨fun d => setLearning
          ((JsObj.entries sessionAnswers).foldl learnProfileStep (p.learning.getD [], p)).1
          ((JsObj.entries sessionAnswers).foldl learnProfileStep (p.learning.getD [], d)).2,
        fun d => learnProfileLoop_id _ _,
        updateProfileLearning_of_found store profileId sessionAnswers p hf⟩

/-- C21: a call of `updateProfileLearning` for the identity `profileId` leaves every
stored profile with another identity as it was, at its place in the collection:
learning records and expected answers included. -/
theorem updateProfileLearning_other_profiles (store : Store) (profileId : String)
    (sessionAnswers : JsObj String) (isCorrect : Bool) :
    (updateProfileLearning store profileId sessionAnswers isCorrect).profiles.length
      = store.profiles.length ∧
    (∀ (i : Nat) (d : Profile), store.profiles[i]? = some d → d._id ≠ profileId →
      (updateProfileLearning store profileId sessionAnswers isCorrect).profiles[i]? = some d) ∧
    (∀ otherId, otherId ≠ profileId →
      findDocument (updateProfileLearning store profileId sessionAnswers isCorrect).profiles
        otherId = findDocument store.profiles otherId) := by
  rcases updateProfileLearning_profiles store profileId sessionAnswers isCorrect with
    h | ⟨f, hf, h⟩
  · rw [h]
    exact ⟨rfl, fun i d hd _ => hd, fun _ _ => rfl⟩
  · rw [h]
    exact ⟨updateDocument_length f profileId _,
      fun i d hd hne => updateDocument_getElem? f profileId _ i d hd hne,
      fun otherId hne => findDocument_updateDocument_ne f hf profileId otherId hne _⟩

/-- C21 at a concrete input: a correct-flagged round on `A` leaves `B` as it was. -/
theorem updateProfileLearning_other_profiles_witness :
    (updateProfileLearning sampleStore "A" [("q1", "no")] true).profiles[1]? = some profileB :=
  (updateProfileLearning_other_profiles sampleStore "A" [("q1", "no")] true).2.1 1 profileB
    (by decide) (by decide)

theorem mostCommon_inDomain (c : LearningRecord) : inDomain (mostCommon c).1 := by
  simp only [mostCommon, inDomain]
  split_ifs <;> simp

theorem setAnswer_validAnswers (q v : String) (p : Profile) (hv : inDomain v)
    (hp : validAnswers p) : validAnswers (setAnswer q v p) := by
  intro pa hpa e he
  simp only [setAnswer, Option.some.injEq] at hpa
  rw [← hpa] at he
  rcases JsObj.mem_set _ q v e he with h | h
  · rw [h]; exact hv
  · cases hans : p.answers with
    | none => rw [hans] at h; simp at h
    | some old =>
      rw [hans] at h
      exact hp old hans e h

theorem learnProfileStep_validAnswers (state : JsObj LearningRecord × Profile)
    (qa : String × String) (hp : validAnswers state.2) :
    validAnswers (learnProfileStep state qa).2 := by
  unfold learnProfileStep
  simp only
  split_ifs
  · exact hp
  · exact setAnswer_validAnswers _ _ _ (mostCommon_inDomain _) hp
  · exact hp

theorem learnProfileLoop_validAnswers (es : List (String × String))
    (state : JsObj LearningRecord × Profile) (hp : validAnswers state.2) :
    validAnswers (es.foldl learnProfileStep state).2 := by
  induction es generalizing state with
  | nil => exact hp
  | cons qa rest ih =>
    rw [List.foldl_cons]
    exact ih _ (learnProfileStep_validAnswers state qa hp)

/-- C24: when every expected answer of every stored profile is one of `yes`, `no`,
`unsure`, the same holds after a call of `updateProfileLearning`: the only values it
writes into an expected-answer mapping are `unsure`, `yes` and `no`. -/
theorem updateProfileLearning_keeps_answer_domain (store : Store) (profileId : String)
    (sessionAnswers : JsObj String) (isCorrect : Bool)
    (hvalid : ∀ p ∈ store.profiles, validAnswers p) :
    (∀ counts, inDomain (mostCommon counts).1) ∧
    ∀ p' ∈ (updateProfileLearning store profileId sessionAnswers isCorrect).profiles,
      validAnswers p' := by
  refine ⟨mostCommon_inDomain, ?_⟩
  cases isCorrect with
  | false => exact hvalid
  | true =>
    cases hf : findDocument store.profiles profileId with
    | none => rw [updateProfileLearning_of_missing store profileId sessionAnswers hf]; exact hvalid
    | some p =>
      rw [updateProfileLearning_of_found store profileId sessionAnswers p hf]
      intro x hx
      rcases mem_updateDocument _ _ _ x hx with hx | ⟨d, hd, hxd⟩
      · exact hvalid x hx
      · rw [hxd]
        exact learnProfileLoop_validAnswers _ (p.learning.getD [], d) (hvalid d hd)

/-- C24 at a concrete input: the sample collection after a correct-flagged round. -/
theorem updateProfileLearning_keeps_answer_domain_witness :
    validAnswers
      { _id := "A", answers := some [("q1", "yes"), ("q2", "no")],
        learning := some [("q1", { yes := 0, no := 1, unsure := 0, total := 1 })] } :=
  (updateProfileLearning_keeps_answer_domain sampleStore "A" [("q1", "no")] true
    (by
      intro p hp pa hpa e he
      simp only [sampleStore, List.mem_cons, List.mem_singleton, List.not_mem_nil,
        or_false] at hp
      rcases hp with rfl | rfl
      · simp only [profileA, Option.some.injEq] at hpa
        subst hpa
        simp only [List.mem_cons, List.mem_singleton, List.not_mem_nil, or_false] at he
        rcases he with rfl | rfl <;> simp [inDomain]
      · simp only [profileB, Option.some.injEq] at hpa
        subst hpa
        simp only [List.mem_cons, List.mem_singleton, List.not_mem_nil, or_false] at he
        rcases he with rfl | rfl <;> simp [inDomain])).2 _ (by decide)

/-- C27: the answer chosen by the two strict comparisons is `unsure` iff
`unsure >= yes` and `unsure >= no`, `yes` iff `yes > unsure` and `yes >= no`, `no` iff
`no > unsure` and `no > yes`, and `bestCount` is the counter of the chosen answer; so
`unsure` wins every tie it is part of and `yes` wins a tie with `no`. -/
theorem mostCommon_comparison_order (c : LearningRecord) :
    ((mostCommon c).1 = "unsure" ↔ c.unsure ≥ c.yes ∧ c.unsure ≥ c.no) ∧
    ((mostCommon c).1 = "yes" ↔ c.yes > c.unsure ∧ c.yes ≥ c.no) ∧
    ((mostCommon c).1 = "no" ↔ c.no > c.unsure ∧ c.no > c.yes) ∧
    ((mostCommon c).1 = "unsure" → (mostCommon c).2 = c.unsure) ∧
    ((mostCommon c).1 = "yes" → (mostCommon c).2 = c.yes) ∧
    ((mostCommon c).1 = "no" → (mostCommon c).2 = c.no) := by
  simp only [mostCommon]
  by_cases h1 : c.yes > c.unsure
  · by_cases h2 : c.no > c.yes
    · simp only [h1, h2, if_true]
      refine ⟨?_, ?_, ?_, ?_, ?_, ?_⟩ <;> simp <;> omega
    · simp only [h1, h2, if_true, if_false]
      refine ⟨?_, ?_, ?_, ?_, ?_, ?_⟩ <;> simp <;> omega
  · by_cases h2 : c.no > c.unsure
    · simp only [h1, h2, if_true, if_false]
      refine ⟨?_, ?_, ?_, ?_, ?_, ?_⟩ <;> simp <;> omega
    · simp only [h1, h2, if_false]
      refine ⟨?_, ?_, ?_, ?_, ?_, ?_⟩ <;> simp <;> omega

/-- From the condition to overwrite: `6 * total <= 10 * bestCount` with `total >= 5`. -/
theorem overwrites_int (c : LearningRecord) (h : overwrites c) :
    5 ≤ c.total ∧ 6 * c.total ≤ 10 * (mostCommon c).2 := by
  obtain ⟨h5, hq⟩ := h
  refine ⟨h5, ?_⟩
  have hpos : (0 : ℚ) < (c.total : ℚ) := by
    have : (5 : ℚ) ≤ (c.total : ℚ) := by exact_mod_cast h5
    linarith
  rw [ge_iff_le, le_div_iff₀ hpos] at hq
  have hq' : (6 : ℚ) * (c.total : ℚ) ≤ 10 * ((mostCommon c).2 : ℚ) := by
    have h6 : (0.6 : ℚ) = 6 / 10 := by norm_num
    rw [h6] at hq
    linarith
  exact_mod_cast hq'

/-- C29: when the condition to overwrite holds for a record with
`total = yes + no + unsure`, the counter of the written answer is strictly greater
than the sum of the two other counters; with non-negative counters every other
counter is strictly below it, so no tie is broken by the comparison order. -/
theorem overwrites_strict_majority (c : LearningRecord) (hov : overwrites c)
    (hsum : c.total = c.yes + c.no + c.unsure) :
    ((mostCommon c).1 = "yes" → c.yes > c.no + c.unsure) ∧
    ((mostCommon c).1 = "no" → c.no > c.yes + c.unsure) ∧
    ((mostCommon c).1 = "unsure" → c.unsure > c.yes + c.no) ∧
    (0 ≤ c.yes → 0 ≤ c.no → 0 ≤ c.unsure →
      ((mostCommon c).1 ≠ "yes" → c.yes < (mostCommon c).2) ∧
      ((mostCommon c).1 ≠ "no" → c.no < (mostCommon c).2) ∧
      ((mostCommon c).1 ≠ "unsure" → c.unsure < (mostCommon c).2)) := by
  obtain ⟨h5, h6⟩ := overwrites_int c hov
  revert h6
  simp only [mostCommon]
  by_cases h1 : c.yes > c.unsure
  · by_cases h2 : c.no > c.yes
    · simp only [h1, h2, if_true]
      intro h6
      refine ⟨?_, ?_, ?_, ?_⟩ <;> simp <;> omega
    · simp only [h1, h2, if_true, if_false]
      intro h6
      refine ⟨?_, ?_, ?_, ?_⟩ <;> simp <;> omega
  · by_cases h2 : c.no > c.unsure
    · simp only [h1, h2, if_true, if_false]
      intro h6
      refine ⟨?_, ?_, ?_, ?_⟩ <;> simp <;> omega
    · simp only [h1, h2, if_false]
      intro h6
      refine ⟨?_, ?_, ?_, ?_⟩ <;> simp <;> omega

/-! ## Question selection: further properties and claims -/

theorem noDefiniteMismatch_eq (p : Profile) (qa : String × String)
    (hq : qa.1 ∉ inheritedNames) :
    noDefiniteMismatch p qa
      = match expectedAnswer p qa.1 with
        | none => true
        | some e =>
          if e = "" then true
          else if qa.2 ≠ "unsure" ∧ e ≠ "unsure" ∧ qa.2 ≠ e then false
          else true := by
  unfold noDefiniteMismatch expectedAnswer
  cases p.answers with
  | none => rfl
  | some pa =>
    simp only
    cases hg : JsObj.get pa qa.1 with
    | none => rw [JsObj.read_of_get_none pa qa.1 hg hq]
    | some e => rw [JsObj.read_of_get pa qa.1 e hg]

/-- A pair the callback accepts is no definite mismatch, whatever the name of the
question. -/
theorem specDefiniteMismatch_of_noDefiniteMismatch (p : Profile) (qa : String × String)
    (hne : expectedAnswer p qa.1 ≠ some "") (h : noDefiniteMismatch p qa = true) :
    specDefiniteMismatch p qa = false := by
  unfold noDefiniteMismatch at h
  unfold specDefiniteMismatch
  unfold expectedAnswer at hne ⊢
  cases hpa : p.answers with
  | none => rfl
  | some pa =>
    rw [hpa] at h hne
    simp only at h hne ⊢
    cases hg : JsObj.get pa qa.1 with
    | none => rfl
    | some e =>
      rw [JsObj.read_of_get pa qa.1 e hg] at h
      rw [hg] at hne
      have hx : ¬ e = "" := fun hh => hne (by rw [hh])
      simp only [hx, if_false] at h
      by_cases h1 : qa.2 = "unsure"
      · simp [h1]
      · by_cases h2 : e = "unsure"
        · simp [h2]
        · by_cases h3 : qa.2 = e
          · simp [h3]
          · simp [h1, h2, h3] at h

theorem noDefiniteMismatch_eq_spec (p : Profile) (qa : String × String)
    (hq : qa.1 ∉ inheritedNames) (hne : expectedAnswer p qa.1 ≠ some "") :
    noDefiniteMismatch p qa = !specDefiniteMismatch p qa := by
  rw [noDefiniteMismatch_eq p qa hq]
  unfold specDefiniteMismatch
  cases he : expectedAnswer p qa.1 with
  | none => rfl
  | some e =>
    have hx : ¬ e = "" := fun hh => hne (by rw [he, hh])
    simp only [hx, if_false]
    by_cases h1 : qa.2 = "unsure"
    · simp [h1]
    · by_cases h2 : e = "unsure"
      · simp [h2]
      · by_cases h3 : qa.2 = e
        · simp [h3]
        · have h3' : ¬ e = qa.2 := fun hh => h3 hh.symm
          simp [h1, h2, h3, h3']

theorem isPotentialMatch_eq_spec (answers : JsObj String) (p : Profile)
    (hown : ∀ qa ∈ answers, qa.1 ∉ inheritedNames)
    (hne : ∀ q, expectedAnswer p q ≠ some "") :
    isPotentialMatch answers p = specPotentialMatch answers p := by
  rw [Bool.eq_iff_iff]
  unfold isPotentialMatch specPotentialMatch
  rw [List.all_eq_true, List.all_eq_true]
  constructor
  · intro h qa hqa
    rw [← noDefiniteMismatch_eq_spec p qa (hown qa hqa) (hne qa.1)]
    exact h qa ((mem_entries_iff answers qa).2 hqa)
  · intro h qa hqa
    have hqa' := (mem_entries_iff answers qa).1 hqa
    rw [noDefiniteMismatch_eq_spec p qa (hown qa hqa') (hne qa.1)]
    exact h qa hqa'

/-- The callback of the filter accepts potential matches only. -/
theorem specPotentialMatch_of_isPotentialMatch (answers : JsObj String) (p : Profile)
    (hne : ∀ q, expectedAnswer p q ≠ some "") (h : isPotentialMatch answers p = true) :
    specPotentialMatch answers p = true := by
  unfold isPotentialMatch at h
  unfold specPotentialMatch
  rw [List.all_eq_true] at h ⊢
  intro qa hqa
  rw [specDefiniteMismatch_of_noDefiniteMismatch p qa (hne qa.1)
    (h qa ((mem_entries_iff answers qa).2 hqa))]
  rfl

theorem filter_isPotentialMatch_length_le (answers : JsObj String) (profiles : List Profile)
    (hexp : ∀ p ∈ profiles, ∀ q, expectedAnswer p q ≠ some "") :
    (profiles.filter (isPotentialMatch answers)).length
      ≤ (profiles.filter (specPotentialMatch answers)).length := by
  rw [← List.countP_eq_length_filter, ← List.countP_eq_length_filter]
  apply List.countP_mono_left
  intro p hp h
  exact specPotentialMatch_of_isPotentialMatch answers p (hexp p hp) h

theorem selectNextQuestion_of_few_matches (availableQuestions : List Question)
    (currentAnswers : JsObj String) (profiles : List Profile) (hne : currentAnswers ≠ [])
    (hfew : (profiles.filter (isPotentialMatch currentAnswers)).length ≤ 1) :
    selectNextQuestion availableQuestions currentAnswers profiles
      = { question := availableQuestions.head?, availableQuestions := availableQuestions } := by
  have hk : ¬ (JsObj.keys currentAnswers).length = 0 := by
    simpa [JsObj.keys] using hne
  simp only [selectNextQuestion, hk, hfew, if_false, if_true]

/-- C23 as stated fails: called on the empty list, `selectNextQuestion` returns, with
no question (`undefined`). -/
theorem selectNextQuestion_empty_list_counterexample :
    selectNextQuestion [] [("q1", "yes")] [profileA, profileB]
      = { question := none, availableQuestions := [] } ∧
    selectNextQuestion [] [] [profileA, profileB]
      = { question := none, availableQuestions := [] } := by
  constructor
  · simp [selectNextQuestion, JsObj.keys, bestStep]
  · simp [selectNextQuestion, JsObj.keys, sortByOrder]

/-- C23 (amended): called on the empty list, `selectNextQuestion` signals no error; for
every answer set and profile list it returns no question (`undefined`) and leaves the
list empty. -/
theorem selectNextQuestion_empty_list (currentAnswers : JsObj String)
    (profiles : List Profile) :
    selectNextQuestion [] currentAnswers profiles
      = { question := none, availableQuestions := [] } := by
  by_cases h1 : (JsObj.keys currentAnswers).length = 0
  · simp [selectNextQuestion, h1, sortByOrder]
  · by_cases h2 : (profiles.filter (isPotentialMatch currentAnswers)).length ≤ 1
    · simp only [selectNextQuestion, h1, h2, if_false, if_true, List.head?_nil]
    · simp only [selectNextQuestion, h1, h2, if_false, List.foldl_nil, List.head?_nil]

/-- C25: for a non-empty answer set and profiles without empty-string expected answer,
when at most one profile is a potential match (no answered question is a definite
mismatch for it), `selectNextQuestion` returns the first element of the list of
available questions as given and leaves the list as it was. -/
theorem selectNextQuestion_at_most_one_match (availableQuestions : List Question)
    (currentAnswers : JsObj String) (profiles : List Profile)
    (hne : currentAnswers ≠ [])
    (hexp : ∀ p ∈ profiles, ∀ q, expectedAnswer p q ≠ some "")
    (hfew : (profiles.filter (specPotentialMatch currentAnswers)).length ≤ 1) :
    (selectNextQuestion availableQuestions currentAnswers profiles).question
      = availableQuestions.head? ∧
    (selectNextQuestion availableQuestions currentAnswers profiles).availableQuestions
      = availableQuestions := by
  rw [selectNextQuestion_of_few_matches availableQuestions currentAnswers profiles hne
    (le_trans (filter_isPotentialMatch_length_le currentAnswers profiles hexp) hfew)]
  exact ⟨rfl, rfl⟩

/-- C25 at a concrete input: after `q2: yes` only `B` is a potential match. -/
theorem selectNextQuestion_at_most_one_match_witness :
    (selectNextQuestion [questionLate, questionEarly] [("q2", "yes")]
        [profileA, profileB]).question = [questionLate, questionEarly].head? ∧
    (selectNextQuestion [questionLate, questionEarly] [("q2", "yes")]
        [profileA, profileB]).availableQuestions = [questionLate, questionEarly] :=
  selectNextQuestion_at_most_one_match [questionLate, questionEarly] [("q2", "yes")]
    [profileA, profileB] (by simp)
    (by
      intro p hp q
      simp only [List.mem_cons, List.mem_singleton, List.not_mem_nil, or_false] at hp
      rcases hp with rfl | rfl <;>
        simp [expectedAnswer, profileA, profileB, JsObj.get] <;>
        split_ifs <;> simp)
    (by decide)

/-- The loop body counts a `yes` for a profile expecting `yes` and a `no` for a profile
expecting `no`, and changes neither counter otherwise. -/
theorem tallyStep_counts (questionId : String) (t : Tally) (p : Profile) :
    (tallyStep questionId t p).yes
      = t.yes + (if expectedAnswer p questionId = some "yes" then 1 else 0) ∧
    (tallyStep questionId t p).no
      = t.no + (if expectedAnswer p questionId = some "no" then 1 else 0) := by
  cases hpa : p.answers with
  | none =>
    have he : expectedAnswer p questionId = none := by simp [expectedAnswer, hpa]
    simp [tallyStep, hpa, he]
  | some pa =>
    have he : expectedAnswer p questionId = JsObj.get pa questionId := by
      simp [expectedAnswer, hpa]
    have hcases : JsObj.get pa questionId = none ∨ ∃ e, JsObj.get pa questionId = some e := by
      cases JsObj.get pa questionId with
      | none => exact Or.inl rfl
      | some e => exact Or.inr ⟨e, rfl⟩
    rcases hcases with hg | ⟨e, hg⟩
    · rw [hg] at he
      by_cases hq : questionId ∈ inheritedNames
      · have hr := (JsObj.read_eq_inherited_iff pa questionId).2 ⟨hg, hq⟩
        simp [tallyStep, hpa, hr, he]
      · have hr := JsObj.read_of_get_none pa questionId hg hq
        simp [tallyStep, hpa, hr, he]
    · rw [hg] at he
      have hr := JsObj.read_of_get pa questionId e hg
      by_cases h0 : e = ""
      · subst h0; simp [tallyStep, hpa, hr, he]
      · by_cases hy : e = "yes"
        · subst hy; simp [tallyStep, hpa, hr, he]
        · by_cases hn : e = "no"
          · subst hn; simp [tallyStep, hpa, hr, he]
          · by_cases hu : e = "unsure"
            · subst hu; simp [tallyStep, hpa, hr, he]
            · simp [tallyStep, hpa, hr, he, h0, hy, hn, hu]

theorem tallyLoop_counts (questionId : String) (pm : List Profile) (t : Tally) :
    (pm.foldl (tallyStep questionId) t).yes
      = t.yes + pm.countP (fun p => expectedAnswer p questionId = some "yes") ∧
    (pm.foldl (tallyStep questionId) t).no
      = t.no + pm.countP (fun p => expectedAnswer p questionId = some "no") := by
  induction pm generalizing t with
  | nil => simp
  | cons p rest ih =>
    rw [List.foldl_cons]
    obtain ⟨h1, h2⟩ := ih (tallyStep questionId t p)
    obtain ⟨h3, h4⟩ := tallyStep_counts questionId t p
    rw [h1, h2, h3, h4, List.countP_cons, List.countP_cons]
    constructor
    · by_cases hy : expectedAnswer p questionId = some "yes"
      · simp [hy]; omega
      · simp [hy]
    · by_cases hn : expectedAnswer p questionId = some "no"
      · simp [hn]; omega
      · simp [hn]

/-- The score the code computes from its counters is the double-precision score of the
numbers of profiles expecting `yes` and `no`. -/
theorem splitScore_eq_spec (pm : List Profile) (question : Question) :
    splitScore pm question = specSplitScoreDouble pm question := by
  obtain ⟨h1, h2⟩ := tallyLoop_counts question._id pm { yes := 0, no := 0, unsure := 0 }
  simp only [splitScore, specSplitScoreDouble, tally, h1, h2, Nat.zero_add]

/-- The search loop started at `(q₀, score of q₀)` ends at the first question of
`q₀ :: l` that has the highest score. -/
theorem bestLoop_first_max (pm : List Profile) (l : List Question) (q₀ : Question) :
    ∃ q pre post,
      (l.foldl (bestStep pm) (some q₀, some (splitScore pm q₀))).1 = some q ∧
      q₀ :: l = pre ++ q :: post ∧
      (∀ x ∈ pre, splitScore pm x < splitScore pm q) ∧
      (∀ x ∈ post, splitScore pm x ≤ splitScore pm q) := by
  induction l generalizing q₀ with
  | nil => exact ⟨q₀, [], [], rfl, rfl, by simp, by simp⟩
  | cons a rest ih =>
    rw [List.foldl_cons]
    by_cases hgt : splitScore pm a > splitScore pm q₀
    · have hstep : bestStep pm (some q₀, some (splitScore pm q₀)) a
          = (some a, some (splitScore pm a)) := by
        simp [bestStep, hgt]
      rw [hstep]
      obtain ⟨q, pre, post, hq, hsplit, hpre, hpost⟩ := ih a
      have haq : splitScore pm a ≤ splitScore pm q := by
        have hmem : a ∈ pre ++ q :: post := by
          rw [← hsplit]; exact List.mem_cons_self _ _
        rcases List.mem_append.1 hmem with h | h
        · exact le_of_lt (hpre a h)
        · rcases List.mem_cons.1 h with h | h
          · rw [h]
          · exact hpost a h
      refine ⟨q, q₀ :: pre, post, hq, by rw [hsplit]; rfl, ?_, hpost⟩
      intro x hx
      rcases List.mem_cons.1 hx with hx | hx
      · rw [hx]; exact lt_of_lt_of_le hgt haq
      · exact hpre x hx
    · have hstep : bestStep pm (some q₀, some (splitScore pm q₀)) a
          = (some q₀, some (splitScore pm q₀)) := by
        simp [bestStep, hgt]
      rw [hstep]
      have hle : splitScore pm a ≤ splitScore pm q₀ := le_of_not_gt hgt
      obtain ⟨q, pre, post, hq, hsplit, hpre, hpost⟩ := ih q₀
      cases pre with
      | nil =>
        simp only [List.nil_append, List.cons.injEq] at hsplit
        obtain ⟨hq0, hrest⟩ := hsplit
        refine ⟨q, [], a :: post, hq, by rw [hq0, hrest]; rfl, by simp, ?_⟩
        intro x hx
        rcases List.mem_cons.1 hx with hx | hx
        · rw [hx, ← hq0]; exact hle
        · exact hpost x hx
      | cons b pre' =>
        simp only [List.cons_append, List.cons.injEq] at hsplit
        obtain ⟨hq0, hrest⟩ := hsplit
        have hq0lt : splitScore pm q₀ < splitScore pm q := by
          rw [hq0]; exact hpre b (List.mem_cons_self _ _)
        refine ⟨q, q₀ :: a :: pre', post, hq, by rw [hrest]; rfl, ?_, hpost⟩
        intro x hx
        rcases List.mem_cons.1 hx with hx | hx
        · rw [hx]; exact hq0lt
        · rcases List.mem_cons.1 hx with hx | hx
          · rw [hx]; exact lt_of_le_of_lt hle hq0lt
          · exact hpre x (List.mem_cons_of_mem _ hx)

/-- C26 as stated fails: `P1`, `P2` and `P3` are the potential matches for `q0: yes`;
the question `qx` (one of them expects `yes`, one `no`) and the question `qy` (two
expect `yes`, one `no`) have the same split score `-1/18`, `qx` comes first in the
list, and `selectNextQuestion` returns `qy`: the score the code computes for `qy` in
double precision is the greater one. -/
theorem selectNextQuestion_exact_tie_counterexample :
    [splitOne, splitTwo, splitThree].filter (specPotentialMatch [("q0", "yes")])
      = [splitOne, splitTwo, splitThree] ∧
    specSplitScore [splitOne, splitTwo, splitThree] questionX = -1 / 18 ∧
    specSplitScore [splitOne, splitTwo, splitThree] questionY = -1 / 18 ∧
    splitScore [splitOne, splitTwo, splitThree] questionX
      = -(4003199668773775 / 72057594037927936) ∧
    splitScore [splitOne, splitTwo, splitThree] questionY
      = -(2001599834386887 / 36028797018963968) ∧
    (selectNextQuestion [questionX, questionY] [("q0", "yes")]
        [splitOne, splitTwo, splitThree]).question = some questionY := by
  refine ⟨by decide, by decide!, by decide!, by decide!, by decide!, by decide!⟩

/-- C26 (amended): for a non-empty answer set none of whose questions is named like a
property of `Object.prototype`, with at least two potential matches, and a non-empty
list of available questions, `selectNextQuestion` returns a question whose split
score as computed in double precision is maximal among the available ones, the first
such in the list: every question before it has a strictly smaller computed score,
every question after it a computed score at most as large. -/
theorem selectNextQuestion_best_split (availableQuestions : List Question)
    (currentAnswers : JsObj String) (profiles : List Profile)
    (hne : currentAnswers ≠ []) (hq : availableQuestions ≠ [])
    (hown : ∀ qa ∈ currentAnswers, qa.1 ∉ inheritedNames)
    (hexp : ∀ p ∈ profiles, ∀ q, expectedAnswer p q ≠ some "")
    (hmany : 2 ≤ (profiles.filter (specPotentialMatch currentAnswers)).length) :
    ∃ q pre post,
      (selectNextQuestion availableQuestions currentAnswers profiles).question = some q ∧
      availableQuestions = pre ++ q :: post ∧
      (∀ x ∈ pre, specSplitScoreDouble (profiles.filter (specPotentialMatch currentAnswers)) x
        < specSplitScoreDouble (profiles.filter (specPotentialMatch currentAnswers)) q) ∧
      (∀ x ∈ post, specSplitScoreDouble (profiles.filter (specPotentialMatch currentAnswers)) x
        ≤ specSplitScoreDouble (profiles.filter (specPotentialMatch currentAnswers)) q) ∧
      (∀ x ∈ availableQuestions,
        specSplitScoreDouble (profiles.filter (specPotentialMatch currentAnswers)) x
          ≤ specSplitScoreDouble (profiles.filter (specPotentialMatch currentAnswers)) q) := by
  have hfilter : profiles.filter (isPotentialMatch currentAnswers)
      = profiles.filter (specPotentialMatch currentAnswers) :=
    List.filter_congr
      (fun p hp => isPotentialMatch_eq_spec currentAnswers p hown (hexp p hp))
  rw [← hfilter] at hmany ⊢
  have hk : ¬ (JsObj.keys currentAnswers).length = 0 := by
    simpa [JsObj.keys] using hne
  have hm : ¬ (profiles.filter (isPotentialMatch currentAnswers)).length ≤ 1 := by omega
  cases availableQuestions with
  | nil => exact absurd rfl hq
  | cons a rest =>
    obtain ⟨q, pre, post, hbest, hsplit, hpre, hpost⟩ :=
      bestLoop_first_max (profiles.filter (isPotentialMatch currentAnswers)) rest a
    have hfirst : bestStep (profiles.filter (isPotentialMatch currentAnswers)) (none, none) a
        = (some a, some (splitScore (profiles.filter (isPotentialMatch currentAnswers)) a)) :=
      rfl
    have hres : (selectNextQuestion (a :: rest) currentAnswers profiles).question = some q := by
      simp only [selectNextQuestion, hk, hm, if_false, List.foldl_cons, hfirst, hbest]
    simp only [← splitScore_eq_spec]
    refine ⟨q, pre, post, hres, hsplit, hpre, hpost, ?_⟩
    intro x hx
    rw [hsplit] at hx
    rcases List.mem_append.1 hx with hx | hx
    · exact le_of_lt (hpre x hx)
    · rcases List.mem_cons.1 hx with hx | hx
      · rw [hx]
      · exact hpost x hx

/-- C26 (amended) at a concrete input: the three potential matches and the two
questions of equal exact score. -/
theorem selectNextQuestion_best_split_witness :
    ∃ q pre post,
      (selectNextQuestion [questionX, questionY] [("q0", "yes")]
        [splitOne, splitTwo, splitThree]).question = some q ∧
      [questionX, questionY] = pre ++ q :: post ∧
      (∀ x ∈ pre,
        specSplitScoreDouble
            ([splitOne, splitTwo, splitThree].filter (specPotentialMatch [("q0", "yes")])) x
          < specSplitScoreDouble
            ([splitOne, splitTwo, splitThree].filter (specPotentialMatch [("q0", "yes")])) q) ∧
      (∀ x ∈ post,
        specSplitScoreDouble
            ([splitOne, splitTwo, splitThree].filter (specPotentialMatch [("q0", "yes")])) x
          ≤ specSplitScoreDouble
            ([splitOne, splitTwo, splitThree].filter (specPotentialMatch [("q0", "yes")])) q) ∧
      (∀ x ∈ [questionX, questionY],
        specSplitScoreDouble
            ([splitOne, splitTwo, splitThree].filter (specPotentialMatch [("q0", "yes")])) x
          ≤ specSplitScoreDouble
            ([splitOne, splitTwo, splitThree].filter (specPotentialMatch [("q0", "yes")])) q) :=
  selectNextQuestion_best_split [questionX, questionY] [("q0", "yes")]
    [splitOne, splitTwo, splitThree] (by simp) (by simp) (by decide)
    (by
      intro p hp q
      simp only [List.mem_cons, List.mem_singleton, List.not_mem_nil, or_false] at hp
      rcases hp with rfl | rfl | rfl <;>
        simp [expectedAnswer, splitOne, splitTwo, splitThree, JsObj.get] <;>
        split_ifs <;> simp)
    (by decide)

theorem expectedAnswer_foldMissing (target : Profile → Bool) (q : String) (p : Profile)
    (q' : String) :
    expectedAnswer (foldMissing target q p) q' = expectedAnswer p q' ∨
    (expectedAnswer (foldMissing target q p) q' = some "unsure" ∧ expectedAnswer p q' = none) := by
  unfold foldMissing
  split_ifs with h
  · rw [expectedAnswer_setAnswer]
    by_cases hq : q = q'
    · subst hq
      exact Or.inr ⟨by simp, h.2⟩
    · exact Or.inl (by simp [hq])
  · exact Or.inl rfl

theorem noDefiniteMismatch_foldMissing (target : Profile → Bool) (q : String) (p : Profile)
    (qa : String × String) (hq : qa.1 ∉ inheritedNames) :
    noDefiniteMismatch (foldMissing target q p) qa = noDefiniteMismatch p qa := by
  rw [noDefiniteMismatch_eq _ _ hq, noDefiniteMismatch_eq _ _ hq]
  rcases expectedAnswer_foldMissing target q p qa.1 with h | ⟨h1, h2⟩
  · rw [h]
  · rw [h1, h2]
    simp

theorem isPotentialMatch_foldMissing (target : Profile → Bool) (q : String)
    (answers : JsObj String) (hown : ∀ qa ∈ answers, qa.1 ∉ inheritedNames) (p : Profile) :
    isPotentialMatch answers (foldMissing target q p) = isPotentialMatch answers p := by
  rw [Bool.eq_iff_iff]
  unfold isPotentialMatch
  rw [List.all_eq_true, List.all_eq_true]
  constructor
  · intro h qa hqa
    rw [← noDefiniteMismatch_foldMissing target q p qa
      (hown qa ((mem_entries_iff answers qa).1 hqa))]
    exact h qa hqa
  · intro h qa hqa
    rw [noDefiniteMismatch_foldMissing target q p qa
      (hown qa ((mem_entries_iff answers qa).1 hqa))]
    exact h qa hqa

theorem filter_foldMissing (target : Profile → Bool) (q : String) (answers : JsObj String)
    (hown : ∀ qa ∈ answers, qa.1 ∉ inheritedNames) (profiles : List Profile) :
    (profiles.map (foldMissing target q)).filter (isPotentialMatch answers)
      = (profiles.filter (isPotentialMatch answers)).map (foldMissing target q) := by
  rw [List.filter_map]
  congr 1
  apply List.filter_congr
  intro p _
  exact isPotentialMatch_foldMissing target q answers hown p

theorem expects_foldMissing (target : Profile → Bool) (q : String) (p : Profile)
    (q' v : String) (hv : v ≠ "unsure") :
    expectedAnswer (foldMissing target q p) q' = some v ↔ expectedAnswer p q' = some v := by
  rcases expectedAnswer_foldMissing target q p q' with h | ⟨h1, h2⟩
  · rw [h]
  · rw [h1, h2]
    constructor
    · intro hc
      exact absurd (Option.some.inj hc).symm hv
    · intro hc
      exact Option.noConfusion hc

theorem splitScore_foldMissing (target : Profile → Bool) (q : String) (pm : List Profile)
    (question : Question) :
    splitScore (pm.map (foldMissing target q)) question = splitScore pm question := by
  rw [splitScore_eq_spec, splitScore_eq_spec]
  have hyes : (pm.map (foldMissing target q)).countP
        (fun p => expectedAnswer p question._id = some "yes")
      = pm.countP (fun p => expectedAnswer p question._id = some "yes") := by
    rw [List.countP_map]
    apply List.countP_congr
    intro p _
    simp [expects_foldMissing target q p question._id "yes" (by decide)]
  have hno : (pm.map (foldMissing target q)).countP
        (fun p => expectedAnswer p question._id = some "no")
      = pm.countP (fun p => expectedAnswer p question._id = some "no") := by
    rw [List.countP_map]
    apply List.countP_congr
    intro p _
    simp [expects_foldMissing target q p question._id "no" (by decide)]
  simp only [specSplitScoreDouble, hyes, hno, List.length_map]

theorem bestStep_foldMissing (target : Profile → Bool) (q : String) (pm : List Profile) :
    bestStep (pm.map (foldMissing target q)) = bestStep pm := by
  funext best question
  simp only [bestStep, splitScore_foldMissing]

/-- Folding away from the inherited names: when no answered question is named like a
property of `Object.prototype`, writing an explicit `unsure` in place of a missing
expected answer, for any question and any choice of profiles, changes neither which
profiles are potential matches nor what `selectNextQuestion` returns. -/
theorem selectNextQuestion_missing_as_unsure (target : Profile → Bool) (questionId : String)
    (availableQuestions : List Question) (currentAnswers : JsObj String)
    (profiles : List Profile) (hown : ∀ qa ∈ currentAnswers, qa.1 ∉ inheritedNames) :
    (∀ p, isPotentialMatch currentAnswers (foldMissing target questionId p)
      = isPotentialMatch currentAnswers p) ∧
    (profiles.map (foldMissing target questionId)).filter (isPotentialMatch currentAnswers)
      = (profiles.filter (isPotentialMatch currentAnswers)).map
          (foldMissing target questionId) ∧
    selectNextQuestion availableQuestions currentAnswers
        (profiles.map (foldMissing target questionId))
      = selectNextQuestion availableQuestions currentAnswers profiles := by
  refine ⟨isPotentialMatch_foldMissing target questionId currentAnswers hown,
    filter_foldMissing target questionId currentAnswers hown profiles, ?_⟩
  simp only [selectNextQuestion, filter_foldMissing target questionId currentAnswers hown,
    bestStep_foldMissing, List.length_map]

/-! ## Scoring: further properties and claims -/

theorem calculateProfileScores_get_of_nodup (answers : JsObj String) (profiles : List Profile)
    (hid : (profiles.map (fun p => p._id)).Nodup) (p : Profile) (hp : p ∈ profiles) :
    (calculateProfileScores answers profiles).get p._id
      = some ((answers.map (fun qa => stepDelta qa.1 qa.2 p)).sum) := by
  rw [calculateProfileScores_get, initScores_get profiles p hp,
    answersDelta_perm profiles _ _ (entries_perm answers)]
  simp only [Option.map_some', zero_add, Option.some.injEq]
  unfold answersDelta
  congr 1
  apply List.map_congr_left
  intro qa _
  exact passDelta_of_nodup profiles hid p hp qa.1 qa.2

theorem stepDelta_of_invalid (q a : String) (p : Profile) (e : String) (ha : ¬ inDomain a)
    (he : expectedAnswer p q = some e) (hdom : inDomain e) :
    stepDelta q a p = if e = "unsure" then 1 / 2 else 0 := by
  have hae : ¬ a = e := fun h => ha (h ▸ hdom)
  have hau : ¬ a = "unsure" := fun h => ha (Or.inr (Or.inr h))
  have hne : ¬ e = "" := by
    rcases hdom with rfl | rfl | rfl <;> decide
  unfold stepDelta
  unfold expectedAnswer at he
  cases hpa : p.answers with
  | none => rw [hpa] at he; exact Option.noConfusion he
  | some pa =>
    rw [hpa] at he
    simp only at he ⊢
    rw [JsObj.read_of_get pa q e he]
    simp [hne, hae, hau]

/-- C22 as stated fails: for the answer `maybe` the function returns a score map, in
which the profile expecting `unsure` scores `0.5`. -/
theorem calculateProfileScores_invalid_answer_counterexample :
    calculateProfileScores [("q1", "maybe")] [profileA, profileUnsure]
      = [("A", 0), ("U", 1 / 2)] := by
  simp [calculateProfileScores, initScores, scoreStep, addTo, JsObj.read, inheritedNames,
    JsObj.entries, JsObj.indexed,
    JsObj.get, JsObj.set, arrayIndex?, digitsValue, profileA, profileUnsure]

/-- C22 (amended): `calculateProfileScores` does not validate answer values.  For
every answer set it returns a score map with exactly the profile identities as
properties, the score of a profile (identities distinct) being the sum of the
contributions of the loop body; an answer outside `yes`, `no`, `unsure` contributes
`0.5` against an expected `unsure` and `0` against an expected `yes` or `no`. -/
theorem calculateProfileScores_no_validation (answers : JsObj String)
    (profiles : List Profile) :
    (∀ k, k ∈ (calculateProfileScores answers profiles).keys ↔ ∃ p ∈ profiles, p._id = k) ∧
    ((profiles.map (fun p => p._id)).Nodup → ∀ p ∈ profiles,
      (calculateProfileScores answers profiles).get p._id
        = some ((answers.map (fun qa => stepDelta qa.1 qa.2 p)).sum)) ∧
    (∀ (q a : String) (p : Profile) (e : String), ¬ inDomain a →
      expectedAnswer p q = some e → inDomain e →
      stepDelta q a p = if e = "unsure" then 1 / 2 else 0) :=
  ⟨calculateProfileScores_mem_keys answers profiles,
    fun hid p hp => calculateProfileScores_get_of_nodup answers profiles hid p hp,
    stepDelta_of_invalid⟩

/-- C22 (amended) at a concrete input: the answer `maybe` against the expected `yes`. -/
theorem calculateProfileScores_no_validation_witness :
    stepDelta "q1" "maybe" profileA = if "yes" = "unsure" then 1 / 2 else 0 :=
  (calculateProfileScores_no_validation [("q1", "maybe")] [profileA, profileUnsure]).2.2
    "q1" "maybe" profileA "yes" (by simp [inDomain]) (by simp [expectedAnswer, profileA, JsObj.get])
    (Or.inl rfl)

theorem stepDelta_le_defined (q a : String) (p : Profile) (hq : q ∉ inheritedNames) :
    stepDelta q a p ≤ if (expectedAnswer p q).isSome then 1 else 0 := by
  cases he : expectedAnswer p q with
  | none =>
    rw [stepDelta_of_undefined q a p hq he]
    simp
  | some e =>
    simp only [Option.isSome_some, if_true]
    exact stepDelta_le_one q a p

theorem sum_stepDelta_le_countP (es : List (String × String)) (p : Profile)
    (hown : ∀ qa ∈ es, qa.1 ∉ inheritedNames) :
    (es.map (fun qa => stepDelta qa.1 qa.2 p)).sum
      ≤ ((es.countP (fun qa => (expectedAnswer p qa.1).isSome) : Nat) : ℚ) := by
  induction es with
  | nil => simp
  | cons qa rest ih =>
    rw [List.map_cons, List.sum_cons, List.countP_cons]
    have h := stepDelta_le_defined qa.1 qa.2 p (hown qa (List.mem_cons_self _ _))
    have ih' := ih (fun x hx => hown x (List.mem_cons_of_mem _ hx))
    by_cases hd : (expectedAnswer p qa.1).isSome = true
    · simp only [hd, if_true] at h ⊢
      push_cast
      linarith
    · have hd' : (expectedAnswer p qa.1).isSome = false := by simpa using hd
      rw [hd'] at h ⊢
      simp only [Bool.false_eq_true, if_false, add_zero] at h ⊢
      linarith

/-- The bounds of the scores away from the inherited names: with distinct identities
and no answered question named like a property of `Object.prototype`, the score of
each profile is at most the number of answered questions for which the profile
defines an expected answer; for every answer set it is at most the number of answers,
so that every score, the top score included, divided by `max(number of answers, 1)`
is at most `1`. -/
theorem calculateProfileScores_le_definedCount (answers : JsObj String)
    (profiles : List Profile) (hid : (profiles.map (fun p => p._id)).Nodup) :
    ((∀ qa ∈ answers, qa.1 ∉ inheritedNames) →
      ∀ p ∈ profiles, ∃ s, (calculateProfileScores answers profiles).get p._id = some s ∧
        s ≤ (definedCount answers p : ℚ) ∧ definedCount answers p ≤ answers.length ∧
        s / max (answers.length : ℚ) 1 ≤ 1) ∧
    (∀ e ∈ calculateProfileScores answers profiles,
      e.2 ≤ (answers.length : ℚ) ∧ e.2 / max (answers.length : ℚ) 1 ≤ 1) := by
  have hdiv : ∀ s : ℚ, s ≤ (answers.length : ℚ) → s / max (answers.length : ℚ) 1 ≤ 1 := by
    intro s hs
    exact (div_le_one (max_count_pos answers.length)).2 (le_trans hs (le_max_left _ _))
  constructor
  · intro hown p hp
    have hle : definedCount answers p ≤ answers.length := List.countP_le_length _
    have hs := sum_stepDelta_le_countP answers p hown
    refine ⟨_, calculateProfileScores_get_of_nodup answers profiles hid p hp, hs, hle, ?_⟩
    apply hdiv
    have hle' : (definedCount answers p : ℚ) ≤ (answers.length : ℚ) := by exact_mod_cast hle
    exact le_trans hs hle'
  · intro e he
    have h := calculateProfileScores_le_length answers profiles hid e he
    exact ⟨h, hdiv _ h⟩

/-- The bounds of the scores at the scenario of the specification. -/
theorem calculateProfileScores_le_definedCount_witness :
    ∃ s, (calculateProfileScores [("q1", "yes"), ("q2", "no")] [profileA, profileB]).get
        profileA._id = some s ∧
      s ≤ (definedCount [("q1", "yes"), ("q2", "no")] profileA : ℚ) ∧
      definedCount [("q1", "yes"), ("q2", "no")] profileA
        ≤ ([("q1", "yes"), ("q2", "no")] : JsObj String).length ∧
      s / max (([("q1", "yes"), ("q2", "no")] : JsObj String).length : ℚ) 1 ≤ 1 :=
  (calculateProfileScores_le_definedCount [("q1", "yes"), ("q2", "no")] [profileA, profileB]
    (by decide)).1 (by decide) profileA (by decide)

/-! ## Evaluations at concrete inputs: selection and majority -/

/-- C29 at the boundary record of three `yes` and two `no`. -/
theorem overwrites_strict_majority_witness :
    ((mostCommon sampleRecord).1 = "yes" → sampleRecord.yes > sampleRecord.no + sampleRecord.unsure) ∧
    ((mostCommon sampleRecord).1 = "no" → sampleRecord.no > sampleRecord.yes + sampleRecord.unsure) ∧
    ((mostCommon sampleRecord).1 = "unsure" →
      sampleRecord.unsure > sampleRecord.yes + sampleRecord.no) ∧
    (0 ≤ sampleRecord.yes → 0 ≤ sampleRecord.no → 0 ≤ sampleRecord.unsure →
      ((mostCommon sampleRecord).1 ≠ "yes" → sampleRecord.yes < (mostCommon sampleRecord).2) ∧
      ((mostCommon sampleRecord).1 ≠ "no" → sampleRecord.no < (mostCommon sampleRecord).2) ∧
      ((mostCommon sampleRecord).1 ≠ "unsure" →
        sampleRecord.unsure < (mostCommon sampleRecord).2)) :=
  overwrites_strict_majority sampleRecord
    (by
      refine ⟨by decide, ?_⟩
      have h : (mostCommon sampleRecord).2 = 3 := by decide
      rw [h]
      norm_num [sampleRecord])
    (by decide)

/-! ## Double-precision arithmetic: known values -/

/-- The doubles nearest to `1/3`, `2/3` and `1/10`, and the rounding of a tie to the
even significand. -/
theorem roundDouble_values :
    roundDouble (1 / 3) = 6004799503160661 / 18014398509481984 ∧
    roundDouble (2 / 3) = 6004799503160661 / 9007199254740992 ∧
    roundDouble (1 / 10) = 3602879701896397 / 36028797018963968 ∧
    roundDouble (1 / 2) = 1 / 2 ∧
    roundDouble 9007199254740993 = 9007199254740992 ∧
    roundDouble 9007199254740995 = 9007199254740996 ∧
    roundDouble (-(1 / 3)) = -(6004799503160661 / 18014398509481984) := by
  refine ⟨by decide!, by decide!, by decide!, by decide!, by decide!, by decide!, by decide!⟩

/-! ## Question names inherited from `Object.prototype` -/

/-- C1: for the answer set `constructor: unsure` and the profile `A`, which defines no
expected answer for `constructor`, the sum of the contributions of the scoring rule is
`0`, and `calculateProfileScores` gives `A` the score `0.5`: the read
`profile.answers['constructor']` yields the inherited function, which passes the guard
meant to skip a question without expected answer. -/
theorem calculateProfileScores_scores_inherited_name :
    expectedAnswer profileA "constructor" = none ∧
    specScore [("constructor", "unsure")] profileA = 0 ∧
    calculateProfileScores [("constructor", "unsure")] [profileA] = [("A", 1 / 2)] := by
  refine ⟨by decide, by decide!, by decide!⟩

/-- C2: the profiles `A` and `B` share no question with the answer set
`constructor: unsure`, and the score map holds `0.5` for each of them, not `0`. -/
theorem calculateProfileScores_no_shared_question_scored :
    (∀ p ∈ [profileA, profileB], ∀ qa ∈ [("constructor", "unsure")],
      expectedAnswer p qa.1 = none) ∧
    calculateProfileScores [("constructor", "unsure")] [profileA, profileB]
      = [("A", 1 / 2), ("B", 1 / 2)] := by
  refine ⟨by decide, by decide!⟩

/-- C30: for the answer set `constructor: unsure` the profile `A` defines an expected
answer for none of the answered questions, and its score `0.5` exceeds that number;
the score is still at most the number of answers. -/
theorem calculateProfileScores_exceeds_definedCount :
    definedCount [("constructor", "unsure")] profileA = 0 ∧
    (calculateProfileScores [("constructor", "unsure")] [profileA]).get profileA._id
      = some (1 / 2) ∧
    ((definedCount [("constructor", "unsure")] profileA : Nat) : ℚ) < 1 / 2 ∧
    (1 / 2 : ℚ) ≤ (([("constructor", "unsure")] : JsObj String).length : ℚ) := by
  refine ⟨by decide, by decide!, by decide!, by decide!⟩

/-- C17: a correct-flagged call on the stored profile `A`, which holds no learning
record, with the session `constructor: yes` persists an empty `learning` object: no
record `{ yes: 1, no: 0, unsure: 0, total: 1 }` is stored for the question, because the
read `learning['constructor']` yields the inherited function and the guard meant to
initialise the record is not entered. -/
theorem updateProfileLearning_inherited_name_not_counted :
    learningRecord? profileA "constructor" = none ∧
    updateProfileLearning sampleStore "A" [("constructor", "yes")] true
      = { profiles :=
            [{ _id := "A", answers := some [("q1", "yes"), ("q2", "no")], learning := some [] },
              profileB]
          ops := [StorageOp.findOne "A", StorageOp.updateOne "A"] } := by
  refine ⟨by decide, by decide!⟩

/-- C20: the stored profile `A` holds no learning record for `constructor`; after five
correct-flagged rounds that each answer `constructor` with `yes`, it still holds none
and defines no expected answer for `constructor`. -/
theorem learnRounds_inherited_name_not_learned :
    learningRecord? profileA "constructor" = none ∧
    constructorSessions.length = 5 ∧
    (∀ sessionAnswers ∈ constructorSessions,
      JsObj.get sessionAnswers "constructor" = some "yes") ∧
    (learnRounds sampleStore "A" constructorSessions).profiles
      = [{ _id := "A", answers := some [("q1", "yes"), ("q2", "no")], learning := some [] },
          profileB] ∧
    (findDocument (learnRounds sampleStore "A" constructorSessions).profiles "A").map
        (fun p => expectedAnswer p "constructor") = some none := by
  refine ⟨by decide, by decide, by decide, by decide!, by decide!⟩

/-- C28: the profiles `A` and `B` define no expected answer for `constructor`.  For the
answer set `constructor: yes` the filter drops both, and `selectNextQuestion` returns
the first question `q1`; with an explicit `unsure` written for `constructor` into both
profiles, both are potential matches and `selectNextQuestion` returns `q2`. -/
theorem selectNextQuestion_inherited_name_fold :
    expectedAnswer profileA "constructor" = none ∧
    expectedAnswer profileB "constructor" = none ∧
    [profileA, profileB].filter (isPotentialMatch [("constructor", "yes")]) = [] ∧
    ([profileA, profileB].map (foldMissing (fun _ => true) "constructor")).filter
        (isPotentialMatch [("constructor", "yes")])
      = [profileA, profileB].map (foldMissing (fun _ => true) "constructor") ∧
    (selectNextQuestion [questionOne, questionTwo] [("constructor", "yes")]
        [profileA, profileB]).question = some questionOne ∧
    (selectNextQuestion [questionOne, questionTwo] [("constructor", "yes")]
        ([profileA, profileB].map (foldMissing (fun _ => true) "constructor"))).question
      = some questionTwo := by
  refine ⟨by decide, by decide, by decide, by decide, by decide!, by decide!⟩

end Guess
